import Mathlib

/-!
# CHIP-8 interpreter core (`Chip8.h`, `Chip8.cpp`)

A shallow embedding of the `Chip8` class: the machine state is a record of its
data members, every opcode handler is a function on that record, and `tick` is the
fetch / decode / execute / timer cycle.

Conventions of the embedding.

* Arrays (`memory`, `REG`, `stackMemory`, `videoMemory`, `keypadMemory`) are
  functions from an index to a value.  The C++ arrays have fixed sizes and no
  bounds checks; an access whose index lies outside the array is undefined
  behaviour in the source.  The embedding makes that explicit: such an access
  yields a `Fault` instead of a state.  A `Fault` is therefore *not* an error
  the program signals, it marks an execution the source leaves undefined.
* Machine integers are natural numbers; every store into a `uint8_t` /
  `uint16_t` / `uint32_t` location is reduced modulo `2^8` / `2^16` / `2^32`.
  `Chip8.WF` says that every data member holds a value of its C++ type.
* `getRandomByte()` is an external source: the byte it would return during a
  tick is a parameter `rnd` of `tick` and of every handler.
-/

namespace Chip8Core

/-! ## Constants of `Chip8.h` -/

def VIDEO_HEIGHT : Nat := 32
def VIDEO_WIDTH : Nat := 64
def KEY_COUNT : Nat := 16
def MEMORY_SIZE : Nat := 4096
def REGISTER_COUNT : Nat := 16
def STACK_LEVELS : Nat := 16
def ROM_START_ADDRESS : Nat := 0x200
def BYTES_PER_CHAR : Nat := 5
def FONTSET_SIZE : Nat := 16 * BYTES_PER_CHAR
def FONTSET_START_ADDRESS : Nat := 0x50

/-- The built-in glyph table `FONTSET` (sixteen glyphs of five rows). -/
def FONTSET : List Nat :=
  [ 0xF0, 0x90, 0x90, 0x90, 0xF0,   -- 0
    0x20, 0x60, 0x20, 0x20, 0x70,   -- 1
    0xF0, 0x10, 0xF0, 0x80, 0xF0,   -- 2
    0xF0, 0x10, 0xF0, 0x10, 0xF0,   -- 3
    0x90, 0x90, 0xF0, 0x10, 0x10,   -- 4
    0xF0, 0x80, 0xF0, 0x10, 0xF0,   -- 5
    0xF0, 0x80, 0xF0, 0x90, 0xF0,   -- 6
    0xF0, 0x10, 0x20, 0x40, 0x40,   -- 7
    0xF0, 0x90, 0xF0, 0x90, 0xF0,   -- 8
    0xF0, 0x90, 0xF0, 0x10, 0xF0,   -- 9
    0xF0, 0x90, 0xF0, 0x90, 0x90,   -- A
    0xE0, 0x90, 0xE0, 0x90, 0xE0,   -- B
    0xF0, 0x80, 0x80, 0x80, 0xF0,   -- C
    0xE0, 0x90, 0x90, 0x90, 0xE0,   -- D
    0xF0, 0x80, 0xF0, 0x80, 0xF0,   -- E
    0xF0, 0x80, 0xF0, 0x80, 0x80 ]  -- F

/-! ## Machine state -/

/-- The data members of `class Chip8` (the dispatch tables are constant after
construction and are modelled as the functions `routerTable`, `subTable0`, ...). -/
structure Chip8 where
  keypadMemory : Nat → Nat
  videoMemory : Nat → Nat
  R_BUZZER_TIMER : Nat
  opcode : Nat
  memory : Nat → Nat
  stackMemory : Nat → Nat
  REG : Nat → Nat
  R_I : Nat
  R_SP : Nat
  R_PC : Nat
  R_DELAY_TIMER : Nat

/-- Every data member holds a value of its C++ type (`uint8_t`, `uint16_t`,
`uint32_t`). -/
structure Chip8.WF (s : Chip8) : Prop where
  keypad : ∀ k, s.keypadMemory k < 256
  video : ∀ i, s.videoMemory i < 4294967296
  buzzer : s.R_BUZZER_TIMER < 256
  opcode : s.opcode < 65536
  memory : ∀ a, s.memory a < 256
  stack : ∀ k, s.stackMemory k < 65536
  reg : ∀ k, s.REG k < 256
  ri : s.R_I < 65536
  sp : s.R_SP < 256
  pc : s.R_PC < 65536
  delay : s.R_DELAY_TIMER < 256

/-- An array access outside the array: undefined behaviour of the source. -/
inductive Fault where
  | memoryOutOfBounds (index : Nat)
  | stackOutOfBounds (index : Nat)
  | keypadOutOfBounds (index : Nat)
  deriving DecidableEq, Repr

/-- Result of running a piece of the interpreter. -/
abbrev Result := Except Fault Chip8

/-- Reduction of an integer to `uint8_t`. -/
def wrap8 (i : Int) : Nat := (i % 256).toNat

/-- Reduction of an integer to `uint16_t`. -/
def wrap16 (i : Int) : Nat := (i % 65536).toNat

/-- Assignment `REG[i] = v`. -/
def Chip8.setReg (s : Chip8) (i v : Nat) : Chip8 :=
  { s with REG := fun k => if k = i then v else s.REG k }

/-- Assignment `memory[a] = v` (the caller has checked `a < MEMORY_SIZE`). -/
def Chip8.setMem (s : Chip8) (a v : Nat) : Chip8 :=
  { s with memory := fun k => if k = a then v else s.memory k }

/-- Assignment `videoMemory[i] = v`. -/
def Chip8.setVideo (s : Chip8) (i v : Nat) : Chip8 :=
  { s with videoMemory := fun k => if k = i then v else s.videoMemory k }

/-! ## Field extraction, as written in every handler -/

/-- Field `(opcode & 0x0F00u) >> 8u`. -/
def Chip8.Vx (s : Chip8) : Nat := ((s.opcode &&& 0x0F00) >>> 8) % 256

/-- Field `(opcode & 0x00F0u) >> 4u`. -/
def Chip8.Vy (s : Chip8) : Nat := ((s.opcode &&& 0x00F0) >>> 4) % 256

/-- Field `opcode & 0x00FFu`. -/
def Chip8.byte (s : Chip8) : Nat := (s.opcode &&& 0x00FF) % 256

/-- Field `opcode & 0x0FFFu`. -/
def Chip8.address (s : Chip8) : Nat := (s.opcode &&& 0x0FFF) % 65536

/-- Handlers are members `void (Chip8::*)()`; `rnd` is the byte that
`getRandomByte()` returns if the handler calls it. -/
abbrev Handler := Nat → Chip8 → Result

/-! ## Handlers -/

/-- The handler `DO_NOTHING`. -/
def DO_NOTHING : Handler := fun _ s => .ok s

/-- CLS: `memset(videoMemory, 0, sizeof(videoMemory))`. -/
def OP_00E0 : Handler := fun _ s =>
  .ok { s with videoMemory := fun i =>
          if i < VIDEO_WIDTH * VIDEO_HEIGHT then 0 else s.videoMemory i }

/-- RET: `--R_SP; R_PC = stackMemory[R_SP];`. -/
def OP_00EE : Handler := fun _ s =>
  let sp := wrap8 ((s.R_SP : Int) - 1)
  if sp < STACK_LEVELS then
    .ok { s with R_SP := sp, R_PC := s.stackMemory sp }
  else .error (.stackOutOfBounds sp)

/-- JP nnn. -/
def OP_1nnn : Handler := fun _ s =>
  .ok { s with R_PC := s.address }

/-- CALL nnn: `stackMemory[R_SP] = R_PC; ++R_SP; R_PC = address;`. -/
def OP_2nnn : Handler := fun _ s =>
  if s.R_SP < STACK_LEVELS then
    .ok { s with
          stackMemory := fun k => if k = s.R_SP then s.R_PC else s.stackMemory k,
          R_SP := (s.R_SP + 1) % 256,
          R_PC := s.address }
  else .error (.stackOutOfBounds s.R_SP)

/-- JP V0, nnn: `R_PC = REG[0] + address`. -/
def OP_Bnnn : Handler := fun _ s =>
  .ok { s with R_PC := (s.REG 0 + s.address) % 65536 }

/-- SE Vx, kk. -/
def OP_3xkk : Handler := fun _ s =>
  if s.REG s.Vx = s.byte then .ok { s with R_PC := (s.R_PC + 2) % 65536 } else .ok s

/-- SNE Vx, kk. -/
def OP_4xkk : Handler := fun _ s =>
  if s.REG s.Vx ≠ s.byte then .ok { s with R_PC := (s.R_PC + 2) % 65536 } else .ok s

/-- SE Vx, Vy. -/
def OP_5xy0 : Handler := fun _ s =>
  if s.REG s.Vx = s.REG s.Vy then .ok { s with R_PC := (s.R_PC + 2) % 65536 } else .ok s

/-- SNE Vx, Vy. -/
def OP_9xy0 : Handler := fun _ s =>
  if s.REG s.Vx ≠ s.REG s.Vy then .ok { s with R_PC := (s.R_PC + 2) % 65536 } else .ok s

/-- LD Vx, kk. -/
def OP_6xkk : Handler := fun _ s =>
  .ok (s.setReg s.Vx s.byte)

/-- ADD Vx, kk: `REG[Vx] += byte`. -/
def OP_7xkk : Handler := fun _ s =>
  .ok (s.setReg s.Vx ((s.REG s.Vx + s.byte) % 256))

/-- LD Vx, Vy. -/
def OP_8xy0 : Handler := fun _ s =>
  .ok (s.setReg s.Vx (s.REG s.Vy))

/-- OR Vx, Vy. -/
def OP_8xy1 : Handler := fun _ s =>
  .ok (s.setReg s.Vx ((s.REG s.Vx ||| s.REG s.Vy) % 256))

/-- AND Vx, Vy. -/
def OP_8xy2 : Handler := fun _ s =>
  .ok (s.setReg s.Vx ((s.REG s.Vx &&& s.REG s.Vy) % 256))

/-- XOR Vx, Vy. -/
def OP_8xy3 : Handler := fun _ s =>
  .ok (s.setReg s.Vx ((s.REG s.Vx ^^^ s.REG s.Vy) % 256))

/-- ADD Vx, Vy: the flag is written first, then `REG[Vx] = sum & 0xFFu`. -/
def OP_8xy4 : Handler := fun _ s =>
  let vx := s.Vx
  let vy := s.Vy
  let sum := (s.REG vx + s.REG vy) % 65536
  let s1 := if sum > 255 then s.setReg 0xF 1 else s.setReg 0xF 0
  .ok (s1.setReg vx ((sum &&& 0xFF) % 256))

/-- SUB Vx, Vy: the flag is written first, then `REG[Vx] -= REG[Vy]`. -/
def OP_8xy5 : Handler := fun _ s =>
  let vx := s.Vx
  let vy := s.Vy
  let s1 := if s.REG vx > s.REG vy then s.setReg 0xF 1 else s.setReg 0xF 0
  .ok (s1.setReg vx (wrap8 ((s1.REG vx : Int) - (s1.REG vy : Int))))

/-- SHR Vx: `REG[0xF] = REG[Vx] & 1; REG[Vx] = REG[Vx] >> 1;`. -/
def OP_8xy6 : Handler := fun _ s =>
  let vx := s.Vx
  let s1 := s.setReg 0xF ((s.REG vx &&& 0x0001) % 256)
  .ok (s1.setReg vx ((s1.REG vx >>> 1) % 256))

/-- SUBN Vx, Vy: the flag is written first, then `REG[Vx] = REG[Vy] - REG[Vx]`. -/
def OP_8xy7 : Handler := fun _ s =>
  let vx := s.Vx
  let vy := s.Vy
  let s1 := if s.REG vy ≥ s.REG vx then s.setReg 0xF 1 else s.setReg 0xF 0
  .ok (s1.setReg vx (wrap8 ((s1.REG vy : Int) - (s1.REG vx : Int))))

/-- SHL Vx: `bit7 = (REG[Vx] & 0x80u) >> 7u; REG[0xF] = bit7; REG[Vx] <<= 1;`. -/
def OP_8xyE : Handler := fun _ s =>
  let vx := s.Vx
  let bit7 := ((s.REG vx &&& 0x80) >>> 7) % 256
  let s1 := s.setReg 0xF bit7
  .ok (s1.setReg vx ((s1.REG vx <<< 1) % 256))

/-- LD I, nnn. -/
def OP_Annn : Handler := fun _ s =>
  .ok { s with R_I := s.address }

/-- RND Vx, kk: `REG[Vx] = getRandomByte() & byte`. -/
def OP_Cxkk : Handler := fun rnd s =>
  .ok (s.setReg s.Vx (((rnd % 256) &&& s.byte) % 256))

/-- The update `*screenPixel ^= 0xFFFFFFFF` of a `uint32_t` cell. -/
def togglePixel (v : Nat) : Nat := (v ^^^ 0xFFFFFFFF) % 4294967296

/-- Body of the inner loop of `OP_Dxyn` for one column. -/
def drawPixel (spriteByte startX startY row col : Nat) (s : Chip8) : Chip8 :=
  let spritePixel := (spriteByte &&& (0x80 >>> col)) % 256
  let x := ((startX + col) % VIDEO_WIDTH) % 256
  let y := ((startY + row) % VIDEO_HEIGHT) % 256
  let idx := y * VIDEO_WIDTH + x
  if spritePixel ≠ 0 then
    let s1 := if s.videoMemory idx = 0xFFFFFFFF then s.setReg 0xF 1 else s
    s1.setVideo idx (togglePixel (s1.videoMemory idx))
  else s

/-- Inner loop of `OP_Dxyn`: columns `0 .. n-1` in ascending order. -/
def drawCols (spriteByte startX startY row : Nat) : Nat → Chip8 → Chip8
  | 0, s => s
  | n + 1, s => drawPixel spriteByte startX startY row n (drawCols spriteByte startX startY row n s)

/-- Outer loop of `OP_Dxyn`: rows `0 .. n-1` in ascending order, each reading
`memory[R_I + row]`. -/
def drawRows (startX startY : Nat) : Nat → Chip8 → Result
  | 0, s => .ok s
  | n + 1, s =>
    match drawRows startX startY n s with
    | .error e => .error e
    | .ok s1 =>
      if s1.R_I + n < MEMORY_SIZE then
        .ok (drawCols (s1.memory (s1.R_I + n)) startX startY n 8 s1)
      else .error (.memoryOutOfBounds (s1.R_I + n))

/-- DRW Vx, Vy, n. -/
def OP_Dxyn : Handler := fun _ s =>
  let vx := s.Vx
  let vy := s.Vy
  let numRows := (s.opcode &&& 0x000F) % 256
  let s1 := s.setReg 0xF 0
  let startX := (s1.REG vx % VIDEO_WIDTH) % 256
  let startY := (s1.REG vy % VIDEO_HEIGHT) % 256
  drawRows startX startY numRows s1

/-- SKP Vx. -/
def OP_Ex9E : Handler := fun _ s =>
  let key := s.REG s.Vx
  if key < KEY_COUNT then
    if s.keypadMemory key ≠ 0 then .ok { s with R_PC := (s.R_PC + 2) % 65536 } else .ok s
  else .error (.keypadOutOfBounds key)

/-- SKNP Vx. -/
def OP_ExA1 : Handler := fun _ s =>
  let key := s.REG s.Vx
  if key < KEY_COUNT then
    if s.keypadMemory key = 0 then .ok { s with R_PC := (s.R_PC + 2) % 65536 } else .ok s
  else .error (.keypadOutOfBounds key)

/-- Loop of `OP_Fx0A`: the first `k' ≥ k` among the next `fuel` indices whose key
is pressed. -/
def findKey (keypad : Nat → Nat) : Nat → Nat → Option Nat
  | 0, _ => none
  | fuel + 1, k => if keypad k ≠ 0 then some k else findKey keypad fuel (k + 1)

/-- LD Vx, K. -/
def OP_Fx0A : Handler := fun _ s =>
  match findKey s.keypadMemory 16 0 with
  | some k => .ok (s.setReg s.Vx k)
  | none => .ok { s with R_PC := wrap16 ((s.R_PC : Int) - 2) }

/-- LD Vx, DT. -/
def OP_Fx07 : Handler := fun _ s =>
  .ok (s.setReg s.Vx s.R_DELAY_TIMER)

/-- LD DT, Vx. -/
def OP_Fx15 : Handler := fun _ s =>
  .ok { s with R_DELAY_TIMER := s.REG s.Vx }

/-- LD ST, Vx. -/
def OP_Fx18 : Handler := fun _ s =>
  .ok { s with R_BUZZER_TIMER := s.REG s.Vx }

/-- ADD I, Vx. -/
def OP_Fx1E : Handler := fun _ s =>
  .ok { s with R_I := (s.R_I + s.REG s.Vx) % 65536 }

/-- LD F, Vx. -/
def OP_Fx29 : Handler := fun _ s =>
  let digit := s.REG s.Vx
  .ok { s with R_I := (FONTSET_START_ADDRESS + BYTES_PER_CHAR * digit) % 65536 }

/-- LD B, Vx. -/
def OP_Fx33 : Handler := fun _ s =>
  let value := s.REG s.Vx
  if s.R_I + 0 < MEMORY_SIZE then
    let s1 := s.setMem (s.R_I + 0) ((value / 100) % 256)
    if s1.R_I + 1 < MEMORY_SIZE then
      let s2 := s1.setMem (s1.R_I + 1) (((value / 10) % 10) % 256)
      if s2.R_I + 2 < MEMORY_SIZE then
        .ok (s2.setMem (s2.R_I + 2) ((value % 10) % 256))
      else .error (.memoryOutOfBounds (s2.R_I + 2))
    else .error (.memoryOutOfBounds (s1.R_I + 1))
  else .error (.memoryOutOfBounds (s.R_I + 0))

/-- Loop of `OP_Fx55`: `memory[R_I + w] = REG[w]` for `w = 0 .. n-1`. -/
def storeRegs : Nat → Chip8 → Result
  | 0, s => .ok s
  | n + 1, s =>
    match storeRegs n s with
    | .error e => .error e
    | .ok s1 =>
      if s1.R_I + n < MEMORY_SIZE then .ok (s1.setMem (s1.R_I + n) (s1.REG n))
      else .error (.memoryOutOfBounds (s1.R_I + n))

/-- LD [I], Vx: the loop runs for `w = 0 .. Vx` inclusive. -/
def OP_Fx55 : Handler := fun _ s =>
  storeRegs (s.Vx + 1) s

/-- Loop of `OP_Fx65`: `REG[w] = memory[R_I + w]` for `w = 0 .. n-1`. -/
def loadRegs : Nat → Chip8 → Result
  | 0, s => .ok s
  | n + 1, s =>
    match loadRegs n s with
    | .error e => .error e
    | .ok s1 =>
      if s1.R_I + n < MEMORY_SIZE then .ok (s1.setReg n (s1.memory (s1.R_I + n)))
      else .error (.memoryOutOfBounds (s1.R_I + n))

/-- LD Vx, [I]: the loop runs for `w = 0 .. Vx` inclusive. -/
def OP_Fx65 : Handler := fun _ s =>
  loadRegs (s.Vx + 1) s

/-! ## Dispatch tables, as filled in by the constructor -/

/-- Table `subTable0`: `DO_NOTHING` everywhere except entries `0x0` and `0xE`. -/
def subTable0 (i : Nat) : Handler :=
  if i = 0x0 then OP_00E0
  else if i = 0xE then OP_00EE
  else DO_NOTHING

/-- Table `subTable8`. -/
def subTable8 (i : Nat) : Handler :=
  if i = 0x0 then OP_8xy0
  else if i = 0x1 then OP_8xy1
  else if i = 0x2 then OP_8xy2
  else if i = 0x3 then OP_8xy3
  else if i = 0x4 then OP_8xy4
  else if i = 0x5 then OP_8xy5
  else if i = 0x6 then OP_8xy6
  else if i = 0x7 then OP_8xy7
  else if i = 0xE then OP_8xyE
  else DO_NOTHING

/-- Table `subTableE`. -/
def subTableE (i : Nat) : Handler :=
  if i = 0x1 then OP_ExA1
  else if i = 0xE then OP_Ex9E
  else DO_NOTHING

/-- Table `subTableF` (256 entries). -/
def subTableF (i : Nat) : Handler :=
  if i = 0x07 then OP_Fx07
  else if i = 0x0A then OP_Fx0A
  else if i = 0x15 then OP_Fx15
  else if i = 0x18 then OP_Fx18
  else if i = 0x1E then OP_Fx1E
  else if i = 0x29 then OP_Fx29
  else if i = 0x33 then OP_Fx33
  else if i = 0x55 then OP_Fx55
  else if i = 0x65 then OP_Fx65
  else DO_NOTHING

/-- Second-level dispatch on `opcode & 0x000Fu`. -/
def SubHandlerFn0 : Handler := fun rnd s => subTable0 (s.opcode &&& 0x000F) rnd s

/-- Second-level dispatch on `opcode & 0x000Fu`. -/
def SubHandlerFn8 : Handler := fun rnd s => subTable8 (s.opcode &&& 0x000F) rnd s

/-- Second-level dispatch on `opcode & 0x000Fu`. -/
def SubHandlerFnE : Handler := fun rnd s => subTableE (s.opcode &&& 0x000F) rnd s

/-- Second-level dispatch on the low byte `opcode & 0x00FFu`. -/
def SubHandlerFnF : Handler := fun rnd s => subTableF ((s.opcode &&& 0x00FF) % 256) rnd s

/-- Table `routerTable`, indexed by the top nibble. -/
def routerTable (i : Nat) : Handler :=
  match i with
  | 0 => SubHandlerFn0
  | 1 => OP_1nnn
  | 2 => OP_2nnn
  | 3 => OP_3xkk
  | 4 => OP_4xkk
  | 5 => OP_5xy0
  | 6 => OP_6xkk
  | 7 => OP_7xkk
  | 8 => SubHandlerFn8
  | 9 => OP_9xy0
  | 0xA => OP_Annn
  | 0xB => OP_Bnnn
  | 0xC => OP_Cxkk
  | 0xD => OP_Dxyn
  | 0xE => SubHandlerFnE
  | _ => SubHandlerFnF

/-! ## The tick -/

/-- Steps 1 of `tick`: read `memory[R_PC]` and `memory[R_PC + 1]`, build the
opcode, add 2 to `R_PC`. -/
def fetch (s : Chip8) : Result :=
  if s.R_PC < MEMORY_SIZE then
    let highByte := s.memory s.R_PC
    if s.R_PC + 1 < MEMORY_SIZE then
      let lowByte := s.memory (s.R_PC + 1)
      .ok { s with opcode := ((highByte <<< 8) ||| lowByte) % 65536,
                   R_PC := (s.R_PC + 2) % 65536 }
    else .error (.memoryOutOfBounds (s.R_PC + 1))
  else .error (.memoryOutOfBounds s.R_PC)

/-- Steps 2 and 3 of `tick`: `nibble3 = (opcode & 0xF000u) >> 12u`, then the call
through `routerTable[nibble3]`. -/
def execute (rnd : Nat) (s : Chip8) : Result :=
  let nibble3 := ((s.opcode &&& 0xF000) >>> 12) % 256
  routerTable nibble3 rnd s

/-- The timer section that ends `tick`. -/
def timers (s : Chip8) : Chip8 :=
  let s1 := if s.R_DELAY_TIMER > 0 then { s with R_DELAY_TIMER := s.R_DELAY_TIMER - 1 } else s
  if s1.R_BUZZER_TIMER > 0 then { s1 with R_BUZZER_TIMER := s1.R_BUZZER_TIMER - 1 } else s1

/-- One call of `Chip8::tick`. -/
def tick (rnd : Nat) (s : Chip8) : Result :=
  match fetch s with
  | .error e => .error e
  | .ok s1 =>
    match execute rnd s1 with
    | .error e => .error e
    | .ok s2 => .ok (timers s2)


/-! ## Running several ticks -/

/-- Consecutive calls of `tick`, one per element of `rnds` (the random byte
available to that tick), with no keypad write in between; stops at the first
fault. -/
def runTicks : List Nat → Chip8 → Result
  | [], s => .ok s
  | rnd :: rest, s =>
    match tick rnd s with
    | .error e => .error e
    | .ok s1 => runTicks rest s1

/-! ## Program loader -/

/-- What the file system hands to `loadROM`: the stream cannot be opened, it
opens but the read fails, or the read yields the bytes of the file. -/
inductive RomFile where
  | cannotOpen
  | cannotRead
  | content (buffer : List Nat)

/-- How a call of `loadROM` ends: it returns normally, it throws
`std::runtime_error`, or it writes outside `memory` (undefined behaviour). -/
inductive LoadOutcome where
  | returned (s : Chip8)
  | threw
  | undefined (f : Fault)

/-- Copy loop of `loadROM`: `memory[ROM_START_ADDRESS + i] = buffer[i]` for
`i = 0 .. n-1`. -/
def loadLoop (buffer : List Nat) : Nat → Chip8 → Result
  | 0, s => .ok s
  | n + 1, s =>
    match loadLoop buffer n s with
    | .error e => .error e
    | .ok s1 =>
      if ROM_START_ADDRESS + n < MEMORY_SIZE then
        .ok (s1.setMem (ROM_START_ADDRESS + n) (buffer.getD n 0))
      else .error (.memoryOutOfBounds (ROM_START_ADDRESS + n))

/-- The loader `Chip8::loadROM`: an unopenable file is reported on `std::cerr` and
the call returns; a failed read throws; otherwise the whole buffer (`lastPos`
bytes) is copied. -/
def loadROM (file : RomFile) (s : Chip8) : LoadOutcome :=
  match file with
  | .cannotOpen => .returned s
  | .cannotRead => .threw
  | .content buffer =>
    match loadLoop buffer buffer.length s with
    | .ok s1 => .returned s1
    | .error f => .undefined f

/-! ## Construction -/

/-- Value-initialised data members (`{}` in the class body). -/
def Chip8.zero : Chip8 :=
  { keypadMemory := fun _ => 0, videoMemory := fun _ => 0, R_BUZZER_TIMER := 0,
    opcode := 0, memory := fun _ => 0, stackMemory := fun _ => 0, REG := fun _ => 0,
    R_I := 0, R_SP := 0, R_PC := 0, R_DELAY_TIMER := 0 }

/-- Font loop of the constructor:
`memory[FONTSET_START_ADDRESS + i] = FONTSET[i]` for `i = 0 .. n-1`. -/
def loadFont : Nat → Chip8 → Chip8
  | 0, s => s
  | n + 1, s => (loadFont n s).setMem (FONTSET_START_ADDRESS + n) (FONTSET.getD n 0)

/-- The constructor `Chip8::Chip8()`. -/
def Chip8.new : Chip8 :=
  loadFont FONTSET_SIZE { Chip8.zero with R_PC := ROM_START_ADDRESS }

/-! ## Classes of instruction words used in the statements -/

/-- Instruction words routed to a handler whose body assigns `R_PC`:
`OP_00EE`, `OP_1nnn`, `OP_2nnn`, `OP_3xkk`, `OP_4xkk`, `OP_5xy0`, `OP_9xy0`,
`OP_Bnnn`, `OP_ExA1`, `OP_Ex9E`, `OP_Fx0A`. -/
def writesPC (w : Nat) : Prop :=
  (w / 4096 % 16 = 0 ∧ w % 16 = 0xE) ∨
  w / 4096 % 16 = 1 ∨ w / 4096 % 16 = 2 ∨ w / 4096 % 16 = 3 ∨ w / 4096 % 16 = 4 ∨
  w / 4096 % 16 = 5 ∨ w / 4096 % 16 = 9 ∨ w / 4096 % 16 = 0xB ∨
  (w / 4096 % 16 = 0xE ∧ (w % 16 = 0x1 ∨ w % 16 = 0xE)) ∨
  (w / 4096 % 16 = 0xF ∧ w % 256 = 0x0A)

/-- Instruction words routed to a handler that indexes `memory`:
`OP_Dxyn`, `OP_Fx33`, `OP_Fx55`, `OP_Fx65`. -/
def accessesMemory (w : Nat) : Prop :=
  w / 4096 % 16 = 0xD ∨
  (w / 4096 % 16 = 0xF ∧ (w % 256 = 0x33 ∨ w % 256 = 0x55 ∨ w % 256 = 0x65))

/-- Instruction words routed to `OP_Fx15` (set-delay). -/
def isSetDelay (w : Nat) : Prop := w / 4096 % 16 = 0xF ∧ w % 256 = 0x15

/-- Instruction words routed to `OP_Fx18` (set-sound). -/
def isSetSound (w : Nat) : Prop := w / 4096 % 16 = 0xF ∧ w % 256 = 0x18

/-- Instruction words with no assigned handler: family 0 with low nibble not in
`{0x0, 0xE}`, family 8 with low nibble in `{0x8 .. 0xD, 0xF}`, family E with low
nibble not in `{0x1, 0xE}`, family F with low byte not in
`{0x07, 0x0A, 0x15, 0x18, 0x1E, 0x29, 0x33, 0x55, 0x65}`. -/
def unassigned (w : Nat) : Prop :=
  (w / 4096 = 0x0 ∧ w % 16 ≠ 0x0 ∧ w % 16 ≠ 0xE) ∨
  (w / 4096 = 0x8 ∧ ((0x8 ≤ w % 16 ∧ w % 16 ≤ 0xD) ∨ w % 16 = 0xF)) ∨
  (w / 4096 = 0xE ∧ w % 16 ≠ 0x1 ∧ w % 16 ≠ 0xE) ∨
  (w / 4096 = 0xF ∧ w % 256 ≠ 0x07 ∧ w % 256 ≠ 0x0A ∧ w % 256 ≠ 0x15 ∧ w % 256 ≠ 0x18 ∧
    w % 256 ≠ 0x1E ∧ w % 256 ≠ 0x29 ∧ w % 256 ≠ 0x33 ∧ w % 256 ≠ 0x55 ∧ w % 256 ≠ 0x65)

instance (w : Nat) : Decidable (writesPC w) := by unfold writesPC; infer_instance
instance (w : Nat) : Decidable (accessesMemory w) := by unfold accessesMemory; infer_instance
instance (w : Nat) : Decidable (isSetDelay w) := by unfold isSetDelay; infer_instance
instance (w : Nat) : Decidable (isSetSound w) := by unfold isSetSound; infer_instance
instance (w : Nat) : Decidable (unassigned w) := by unfold unassigned; infer_instance

/-- Data members that an execute step leaves alone, by class of instruction. -/
structure ExecFrame (s s' : Chip8) : Prop where
  opcode : s'.opcode = s.opcode
  keypad : s'.keypadMemory = s.keypadMemory
  pc : ¬ writesPC s.opcode → s'.R_PC = s.R_PC
  delay : ¬ isSetDelay s.opcode → s'.R_DELAY_TIMER = s.R_DELAY_TIMER
  sound : ¬ isSetSound s.opcode → s'.R_BUZZER_TIMER = s.R_BUZZER_TIMER

/-! ## Vocabulary of the statements about drawing -/

/-- Position in `videoMemory` of the cell in column `x` of row `y`. -/
def cellIndex (x y : Nat) : Nat := y * VIDEO_WIDTH + x

/-- Bit `7 - c` of a sprite row `b`: the pixel of column `c`. -/
def spriteBit (b c : Nat) : Bool := b.testBit (7 - c)

/-- Cell that pixel `(r, c)` of a sprite placed at `(x0, y0)` lands on, with
wraparound in both directions. -/
def targetCell (x0 y0 r c : Nat) : Nat :=
  cellIndex ((x0 + c) % VIDEO_WIDTH) ((y0 + r) % VIDEO_HEIGHT)

/-- What drawing the pixels `c < n` of row `r` does to a state. -/
structure DrawnCols (b x0 y0 r n : Nat) (s s' : Chip8) : Prop where
  frame : s' = { s with REG := s'.REG, videoMemory := s'.videoMemory }
  regs : ∀ k, k ≠ 15 → s'.REG k = s.REG k
  hit : ∀ c, c < n → s'.videoMemory (targetCell x0 y0 r c) =
    if spriteBit b c = true then togglePixel (s.videoMemory (targetCell x0 y0 r c))
    else s.videoMemory (targetCell x0 y0 r c)
  miss : ∀ i, (∀ c, c < n → i ≠ targetCell x0 y0 r c) → s'.videoMemory i = s.videoMemory i
  flagSet : (∃ c, c < n ∧ spriteBit b c = true ∧
    s.videoMemory (targetCell x0 y0 r c) = 0xFFFFFFFF) → s'.REG 15 = 1
  flagKeep : (¬ ∃ c, c < n ∧ spriteBit b c = true ∧
    s.videoMemory (targetCell x0 y0 r c) = 0xFFFFFFFF) → s'.REG 15 = s.REG 15


/-- What drawing the rows `r < n` of the sprite at `memory[R_I ..]` does to a state. -/
structure DrawnRows (x0 y0 n : Nat) (s s' : Chip8) : Prop where
  frame : s' = { s with REG := s'.REG, videoMemory := s'.videoMemory }
  regs : ∀ k, k ≠ 15 → s'.REG k = s.REG k
  hit : ∀ r c, r < n → c < 8 → s'.videoMemory (targetCell x0 y0 r c) =
    if spriteBit (s.memory (s.R_I + r)) c = true
    then togglePixel (s.videoMemory (targetCell x0 y0 r c))
    else s.videoMemory (targetCell x0 y0 r c)
  miss : ∀ i, (∀ r c, r < n → c < 8 → i ≠ targetCell x0 y0 r c) →
    s'.videoMemory i = s.videoMemory i
  flagSet : (∃ r c, r < n ∧ c < 8 ∧ spriteBit (s.memory (s.R_I + r)) c = true ∧
    s.videoMemory (targetCell x0 y0 r c) = 0xFFFFFFFF) → s'.REG 15 = 1
  flagKeep : (¬ ∃ r c, r < n ∧ c < 8 ∧ spriteBit (s.memory (s.R_I + r)) c = true ∧
    s.videoMemory (targetCell x0 y0 r c) = 0xFFFFFFFF) → s'.REG 15 = s.REG 15


/-! ## Runs of the machine -/

/-- The instruction word that `tick` builds from `memory[R_PC]` and
`memory[R_PC + 1]`. -/
def fetchWord (s : Chip8) : Nat :=
  ((s.memory s.R_PC <<< 8) ||| s.memory (s.R_PC + 1)) % 65536

/-- The glyph table is in place: `memory[0x50 + i] = FONTSET[i]` for `i < 80`. -/
def glyphIntact (s : Chip8) : Prop :=
  ∀ i, i < FONTSET_SIZE → s.memory (FONTSET_START_ADDRESS + i) = FONTSET.getD i 0

/-- The next instruction of `s` is store-bcd (`FX33`) whose target `[I, I+2]`, or
store-regs (`FX55`) whose target `[I, I+X]`, meets the glyph region
`[0x50, 0x9F]`. -/
def storesIntoGlyphs (s : Chip8) : Prop :=
  (fetchWord s / 4096 % 16 = 0xF ∧ fetchWord s % 256 = 0x33 ∧
    s.R_I < FONTSET_START_ADDRESS + FONTSET_SIZE ∧ FONTSET_START_ADDRESS ≤ s.R_I + 2) ∨
  (fetchWord s / 4096 % 16 = 0xF ∧ fetchWord s % 256 = 0x55 ∧
    s.R_I < FONTSET_START_ADDRESS + FONTSET_SIZE ∧
    FONTSET_START_ADDRESS ≤ s.R_I + fetchWord s / 256 % 16)

/-- States of a run of the emulator: a fresh machine loaded with an image that
fits, then any number of ticks, with keypad writes by the input collaborator in
between.  A tick is only taken from a state that satisfies `allowed`. -/
inductive ReachableVia (allowed : Chip8 → Prop) : Chip8 → Prop where
  | loaded (image : List Nat) (s : Chip8) :
      image.length ≤ MEMORY_SIZE - ROM_START_ADDRESS →
      loadROM (.content image) Chip8.new = .returned s → ReachableVia allowed s
  | keys (s : Chip8) (keypad : Nat → Nat) :
      ReachableVia allowed s → ReachableVia allowed { s with keypadMemory := keypad }
  | step (rnd : Nat) (s s' : Chip8) :
      ReachableVia allowed s → allowed s → tick rnd s = .ok s' → ReachableVia allowed s'

/-- The state `main` ticks first: a fresh machine after `loadROM` of a readable
image (the fresh machine itself if the load does not return). -/
def bootImage (image : List Nat) : Chip8 :=
  match loadROM (.content image) Chip8.new with
  | .returned s => s
  | _ => Chip8.new

/-- States reachable with no restriction on the ticks taken. -/
def Reachable (s : Chip8) : Prop := ReachableVia (fun _ => True) s

/-! ## Video buffer -/

/-- Every cell of the video buffer is fully off or fully on. -/
def videoBinary (s : Chip8) : Prop :=
  ∀ i, i < VIDEO_WIDTH * VIDEO_HEIGHT → s.videoMemory i = 0 ∨ s.videoMemory i = 0xFFFFFFFF

/-- Instruction words routed to `OP_00E0` (clear-screen). -/
def isClearScreen (w : Nat) : Prop := w / 4096 % 16 = 0x0 ∧ w % 16 = 0x0

/-- Instruction words routed to `OP_Dxyn` (draw). -/
def isDraw (w : Nat) : Prop := w / 4096 % 16 = 0xD

instance (w : Nat) : Decidable (isClearScreen w) := by unfold isClearScreen; infer_instance
instance (w : Nat) : Decidable (isDraw w) := by unfold isDraw; infer_instance

/-! ## Sample states used to instantiate the theorems -/

/-- Registers `V1 = 250`, `V2 = 10`, current instruction `8124` (ADD V1, V2). -/
def sampleAddCarry : Chip8 :=
  { (Chip8.zero.setReg 1 250).setReg 2 10 with opcode := 0x8124 }

/-- Registers `V1 = 10`, `V2 = 10`, current instruction `8124` (ADD V1, V2). -/
def sampleAddNoCarry : Chip8 :=
  { (Chip8.zero.setReg 1 10).setReg 2 10 with opcode := 0x8124 }

/-- Registers `V1 = 5`, `V2 = 10`, current instruction `8125` (SUB V1, V2). -/
def sampleSub : Chip8 :=
  { (Chip8.zero.setReg 1 5).setReg 2 10 with opcode := 0x8125 }

/-- Registers `V1 = 20`, `V2 = 20`, current instruction `8127` (SUBN V1, V2). -/
def sampleSubn : Chip8 :=
  { (Chip8.zero.setReg 1 20).setReg 2 20 with opcode := 0x8127 }

/-- Register `V3 = 0x85` (both the top and the bottom bit set). -/
def sampleShift : Chip8 :=
  Chip8.zero.setReg 3 0x85

/-- A clear screen, `V1 = 62`, `V2 = 31`, `I = 0x300`, the one-row sprite `0x81`
at `memory[0x300]`, current instruction `D121`. -/
def sampleDraw : Chip8 :=
  { ((Chip8.zero.setReg 1 62).setReg 2 31).setMem 0x300 0x81 with
    opcode := 0xD121, R_I := 0x300 }

/-- Memory image of the sample machine: `CALL 0x300` at `0x200`, `RET` at `0x300`,
`LD V1, 0x2A` at `0x302`, the unassigned word `8128` at `0x304`, `LD DT, V1` at `0x306`. -/
def sampleMemory : Nat → Nat := fun a =>
  if a = 0x200 then 0x23 else if a = 0x201 then 0x00
  else if a = 0x300 then 0x00 else if a = 0x301 then 0xEE
  else if a = 0x302 then 0x61 else if a = 0x303 then 0x2A
  else if a = 0x304 then 0x81 else if a = 0x305 then 0x28
  else if a = 0x306 then 0xF1 else if a = 0x307 then 0x15
  else 0


/-- A machine with the sample memory image, `V1 = 7`, delay timer 3, sound timer 0
and the given program counter. -/
def sampleMachine (pc : Nat) : Chip8 :=
  { Chip8.zero with memory := sampleMemory, R_PC := pc,
                    REG := fun k => if k = 1 then 7 else 0, R_DELAY_TIMER := 3 }

/-- A machine whose memory holds `F30A` (wait-key into `V3`) at `0x200`, with
`pc = 0x200` and the given keypad. -/
def sampleWait (keypad : Nat → Nat) : Chip8 :=
  { Chip8.zero with
    memory := fun a => if a = 0x200 then 0xF3 else if a = 0x201 then 0x0A else 0,
    R_PC := 0x200, keypadMemory := keypad }

/-- Register `V2 = 254`, `I = 0x300`, current instruction `F233` (store-bcd). -/
def sampleBcd : Chip8 :=
  { Chip8.zero.setReg 2 254 with opcode := 0xF233, R_I := 0x300 }

/-- A fresh machine with `V4 = 0xA` and current instruction `F429`
(load-glyph-addr). -/
def sampleGlyph : Chip8 :=
  { Chip8.new.setReg 4 0xA with opcode := 0xF429 }

/-- A machine with every video cell on and current instruction `00E0`. -/
def sampleLit : Chip8 :=
  { Chip8.zero with opcode := 0x00E0, videoMemory := fun _ => 0xFFFFFFFF }

/-- Registers `V0 = 10, V1 = 11, ...` (`Vk = 10 + k`) and `I = 0x400`. -/
def sampleRegs : Chip8 :=
  { Chip8.zero with REG := fun k => 10 + k, R_I := 0x400 }

/-! ## Arithmetic of the bit-level expressions -/

theorem and_shiftRight_distrib (a b k : Nat) :
    (a &&& b) >>> k = (a >>> k) &&& (b >>> k) := by
  apply Nat.eq_of_testBit_eq
  intro i
  simp [Nat.testBit_shiftRight, Nat.testBit_and]

theorem and_000F (w : Nat) : w &&& 0x000F = w % 16 :=
  Nat.and_pow_two_sub_one_eq_mod w 4

theorem and_00FF (w : Nat) : w &&& 0x00FF = w % 256 :=
  Nat.and_pow_two_sub_one_eq_mod w 8

theorem and_0FFF (w : Nat) : w &&& 0x0FFF = w % 4096 :=
  Nat.and_pow_two_sub_one_eq_mod w 12

theorem and_00F0_shift (w : Nat) : (w &&& 0x00F0) >>> 4 = (w / 16) % 16 := by
  rw [and_shiftRight_distrib]
  show w >>> 4 &&& 15 = _
  rw [Nat.shiftRight_eq_div_pow]
  exact Nat.and_pow_two_sub_one_eq_mod _ 4

theorem and_0F00_shift (w : Nat) : (w &&& 0x0F00) >>> 8 = (w / 256) % 16 := by
  rw [and_shiftRight_distrib]
  show w >>> 8 &&& 15 = _
  rw [Nat.shiftRight_eq_div_pow]
  exact Nat.and_pow_two_sub_one_eq_mod _ 4

theorem and_F000_shift (w : Nat) : (w &&& 0xF000) >>> 12 = (w / 4096) % 16 := by
  rw [and_shiftRight_distrib]
  show w >>> 12 &&& 15 = _
  rw [Nat.shiftRight_eq_div_pow]
  exact Nat.and_pow_two_sub_one_eq_mod _ 4

theorem shl8_or (h l : Nat) (hl : l < 256) : (h <<< 8) ||| l = 256 * h + l := by
  rw [Nat.shiftLeft_eq, Nat.mul_comm]
  exact (Nat.mul_add_lt_is_or (i := 8) hl h).symm

theorem and_0001 (b : Nat) : b &&& 0x0001 = b % 2 :=
  Nat.and_pow_two_sub_one_eq_mod b 1

theorem shr1 (b : Nat) : b >>> 1 = b / 2 := by
  simp [Nat.shiftRight_eq_div_pow]

theorem shl1 (b : Nat) : b <<< 1 = 2 * b := by
  simp [Nat.shiftLeft_eq]; omega

theorem and_80_shift (b : Nat) : (b &&& 0x80) >>> 7 = (b / 128) % 2 := by
  rw [and_shiftRight_distrib]
  show b >>> 7 &&& 1 = _
  rw [Nat.shiftRight_eq_div_pow]
  exact Nat.and_pow_two_sub_one_eq_mod _ 1

theorem spritePixel_ne_zero (b c : Nat) (hc : c < 8) :
    (b &&& (0x80 >>> c)) % 256 ≠ 0 ↔ b.testBit (7 - c) = true := by
  have h1 : 0x80 >>> c = 2 ^ (7 - c) := by
    interval_cases c <;> rfl
  have h2 : 2 ^ (7 - c) < 256 := by
    interval_cases c <;> decide
  rw [h1, Nat.and_two_pow]
  cases b.testBit (7 - c)
  · simp
  · simp only [Bool.toNat_true, Nat.one_mul, Nat.mod_eq_of_lt h2]
    simp

/-! ## Decoding lemmas -/

theorem Vx_eq (s : Chip8) : s.Vx = (s.opcode / 256) % 16 := by
  unfold Chip8.Vx
  rw [and_0F00_shift]; omega

theorem Vy_eq (s : Chip8) : s.Vy = (s.opcode / 16) % 16 := by
  unfold Chip8.Vy
  rw [and_00F0_shift]; omega

theorem byte_eq (s : Chip8) : s.byte = s.opcode % 256 := by
  unfold Chip8.byte
  rw [and_00FF]; omega

theorem address_eq (s : Chip8) : s.address = s.opcode % 4096 := by
  unfold Chip8.address
  rw [and_0FFF]; omega

theorem execute_eq (rnd : Nat) (s : Chip8) :
    execute rnd s = routerTable ((s.opcode / 4096) % 16) rnd s := by
  unfold execute
  rw [and_F000_shift]
  have h : s.opcode / 4096 % 16 % 256 = s.opcode / 4096 % 16 := by omega
  simp only [h]

theorem execute_family8 (rnd : Nat) (s : Chip8) (h : (s.opcode / 4096) % 16 = 8) :
    execute rnd s = subTable8 (s.opcode % 16) rnd s := by
  rw [execute_eq, h]
  simp only [routerTable, SubHandlerFn8, and_000F]

/-! ## Register file and well-formedness -/

@[simp] theorem setReg_same (s : Chip8) (i v : Nat) : (s.setReg i v).REG i = v := by
  simp [Chip8.setReg]

theorem setReg_ne (s : Chip8) (i v k : Nat) (h : k ≠ i) :
    (s.setReg i v).REG k = s.REG k := by
  simp [Chip8.setReg, h]

theorem zero_WF : Chip8.zero.WF := by
  constructor <;> intros <;> simp [Chip8.zero]

theorem Chip8.WF.withOpcode {s : Chip8} (h : s.WF) (w : Nat) (hw : w < 65536) :
    ({ s with opcode := w } : Chip8).WF :=
  { h with opcode := hw }

theorem Chip8.WF.setReg {s : Chip8} (h : s.WF) (i v : Nat) (hv : v < 256) :
    (s.setReg i v).WF := by
  refine { h with reg := ?_ }
  intro k
  unfold Chip8.setReg
  dsimp only
  split_ifs
  · exact hv
  · exact h.reg k

theorem Chip8.WF.setMem {s : Chip8} (h : s.WF) (a v : Nat) (hv : v < 256) :
    (s.setMem a v).WF := by
  refine { h with memory := ?_ }
  intro k
  unfold Chip8.setMem
  dsimp only
  split_ifs
  · exact hv
  · exact h.memory k

/-! ## The drawing loops -/

theorem targetCell_inj (x0 y0 r c r' c' : Nat) (hr : r < 32) (hr' : r' < 32)
    (hc : c < 64) (hc' : c' < 64) (h : targetCell x0 y0 r c = targetCell x0 y0 r' c') :
    r = r' ∧ c = c' := by
  unfold targetCell cellIndex VIDEO_WIDTH VIDEO_HEIGHT at h
  omega

theorem drawPixel_eq (b x0 y0 r c : Nat) (s : Chip8) (hc : c < 8) :
    drawPixel b x0 y0 r c s =
      if spriteBit b c = true then
        (if s.videoMemory (targetCell x0 y0 r c) = 0xFFFFFFFF then s.setReg 0xF 1 else s).setVideo
          (targetCell x0 y0 r c) (togglePixel (s.videoMemory (targetCell x0 y0 r c)))
      else s := by
  have hx : (x0 + c) % VIDEO_WIDTH % 256 = (x0 + c) % VIDEO_WIDTH := by
    unfold VIDEO_WIDTH; omega
  have hy : (y0 + r) % VIDEO_HEIGHT % 256 = (y0 + r) % VIDEO_HEIGHT := by
    unfold VIDEO_HEIGHT; omega
  unfold drawPixel targetCell cellIndex spriteBit
  simp only [hx, hy]
  by_cases hb : b.testBit (7 - c) = true
  · have := (spritePixel_ne_zero b c hc).mpr hb
    simp only [this, hb, if_true, ne_eq, not_false_eq_true]
    split_ifs <;> rfl
  · have : ¬ ((b &&& (0x80 >>> c)) % 256 ≠ 0) := fun h => hb ((spritePixel_ne_zero b c hc).mp h)
    simp only [this, hb, if_false]
    rfl

theorem drawCols_spec (b x0 y0 r : Nat) (hr : r < 32) (s : Chip8) :
    ∀ n, n ≤ 8 → DrawnCols b x0 y0 r n s (drawCols b x0 y0 r n s) := by
  intro n
  induction n with
  | zero =>
    intro _
    refine ⟨rfl, fun _ _ => rfl, ?_, fun _ _ => rfl, ?_, fun _ => rfl⟩
    · intro c hc; omega
    · rintro ⟨c, hc, _⟩; omega
  | succ n ih =>
    intro hn
    have ih := ih (by omega)
    set s1 := drawCols b x0 y0 r n s with hs1
    have hstep : drawCols b x0 y0 r (n + 1) s = drawPixel b x0 y0 r n s1 := rfl
    rw [hstep, drawPixel_eq b x0 y0 r n s1 (by omega)]
    -- the cell of column `n` has not been touched by the columns before it
    have hfresh : ∀ c, c < n → targetCell x0 y0 r n ≠ targetCell x0 y0 r c := by
      intro c hc h
      have := targetCell_inj x0 y0 r n r c hr hr (by omega) (by omega) h
      omega
    have hcell : s1.videoMemory (targetCell x0 y0 r n) = s.videoMemory (targetCell x0 y0 r n) :=
      ih.miss _ hfresh
    by_cases hb : spriteBit b n = true
    · simp only [hb, if_true]
      rw [hcell]
      by_cases hon : s.videoMemory (targetCell x0 y0 r n) = 0xFFFFFFFF
      · simp only [hon, if_true]
        refine ⟨?_, ?_, ?_, ?_, ?_, ?_⟩
        · have := ih.frame
          rw [this]
          rfl
        · intro k hk
          show (s1.setReg 15 1).REG k = _
          rw [setReg_ne _ _ _ _ hk]; exact ih.regs k hk
        · intro c hc
          show (if targetCell x0 y0 r c = targetCell x0 y0 r n then _ else s1.videoMemory _) = _
          by_cases hcn : c = n
          · subst hcn; simp [hb, hon]
          · have : targetCell x0 y0 r c ≠ targetCell x0 y0 r n := by
              intro h
              have := targetCell_inj x0 y0 r c r n hr hr (by omega) (by omega) h
              omega
            simp only [this, if_false]
            exact ih.hit c (by omega)
        · intro i hi
          show (if i = targetCell x0 y0 r n then _ else s1.videoMemory i) = _
          have : i ≠ targetCell x0 y0 r n := hi n (by omega)
          simp only [this, if_false]
          exact ih.miss i (fun c hc => hi c (by omega))
        · intro _
          show (s1.setReg 15 1).REG 15 = 1
          simp
        · intro h
          exact absurd ⟨n, by omega, hb, hon⟩ h
      · simp only [hon, if_false]
        refine ⟨?_, ?_, ?_, ?_, ?_, ?_⟩
        · have := ih.frame
          rw [this]
          rfl
        · intro k hk
          exact ih.regs k hk
        · intro c hc
          show (if targetCell x0 y0 r c = targetCell x0 y0 r n then _ else s1.videoMemory _) = _
          by_cases hcn : c = n
          · subst hcn; simp [hb]
          · have : targetCell x0 y0 r c ≠ targetCell x0 y0 r n := by
              intro h
              have := targetCell_inj x0 y0 r c r n hr hr (by omega) (by omega) h
              omega
            simp only [this, if_false]
            exact ih.hit c (by omega)
        · intro i hi
          show (if i = targetCell x0 y0 r n then _ else s1.videoMemory i) = _
          have : i ≠ targetCell x0 y0 r n := hi n (by omega)
          simp only [this, if_false]
          exact ih.miss i (fun c hc => hi c (by omega))
        · rintro ⟨c, hc, hbc, honc⟩
          have hc' : c < n := by
            rcases Nat.lt_succ_iff_lt_or_eq.mp hc with h | h
            · exact h
            · subst h; exact absurd honc hon
          exact ih.flagSet ⟨c, hc', hbc, honc⟩
        · intro h
          exact ih.flagKeep (fun ⟨c, hc, hbc, honc⟩ => h ⟨c, by omega, hbc, honc⟩)
    · simp only [hb, if_false]
      refine ⟨ih.frame, ih.regs, ?_, ?_, ?_, ?_⟩
      · intro c hc
        by_cases hcn : c = n
        · subst hcn; simp only [hb, if_false]; exact hcell
        · exact ih.hit c (by omega)
      · intro i hi
        exact ih.miss i (fun c hc => hi c (by omega))
      · rintro ⟨c, hc, hbc, honc⟩
        have hc' : c < n := by
          rcases Nat.lt_succ_iff_lt_or_eq.mp hc with h | h
          · exact h
          · subst h; exact absurd hbc hb
        exact ih.flagSet ⟨c, hc', hbc, honc⟩
      · intro h
        exact ih.flagKeep (fun ⟨c, hc, hbc, honc⟩ => h ⟨c, by omega, hbc, honc⟩)

theorem drawRows_spec (x0 y0 : Nat) (s : Chip8) :
    ∀ n, n ≤ 32 → s.R_I + n ≤ MEMORY_SIZE →
      ∃ s', drawRows x0 y0 n s = .ok s' ∧ DrawnRows x0 y0 n s s' := by
  intro n
  induction n with
  | zero =>
    intro _ _
    refine ⟨s, rfl, rfl, fun _ _ => rfl, ?_, fun _ _ => rfl, ?_, fun _ => rfl⟩
    · intro r c hr; omega
    · rintro ⟨r, c, hr, _⟩; omega
  | succ n ih =>
    intro hn hI
    obtain ⟨s1, hs1, inv⟩ := ih (by omega) (by omega)
    have hI1 : s1.R_I = s.R_I := by
      have := congrArg Chip8.R_I inv.frame
      simpa using this
    have hM1 : s1.memory = s.memory := by
      have := congrArg Chip8.memory inv.frame
      simpa using this
    have hlt : s1.R_I + n < MEMORY_SIZE := by rw [hI1]; omega
    have hstep : drawRows x0 y0 (n + 1) s
        = .ok (drawCols (s.memory (s.R_I + n)) x0 y0 n 8 s1) := by
      rw [drawRows]
      rw [hs1]
      have hlt' : s.R_I + n < MEMORY_SIZE := by omega
      simp only [hI1, hM1, hlt', if_true]
    have col := drawCols_spec (s.memory (s.R_I + n)) x0 y0 n (by omega) s1 8 (le_refl 8)
    set s2 := drawCols (s.memory (s.R_I + n)) x0 y0 n 8 s1 with hs2
    refine ⟨s2, hstep, ?_⟩
    -- cells of row `n` are untouched by the rows before it
    have hfresh : ∀ c, c < 8 → ∀ r c', r < n → c' < 8 →
        targetCell x0 y0 n c ≠ targetCell x0 y0 r c' := by
      intro c hc r c' hr hc' h
      have := targetCell_inj x0 y0 n c r c' (by omega) (by omega) (by omega) (by omega) h
      omega
    have hcell : ∀ c, c < 8 →
        s1.videoMemory (targetCell x0 y0 n c) = s.videoMemory (targetCell x0 y0 n c) :=
      fun c hc => inv.miss _ (hfresh c hc)
    refine ⟨?_, ?_, ?_, ?_, ?_, ?_⟩
    · have h1 := inv.frame
      have h2 := col.frame
      rw [h2, h1]
    · intro k hk
      rw [col.regs k hk, inv.regs k hk]
    · intro r c hr hc
      by_cases hrn : r = n
      · subst hrn
        rw [col.hit c hc, hcell c hc]
      · have hr' : r < n := by omega
        rw [col.miss _ (fun c' hc' h => hfresh c' hc' r c hr' hc h.symm)]
        exact inv.hit r c hr' hc
    · intro i hi
      rw [col.miss i (fun c hc => hi n c (by omega) hc)]
      exact inv.miss i (fun r c hr hc => hi r c (by omega) hc)
    · rintro ⟨r, c, hr, hc, hb, hon⟩
      by_cases hrn : r = n
      · subst hrn
        exact col.flagSet ⟨c, hc, hb, by rw [hcell c hc]; exact hon⟩
      · have h1 : s1.REG 15 = 1 := inv.flagSet ⟨r, c, by omega, hc, hb, hon⟩
        by_cases hx : ∃ c, c < 8 ∧ spriteBit (s.memory (s.R_I + n)) c = true ∧
            s1.videoMemory (targetCell x0 y0 n c) = 0xFFFFFFFF
        · exact col.flagSet hx
        · rw [col.flagKeep hx]; exact h1
    · intro h
      have hx : ¬ ∃ c, c < 8 ∧ spriteBit (s.memory (s.R_I + n)) c = true ∧
          s1.videoMemory (targetCell x0 y0 n c) = 0xFFFFFFFF := by
        rintro ⟨c, hc, hb, hon⟩
        exact h ⟨n, c, by omega, hc, hb, by rw [← hcell c hc]; exact hon⟩
      rw [col.flagKeep hx]
      exact inv.flagKeep (fun ⟨r, c, hr, hc, hb, hon⟩ => h ⟨r, c, by omega, hc, hb, hon⟩)

theorem togglePixel_zero : togglePixel 0 = 0xFFFFFFFF := by decide
theorem togglePixel_full : togglePixel 0xFFFFFFFF = 0 := by decide

theorem execute_draw (rnd : Nat) (s : Chip8) (X Y N : Nat)
    (hX : X < 16) (hY : Y < 16) (hN : N < 16)
    (hop : s.opcode = 0xD000 + 256 * X + 16 * Y + N) :
    execute rnd s = drawRows ((s.setReg 15 0).REG X % 64) ((s.setReg 15 0).REG Y % 32) N
      (s.setReg 15 0) := by
  have hfam : (s.opcode / 4096) % 16 = 13 := by omega
  have hvx : s.Vx = X := by rw [Vx_eq]; omega
  have hvy : s.Vy = Y := by rw [Vy_eq]; omega
  have hn : (s.opcode &&& 0x000F) % 256 = N := by rw [and_000F]; omega
  rw [execute_eq, hfam]
  show OP_Dxyn rnd s = _
  unfold OP_Dxyn
  simp only [hvx, hvy, hn, VIDEO_WIDTH, VIDEO_HEIGHT]
  have e1 : ∀ v, v % 64 % 256 = v % 64 := fun v => by omega
  have e2 : ∀ v, v % 32 % 256 = v % 32 := fun v => by omega
  rw [e1, e2]

theorem exists_spriteBit (b : Nat) (hb : b < 256) (h0 : b ≠ 0) :
    ∃ c, c < 8 ∧ spriteBit b c = true := by
  by_contra hne
  apply h0
  apply Nat.eq_of_testBit_eq
  intro j
  rw [Nat.zero_testBit]
  by_cases hj : j < 8
  · by_contra hbit
    apply hne
    refine ⟨7 - j, by omega, ?_⟩
    have e : 7 - (7 - j) = j := by omega
    unfold spriteBit
    rw [e]
    simpa using hbit
  · apply Nat.testBit_lt_two_pow
    calc b < 256 := hb
      _ = 2 ^ 8 := by norm_num
      _ ≤ 2 ^ j := Nat.pow_le_pow_right (by norm_num) (by omega)

theorem targetCell_lt (x0 y0 r c : Nat) : targetCell x0 y0 r c < VIDEO_WIDTH * VIDEO_HEIGHT := by
  unfold targetCell cellIndex VIDEO_WIDTH VIDEO_HEIGHT
  omega

theorem sampleDraw_WF : sampleDraw.WF := by
  have h := ((zero_WF.setReg 1 62 (by decide)).setReg 2 31 (by decide)).setMem 0x300 0x81
    (by decide)
  exact { h with opcode := by decide, ri := by decide }

/-! ## Fetch, dispatch and the shape of a tick -/

theorem fetch_ok (s : Chip8) (hwf : s.WF) (hpc : s.R_PC ≤ 4094) :
    fetch s = .ok { s with opcode := 256 * s.memory s.R_PC + s.memory (s.R_PC + 1),
                           R_PC := s.R_PC + 2 } := by
  have h1 : s.R_PC < MEMORY_SIZE := by unfold MEMORY_SIZE; omega
  have h2 : s.R_PC + 1 < MEMORY_SIZE := by unfold MEMORY_SIZE; omega
  have hh := hwf.memory s.R_PC
  have hl := hwf.memory (s.R_PC + 1)
  unfold fetch
  simp only [h1, h2, if_true, shl8_or _ _ hl]
  have e1 : (256 * s.memory s.R_PC + s.memory (s.R_PC + 1)) % 65536
      = 256 * s.memory s.R_PC + s.memory (s.R_PC + 1) := by omega
  have e2 : (s.R_PC + 2) % 65536 = s.R_PC + 2 := by omega
  rw [e1, e2]

theorem tick_eq_map (rnd : Nat) (s s1 : Chip8) (h : fetch s = .ok s1) :
    tick rnd s = (execute rnd s1).map timers := by
  unfold tick
  rw [h]
  dsimp only
  cases execute rnd s1 <;> rfl

theorem tick_ok_iff (rnd : Nat) (s s' : Chip8) :
    tick rnd s = .ok s' ↔
      ∃ s1 s2, fetch s = .ok s1 ∧ execute rnd s1 = .ok s2 ∧ s' = timers s2 := by
  constructor
  · intro h
    cases hf : fetch s with
    | error e => unfold tick at h; rw [hf] at h; cases h
    | ok s1 =>
      rw [tick_eq_map rnd s s1 hf] at h
      cases he : execute rnd s1 with
      | error e => rw [he] at h; cases h
      | ok s2 =>
        rw [he] at h
        injection h with h
        exact ⟨s1, s2, rfl, he, h.symm⟩
  · rintro ⟨s1, s2, hf, he, rfl⟩
    rw [tick_eq_map rnd s s1 hf, he]
    rfl

theorem subTable0_nop (i : Nat) (h0 : i ≠ 0x0) (h1 : i ≠ 0xE) : subTable0 i = DO_NOTHING := by
  unfold subTable0
  rw [if_neg h0, if_neg h1]

theorem subTable8_nop (i : Nat) (h0 : i ≠ 0x0) (h1 : i ≠ 0x1) (h2 : i ≠ 0x2) (h3 : i ≠ 0x3)
    (h4 : i ≠ 0x4) (h5 : i ≠ 0x5) (h6 : i ≠ 0x6) (h7 : i ≠ 0x7) (h8 : i ≠ 0xE) :
    subTable8 i = DO_NOTHING := by
  unfold subTable8
  rw [if_neg h0, if_neg h1, if_neg h2, if_neg h3, if_neg h4, if_neg h5, if_neg h6,
    if_neg h7, if_neg h8]

theorem subTableE_nop (i : Nat) (h0 : i ≠ 0x1) (h1 : i ≠ 0xE) : subTableE i = DO_NOTHING := by
  unfold subTableE
  rw [if_neg h0, if_neg h1]

theorem subTableF_nop (i : Nat) (h0 : i ≠ 0x07) (h1 : i ≠ 0x0A) (h2 : i ≠ 0x15)
    (h3 : i ≠ 0x18) (h4 : i ≠ 0x1E) (h5 : i ≠ 0x29) (h6 : i ≠ 0x33) (h7 : i ≠ 0x55)
    (h8 : i ≠ 0x65) : subTableF i = DO_NOTHING := by
  unfold subTableF
  rw [if_neg h0, if_neg h1, if_neg h2, if_neg h3, if_neg h4, if_neg h5, if_neg h6,
    if_neg h7, if_neg h8]

theorem execute_family0 (rnd : Nat) (s : Chip8) (h : (s.opcode / 4096) % 16 = 0) :
    execute rnd s = subTable0 (s.opcode % 16) rnd s := by
  rw [execute_eq, h]
  simp only [routerTable, SubHandlerFn0, and_000F]

theorem execute_familyE (rnd : Nat) (s : Chip8) (h : (s.opcode / 4096) % 16 = 14) :
    execute rnd s = subTableE (s.opcode % 16) rnd s := by
  rw [execute_eq, h]
  simp only [routerTable, SubHandlerFnE, and_000F]

theorem execute_familyF (rnd : Nat) (s : Chip8) (h : (s.opcode / 4096) % 16 = 15) :
    execute rnd s = subTableF (s.opcode % 256) rnd s := by
  rw [execute_eq, h]
  simp only [routerTable, SubHandlerFnF, and_00FF, Nat.mod_mod]

theorem execute_cases (rnd : Nat) (s : Chip8) (P : Result → Prop)
    (nop : P (DO_NOTHING rnd s))
    (h00E0 : s.opcode / 4096 % 16 = 0 → s.opcode % 16 = 0x0 → P (OP_00E0 rnd s))
    (h00EE : s.opcode / 4096 % 16 = 0 → s.opcode % 16 = 0xE → P (OP_00EE rnd s))
    (h1nnn : s.opcode / 4096 % 16 = 1 → P (OP_1nnn rnd s))
    (h2nnn : s.opcode / 4096 % 16 = 2 → P (OP_2nnn rnd s))
    (h3xkk : s.opcode / 4096 % 16 = 3 → P (OP_3xkk rnd s))
    (h4xkk : s.opcode / 4096 % 16 = 4 → P (OP_4xkk rnd s))
    (h5xy0 : s.opcode / 4096 % 16 = 5 → P (OP_5xy0 rnd s))
    (h6xkk : s.opcode / 4096 % 16 = 6 → P (OP_6xkk rnd s))
    (h7xkk : s.opcode / 4096 % 16 = 7 → P (OP_7xkk rnd s))
    (h8xy0 : s.opcode / 4096 % 16 = 8 → s.opcode % 16 = 0x0 → P (OP_8xy0 rnd s))
    (h8xy1 : s.opcode / 4096 % 16 = 8 → s.opcode % 16 = 0x1 → P (OP_8xy1 rnd s))
    (h8xy2 : s.opcode / 4096 % 16 = 8 → s.opcode % 16 = 0x2 → P (OP_8xy2 rnd s))
    (h8xy3 : s.opcode / 4096 % 16 = 8 → s.opcode % 16 = 0x3 → P (OP_8xy3 rnd s))
    (h8xy4 : s.opcode / 4096 % 16 = 8 → s.opcode % 16 = 0x4 → P (OP_8xy4 rnd s))
    (h8xy5 : s.opcode / 4096 % 16 = 8 → s.opcode % 16 = 0x5 → P (OP_8xy5 rnd s))
    (h8xy6 : s.opcode / 4096 % 16 = 8 → s.opcode % 16 = 0x6 → P (OP_8xy6 rnd s))
    (h8xy7 : s.opcode / 4096 % 16 = 8 → s.opcode % 16 = 0x7 → P (OP_8xy7 rnd s))
    (h8xyE : s.opcode / 4096 % 16 = 8 → s.opcode % 16 = 0xE → P (OP_8xyE rnd s))
    (h9xy0 : s.opcode / 4096 % 16 = 9 → P (OP_9xy0 rnd s))
    (hAnnn : s.opcode / 4096 % 16 = 0xA → P (OP_Annn rnd s))
    (hBnnn : s.opcode / 4096 % 16 = 0xB → P (OP_Bnnn rnd s))
    (hCxkk : s.opcode / 4096 % 16 = 0xC → P (OP_Cxkk rnd s))
    (hDxyn : s.opcode / 4096 % 16 = 0xD → P (OP_Dxyn rnd s))
    (hExA1 : s.opcode / 4096 % 16 = 0xE → s.opcode % 16 = 0x1 → P (OP_ExA1 rnd s))
    (hEx9E : s.opcode / 4096 % 16 = 0xE → s.opcode % 16 = 0xE → P (OP_Ex9E rnd s))
    (hFx07 : s.opcode / 4096 % 16 = 0xF → s.opcode % 256 = 0x07 → P (OP_Fx07 rnd s))
    (hFx0A : s.opcode / 4096 % 16 = 0xF → s.opcode % 256 = 0x0A → P (OP_Fx0A rnd s))
    (hFx15 : s.opcode / 4096 % 16 = 0xF → s.opcode % 256 = 0x15 → P (OP_Fx15 rnd s))
    (hFx18 : s.opcode / 4096 % 16 = 0xF → s.opcode % 256 = 0x18 → P (OP_Fx18 rnd s))
    (hFx1E : s.opcode / 4096 % 16 = 0xF → s.opcode % 256 = 0x1E → P (OP_Fx1E rnd s))
    (hFx29 : s.opcode / 4096 % 16 = 0xF → s.opcode % 256 = 0x29 → P (OP_Fx29 rnd s))
    (hFx33 : s.opcode / 4096 % 16 = 0xF → s.opcode % 256 = 0x33 → P (OP_Fx33 rnd s))
    (hFx55 : s.opcode / 4096 % 16 = 0xF → s.opcode % 256 = 0x55 → P (OP_Fx55 rnd s))
    (hFx65 : s.opcode / 4096 % 16 = 0xF → s.opcode % 256 = 0x65 → P (OP_Fx65 rnd s)) :
    P (execute rnd s) := by
  have hlt : s.opcode / 4096 % 16 < 16 := Nat.mod_lt _ (by norm_num)
  have hcases : ∀ f, f < 16 → s.opcode / 4096 % 16 = f → P (execute rnd s) := by
    intro f hf hfam
    interval_cases f
    · rw [execute_family0 rnd s hfam]
      by_cases a0 : s.opcode % 16 = 0x0
      · rw [a0]; exact h00E0 hfam a0
      by_cases a1 : s.opcode % 16 = 0xE
      · rw [a1]; exact h00EE hfam a1
      rw [subTable0_nop _ a0 a1]; exact nop
    · rw [execute_eq, hfam]; exact h1nnn hfam
    · rw [execute_eq, hfam]; exact h2nnn hfam
    · rw [execute_eq, hfam]; exact h3xkk hfam
    · rw [execute_eq, hfam]; exact h4xkk hfam
    · rw [execute_eq, hfam]; exact h5xy0 hfam
    · rw [execute_eq, hfam]; exact h6xkk hfam
    · rw [execute_eq, hfam]; exact h7xkk hfam
    · rw [execute_family8 rnd s hfam]
      by_cases a0 : s.opcode % 16 = 0x0
      · rw [a0]; exact h8xy0 hfam a0
      by_cases a1 : s.opcode % 16 = 0x1
      · rw [a1]; exact h8xy1 hfam a1
      by_cases a2 : s.opcode % 16 = 0x2
      · rw [a2]; exact h8xy2 hfam a2
      by_cases a3 : s.opcode % 16 = 0x3
      · rw [a3]; exact h8xy3 hfam a3
      by_cases a4 : s.opcode % 16 = 0x4
      · rw [a4]; exact h8xy4 hfam a4
      by_cases a5 : s.opcode % 16 = 0x5
      · rw [a5]; exact h8xy5 hfam a5
      by_cases a6 : s.opcode % 16 = 0x6
      · rw [a6]; exact h8xy6 hfam a6
      by_cases a7 : s.opcode % 16 = 0x7
      · rw [a7]; exact h8xy7 hfam a7
      by_cases a8 : s.opcode % 16 = 0xE
      · rw [a8]; exact h8xyE hfam a8
      rw [subTable8_nop _ a0 a1 a2 a3 a4 a5 a6 a7 a8]; exact nop
    · rw [execute_eq, hfam]; exact h9xy0 hfam
    · rw [execute_eq, hfam]; exact hAnnn hfam
    · rw [execute_eq, hfam]; exact hBnnn hfam
    · rw [execute_eq, hfam]; exact hCxkk hfam
    · rw [execute_eq, hfam]; exact hDxyn hfam
    · rw [execute_familyE rnd s hfam]
      by_cases a0 : s.opcode % 16 = 0x1
      · rw [a0]; exact hExA1 hfam a0
      by_cases a1 : s.opcode % 16 = 0xE
      · rw [a1]; exact hEx9E hfam a1
      rw [subTableE_nop _ a0 a1]; exact nop
    · rw [execute_familyF rnd s hfam]
      by_cases a0 : s.opcode % 256 = 0x07
      · rw [a0]; exact hFx07 hfam a0
      by_cases a1 : s.opcode % 256 = 0x0A
      · rw [a1]; exact hFx0A hfam a1
      by_cases a2 : s.opcode % 256 = 0x15
      · rw [a2]; exact hFx15 hfam a2
      by_cases a3 : s.opcode % 256 = 0x18
      · rw [a3]; exact hFx18 hfam a3
      by_cases a4 : s.opcode % 256 = 0x1E
      · rw [a4]; exact hFx1E hfam a4
      by_cases a5 : s.opcode % 256 = 0x29
      · rw [a5]; exact hFx29 hfam a5
      by_cases a6 : s.opcode % 256 = 0x33
      · rw [a6]; exact hFx33 hfam a6
      by_cases a7 : s.opcode % 256 = 0x55
      · rw [a7]; exact hFx55 hfam a7
      by_cases a8 : s.opcode % 256 = 0x65
      · rw [a8]; exact hFx65 hfam a8
      rw [subTableF_nop _ a0 a1 a2 a3 a4 a5 a6 a7 a8]; exact nop
  exact hcases _ hlt rfl

theorem timers_delay (s : Chip8) :
    (timers s).R_DELAY_TIMER = if s.R_DELAY_TIMER > 0 then s.R_DELAY_TIMER - 1 else 0 := by
  unfold timers
  dsimp only
  split_ifs <;> first | rfl | omega | (dsimp only; omega)

theorem timers_sound (s : Chip8) :
    (timers s).R_BUZZER_TIMER = if s.R_BUZZER_TIMER > 0 then s.R_BUZZER_TIMER - 1 else 0 := by
  unfold timers
  dsimp only
  split_ifs <;> first | rfl | omega

theorem timers_frame (s : Chip8) :
    timers s = { s with R_DELAY_TIMER := (timers s).R_DELAY_TIMER,
                        R_BUZZER_TIMER := (timers s).R_BUZZER_TIMER } := by
  unfold timers
  dsimp only
  split_ifs <;> rfl

theorem timers_WF (s : Chip8) (h : s.WF) : (timers s).WF := by
  have hd := timers_delay s
  have hb := timers_sound s
  have h1 := h.delay
  have h2 := h.buzzer
  rw [timers_frame]
  refine { h with buzzer := ?_, delay := ?_ }
  · show (timers s).R_BUZZER_TIMER < 256
    rw [hb]; split_ifs <;> omega
  · show (timers s).R_DELAY_TIMER < 256
    rw [hd]; split_ifs <;> omega

theorem sampleMachine_WF (pc : Nat) (h : pc < 65536) : (sampleMachine pc).WF := by
  refine { zero_WF with memory := ?_, pc := h, reg := ?_, delay := ?_ }
  · intro a
    show sampleMemory a < 256
    unfold sampleMemory
    split_ifs <;> decide
  · intro k
    show (if k = 1 then 7 else 0) < 256
    split_ifs <;> decide
  · show (3 : Nat) < 256
    decide


/-! ## What the loops leave alone -/

theorem drawPixel_frame (b x0 y0 r c : Nat) (s : Chip8) :
    drawPixel b x0 y0 r c s = { s with REG := (drawPixel b x0 y0 r c s).REG,
                                        videoMemory := (drawPixel b x0 y0 r c s).videoMemory } := by
  unfold drawPixel
  dsimp only
  split_ifs <;> rfl

theorem drawCols_frame (b x0 y0 r : Nat) (s : Chip8) (n : Nat) :
    drawCols b x0 y0 r n s = { s with REG := (drawCols b x0 y0 r n s).REG,
                                       videoMemory := (drawCols b x0 y0 r n s).videoMemory } := by
  induction n with
  | zero => rfl
  | succ n ih =>
    rw [drawCols, drawPixel_frame]
    generalize drawPixel b x0 y0 r n (drawCols b x0 y0 r n s) = t
    rw [ih]

theorem drawRows_frame (x0 y0 : Nat) (s : Chip8) (n : Nat) :
    ∀ s', drawRows x0 y0 n s = .ok s' →
      s' = { s with REG := s'.REG, videoMemory := s'.videoMemory } := by
  induction n with
  | zero =>
    intro s' h
    rw [drawRows] at h
    injection h with h
    subst h; rfl
  | succ n ih =>
    intro s' h
    rw [drawRows] at h
    cases h1 : drawRows x0 y0 n s with
    | error e => rw [h1] at h; cases h
    | ok s1 =>
      rw [h1] at h
      dsimp only at h
      split_ifs at h
      injection h with h
      subst h
      rw [drawCols_frame]
      have := ih s1 h1
      generalize drawCols (s1.memory (s1.R_I + n)) x0 y0 n 8 s1 = t
      rw [this]

theorem storeRegs_frame (s : Chip8) (n : Nat) :
    ∀ s', storeRegs n s = .ok s' → s' = { s with memory := s'.memory } := by
  induction n with
  | zero =>
    intro s' h
    rw [storeRegs] at h
    injection h with h
    subst h; rfl
  | succ n ih =>
    intro s' h
    rw [storeRegs] at h
    cases h1 : storeRegs n s with
    | error e => rw [h1] at h; cases h
    | ok s1 =>
      rw [h1] at h
      dsimp only at h
      split_ifs at h
      injection h with h
      subst h
      have := ih s1 h1
      rw [this]
      rfl

theorem loadRegs_frame (s : Chip8) (n : Nat) :
    ∀ s', loadRegs n s = .ok s' → s' = { s with REG := s'.REG } := by
  induction n with
  | zero =>
    intro s' h
    rw [loadRegs] at h
    injection h with h
    subst h; rfl
  | succ n ih =>
    intro s' h
    rw [loadRegs] at h
    cases h1 : loadRegs n s with
    | error e => rw [h1] at h; cases h
    | ok s1 =>
      rw [h1] at h
      dsimp only at h
      split_ifs at h
      injection h with h
      subst h
      have := ih s1 h1
      rw [this]
      rfl

theorem execute_frame (rnd : Nat) (s : Chip8) :
    ∀ s', execute rnd s = .ok s' → ExecFrame s s' := by
  apply execute_cases rnd s (fun r => ∀ s', r = .ok s' → ExecFrame s s')
  case nop =>
    intro s' h
    injection h with h; subst h
    exact ⟨rfl, rfl, fun _ => rfl, fun _ => rfl, fun _ => rfl⟩
  case hDxyn =>
    intro hf s' h
    have fr := drawRows_frame _ _ _ _ s' h
    have e1 := congrArg Chip8.opcode fr
    have e2 := congrArg Chip8.keypadMemory fr
    have e3 := congrArg Chip8.R_PC fr
    have e4 := congrArg Chip8.R_DELAY_TIMER fr
    have e5 := congrArg Chip8.R_BUZZER_TIMER fr
    exact ⟨e1, e2, fun _ => e3, fun _ => e4, fun _ => e5⟩
  case hFx55 =>
    intro hf hl s' h
    have fr := storeRegs_frame _ _ s' h
    have e1 := congrArg Chip8.opcode fr
    have e2 := congrArg Chip8.keypadMemory fr
    have e3 := congrArg Chip8.R_PC fr
    have e4 := congrArg Chip8.R_DELAY_TIMER fr
    have e5 := congrArg Chip8.R_BUZZER_TIMER fr
    exact ⟨e1, e2, fun _ => e3, fun _ => e4, fun _ => e5⟩
  case hFx65 =>
    intro hf hl s' h
    have fr := loadRegs_frame _ _ s' h
    have e1 := congrArg Chip8.opcode fr
    have e2 := congrArg Chip8.keypadMemory fr
    have e3 := congrArg Chip8.R_PC fr
    have e4 := congrArg Chip8.R_DELAY_TIMER fr
    have e5 := congrArg Chip8.R_BUZZER_TIMER fr
    exact ⟨e1, e2, fun _ => e3, fun _ => e4, fun _ => e5⟩
  all_goals
    first
      | intro hf hl s' h
      | intro hf s' h
    simp only [OP_00E0, OP_00EE, OP_1nnn, OP_2nnn, OP_3xkk, OP_4xkk, OP_5xy0, OP_6xkk,
      OP_7xkk, OP_8xy0, OP_8xy1, OP_8xy2, OP_8xy3, OP_8xy4, OP_8xy5, OP_8xy6, OP_8xy7,
      OP_8xyE, OP_9xy0, OP_Annn, OP_Bnnn, OP_Cxkk, OP_Ex9E, OP_ExA1, OP_Fx07, OP_Fx0A,
      OP_Fx15, OP_Fx18, OP_Fx1E, OP_Fx29, OP_Fx33] at h
    try split at h
    try split_ifs at h
    all_goals
      first
        | cases h; done
        | injection h with h
          subst h
          refine ⟨rfl, rfl, ?_, ?_, ?_⟩ <;> intro hn <;>
            first
              | rfl
              | exfalso; apply hn; unfold writesPC; omega
              | exfalso; apply hn; unfold isSetDelay; omega
              | exfalso; apply hn; unfold isSetSound; omega

theorem storeRegs_ok (s : Chip8) (n : Nat) (h : s.R_I + n ≤ MEMORY_SIZE) :
    ∃ s', storeRegs n s = .ok s' := by
  induction n with
  | zero => exact ⟨s, rfl⟩
  | succ n ih =>
    obtain ⟨s1, h1⟩ := ih (by omega)
    have hI : s1.R_I = s.R_I := by
      have := congrArg Chip8.R_I (storeRegs_frame s n s1 h1)
      simpa using this
    have hlt : s1.R_I + n < MEMORY_SIZE := by omega
    rw [storeRegs, h1]
    simp only [hlt, if_true]
    exact ⟨_, rfl⟩

theorem loadRegs_ok (s : Chip8) (n : Nat) (h : s.R_I + n ≤ MEMORY_SIZE) :
    ∃ s', loadRegs n s = .ok s' := by
  induction n with
  | zero => exact ⟨s, rfl⟩
  | succ n ih =>
    obtain ⟨s1, h1⟩ := ih (by omega)
    have hI : s1.R_I = s.R_I := by
      have := congrArg Chip8.R_I (loadRegs_frame s n s1 h1)
      simpa using this
    have hlt : s1.R_I + n < MEMORY_SIZE := by omega
    rw [loadRegs, h1]
    simp only [hlt, if_true]
    exact ⟨_, rfl⟩

theorem execute_total (rnd : Nat) (s : Chip8) (hpc : ¬ writesPC s.opcode)
    (hmem : accessesMemory s.opcode → s.R_I + 16 ≤ 4096) :
    ∃ s', execute rnd s = .ok s' := by
  apply execute_cases rnd s (fun r => ∃ s', r = .ok s')
  case nop => exact ⟨s, rfl⟩
  case hDxyn =>
    intro hf
    have hI := hmem (Or.inl hf)
    have hn : (s.opcode &&& 0x000F) % 256 ≤ 15 := by rw [and_000F]; omega
    obtain ⟨s', h, _⟩ := drawRows_spec ((s.setReg 0xF 0).REG s.Vx % VIDEO_WIDTH % 256)
      ((s.setReg 0xF 0).REG s.Vy % VIDEO_HEIGHT % 256) (s.setReg 0xF 0)
      ((s.opcode &&& 0x000F) % 256) (by omega)
      (by show s.R_I + _ ≤ MEMORY_SIZE; unfold MEMORY_SIZE; omega)
    exact ⟨s', h⟩
  case hFx33 =>
    intro hf hl
    have hI := hmem (Or.inr ⟨hf, Or.inl hl⟩)
    have h0 : s.R_I + 0 < MEMORY_SIZE := by unfold MEMORY_SIZE; omega
    have h1 : s.R_I + 1 < MEMORY_SIZE := by unfold MEMORY_SIZE; omega
    have h2 : s.R_I + 2 < MEMORY_SIZE := by unfold MEMORY_SIZE; omega
    unfold OP_Fx33
    simp only [Chip8.setMem, h0, h1, h2, if_true]
    exact ⟨_, rfl⟩
  case hFx55 =>
    intro hf hl
    have hI := hmem (Or.inr ⟨hf, Or.inr (Or.inl hl)⟩)
    have hv : s.Vx + 1 ≤ 16 := by rw [Vx_eq]; omega
    exact storeRegs_ok s _ (by unfold MEMORY_SIZE; omega)
  case hFx65 =>
    intro hf hl
    have hI := hmem (Or.inr ⟨hf, Or.inr (Or.inr hl)⟩)
    have hv : s.Vx + 1 ≤ 16 := by rw [Vx_eq]; omega
    exact loadRegs_ok s _ (by unfold MEMORY_SIZE; omega)
  all_goals
    first
      | intro hf hl
      | intro hf
    first
      | exfalso; apply hpc; unfold writesPC; omega
      | (simp only [OP_00E0, OP_6xkk, OP_7xkk, OP_8xy0, OP_8xy1, OP_8xy2, OP_8xy3, OP_8xy4,
          OP_8xy5, OP_8xy6, OP_8xy7, OP_8xyE, OP_Annn, OP_Cxkk, OP_Fx07,
          OP_Fx15, OP_Fx18, OP_Fx1E, OP_Fx29]
         exact ⟨_, rfl⟩)

/-! ## Constructor and loader -/

theorem loadFont_frame (n : Nat) (s : Chip8) :
    loadFont n s = { s with memory := (loadFont n s).memory } := by
  induction n with
  | zero => rfl
  | succ n ih =>
    rw [loadFont]
    generalize loadFont n s = t at ih ⊢
    rw [ih]
    rfl

theorem loadFont_memory (n : Nat) (s : Chip8) (a : Nat) :
    (loadFont n s).memory a =
      if FONTSET_START_ADDRESS ≤ a ∧ a < FONTSET_START_ADDRESS + n
      then FONTSET.getD (a - FONTSET_START_ADDRESS) 0 else s.memory a := by
  induction n with
  | zero =>
    have : ¬ (FONTSET_START_ADDRESS ≤ a ∧ a < FONTSET_START_ADDRESS + 0) := by omega
    rw [if_neg this]
    rfl
  | succ n ih =>
    rw [loadFont]
    show (if a = FONTSET_START_ADDRESS + n then FONTSET.getD n 0 else (loadFont n s).memory a) = _
    rw [ih]
    by_cases h : a = FONTSET_START_ADDRESS + n
    · subst h
      have h1 : FONTSET_START_ADDRESS ≤ FONTSET_START_ADDRESS + n ∧
          FONTSET_START_ADDRESS + n < FONTSET_START_ADDRESS + (n + 1) := by omega
      rw [if_pos rfl, if_pos h1, Nat.add_sub_cancel_left]
    · rw [if_neg h]
      by_cases h2 : FONTSET_START_ADDRESS ≤ a ∧ a < FONTSET_START_ADDRESS + n
      · have h3 : FONTSET_START_ADDRESS ≤ a ∧ a < FONTSET_START_ADDRESS + (n + 1) := by omega
        rw [if_pos h2, if_pos h3]
      · have h3 : ¬ (FONTSET_START_ADDRESS ≤ a ∧ a < FONTSET_START_ADDRESS + (n + 1)) := by
          omega
        rw [if_neg h2, if_neg h3]

theorem new_memory (a : Nat) :
    Chip8.new.memory a = if 0x50 ≤ a ∧ a < 0xA0 then FONTSET.getD (a - 0x50) 0 else 0 := by
  unfold Chip8.new
  rw [loadFont_memory]
  rfl

theorem new_frame : Chip8.new = { Chip8.zero with R_PC := 0x200, memory := Chip8.new.memory } := by
  unfold Chip8.new
  rw [loadFont_frame]
  rfl

theorem FONTSET_lt (i : Nat) : FONTSET.getD i 0 < 256 := by
  by_cases h : i < 80
  · interval_cases i <;> decide
  · have : FONTSET.length ≤ i := by
      have : FONTSET.length = 80 := rfl
      omega
    rw [List.getD_eq_default _ _ this]
    decide

theorem new_WF : Chip8.new.WF := by
  rw [new_frame]
  have hmem : ∀ a, Chip8.new.memory a < 256 := by
    intro a
    rw [new_memory]
    split_ifs
    · exact FONTSET_lt _
    · decide
  have hpc : (0x200 : Nat) < 65536 := by decide
  exact { zero_WF with pc := hpc, memory := hmem }

theorem loadLoop_frame (buffer : List Nat) (s : Chip8) (n : Nat) :
    ∀ s', loadLoop buffer n s = .ok s' → s' = { s with memory := s'.memory } := by
  induction n with
  | zero =>
    intro s' h
    rw [loadLoop] at h
    injection h with h
    subst h; rfl
  | succ n ih =>
    intro s' h
    rw [loadLoop] at h
    cases h1 : loadLoop buffer n s with
    | error e => rw [h1] at h; cases h
    | ok s1 =>
      rw [h1] at h
      dsimp only at h
      split_ifs at h
      injection h with h
      subst h
      have := ih s1 h1
      rw [this]
      rfl

theorem loadLoop_ok (buffer : List Nat) (s : Chip8) (n : Nat)
    (hn : ROM_START_ADDRESS + n ≤ MEMORY_SIZE) :
    ∃ s', loadLoop buffer n s = .ok s' ∧
      ∀ a, s'.memory a =
        if ROM_START_ADDRESS ≤ a ∧ a < ROM_START_ADDRESS + n
        then buffer.getD (a - ROM_START_ADDRESS) 0 else s.memory a := by
  induction n with
  | zero =>
    refine ⟨s, rfl, ?_⟩
    intro a
    have : ¬ (ROM_START_ADDRESS ≤ a ∧ a < ROM_START_ADDRESS + 0) := by omega
    rw [if_neg this]
  | succ n ih =>
    obtain ⟨s1, h1, hm⟩ := ih (by omega)
    have hlt : ROM_START_ADDRESS + n < MEMORY_SIZE := by omega
    rw [loadLoop, h1]
    simp only [hlt, if_true]
    refine ⟨_, rfl, ?_⟩
    intro a
    show (if a = ROM_START_ADDRESS + n then buffer.getD n 0 else s1.memory a) = _
    rw [hm]
    by_cases h : a = ROM_START_ADDRESS + n
    · subst h
      have h3 : ROM_START_ADDRESS ≤ ROM_START_ADDRESS + n ∧
          ROM_START_ADDRESS + n < ROM_START_ADDRESS + (n + 1) := by omega
      rw [if_pos rfl, if_pos h3, Nat.add_sub_cancel_left]
    · rw [if_neg h]
      by_cases h2 : ROM_START_ADDRESS ≤ a ∧ a < ROM_START_ADDRESS + n
      · have h3 : ROM_START_ADDRESS ≤ a ∧ a < ROM_START_ADDRESS + (n + 1) := by omega
        rw [if_pos h2, if_pos h3]
      · have h3 : ¬ (ROM_START_ADDRESS ≤ a ∧ a < ROM_START_ADDRESS + (n + 1)) := by omega
        rw [if_neg h2, if_neg h3]

theorem loadLoop_overflow (buffer : List Nat) (s : Chip8) (n : Nat)
    (hn : MEMORY_SIZE < ROM_START_ADDRESS + n) :
    loadLoop buffer n s = .error (.memoryOutOfBounds MEMORY_SIZE) := by
  induction n with
  | zero => unfold MEMORY_SIZE ROM_START_ADDRESS at hn; omega
  | succ n ih =>
    rw [loadLoop]
    by_cases h : MEMORY_SIZE < ROM_START_ADDRESS + n
    · rw [ih h]
    · have heq : ROM_START_ADDRESS + n = MEMORY_SIZE := by omega
      obtain ⟨s1, h1, _⟩ := loadLoop_ok buffer s n (by omega)
      rw [h1]
      have hnlt : ¬ (ROM_START_ADDRESS + n < MEMORY_SIZE) := by omega
      simp only [hnlt, if_false]
      rw [heq]

/-! ## Key wait, memory writes and runs -/

theorem findKey_none (kp : Nat → Nat) (fuel : Nat) :
    ∀ k0, (∀ j, k0 ≤ j → j < k0 + fuel → kp j = 0) → findKey kp fuel k0 = none := by
  induction fuel with
  | zero => intro k0 _; rfl
  | succ fuel ih =>
    intro k0 h
    rw [findKey]
    have h0 : kp k0 = 0 := h k0 (le_refl _) (by omega)
    have : ¬ (kp k0 ≠ 0) := fun hn => hn h0
    rw [if_neg this]
    exact ih (k0 + 1) (fun j hj1 hj2 => h j (by omega) (by omega))

theorem findKey_some (kp : Nat → Nat) (k : Nat) (hk : kp k ≠ 0) (fuel : Nat) :
    ∀ k0, k0 ≤ k → k < k0 + fuel → (∀ j, k0 ≤ j → j < k → kp j = 0) →
      findKey kp fuel k0 = some k := by
  induction fuel with
  | zero => intro k0 h1 h2; omega
  | succ fuel ih =>
    intro k0 h1 h2 h3
    rw [findKey]
    by_cases hk0 : k0 = k
    · subst hk0
      rw [if_pos hk]
    · have h0 : kp k0 = 0 := h3 k0 (le_refl _) (by omega)
      have : ¬ (kp k0 ≠ 0) := fun hn => hn h0
      rw [if_neg this]
      exact ih (k0 + 1) (by omega) (by omega) (fun j hj1 hj2 => h3 j (by omega) hj2)

theorem waitKey_tick_idle (rnd : Nat) (s : Chip8) (X : Nat) (hwf : s.WF)
    (hpc : s.R_PC ≤ 4094) (hX : X < 16)
    (hop : 256 * s.memory s.R_PC + s.memory (s.R_PC + 1) = 0xF00A + 256 * X)
    (hkeys : ∀ k, k < 16 → s.keypadMemory k = 0) :
    tick rnd s = .ok (timers { s with opcode := 0xF00A + 256 * X }) := by
  have hf := fetch_ok s hwf hpc
  rw [hop] at hf
  rw [tick_eq_map rnd s _ hf]
  have hfam : ((0xF00A + 256 * X) / 4096) % 16 = 15 := by omega
  have hlow : (0xF00A + 256 * X) % 256 = 0x0A := by omega
  rw [execute_familyF rnd _ hfam]
  simp only [hlow]
  show Except.map timers (OP_Fx0A rnd _) = _
  unfold OP_Fx0A
  have hnone : findKey s.keypadMemory 16 0 = none :=
    findKey_none _ 16 0 (fun j _ hj => hkeys j (by omega))
  simp only [hnone]
  have hw : wrap16 (((s.R_PC + 2 : Nat) : Int) - 2) = s.R_PC := by
    have := hwf.pc
    unfold wrap16
    omega
  rw [hw]
  rfl

theorem waitKey_run_idle (X : Nat) (hX : X < 16) (rnds : List Nat) :
    ∀ s : Chip8, s.WF → s.R_PC ≤ 4094 →
      256 * s.memory s.R_PC + s.memory (s.R_PC + 1) = 0xF00A + 256 * X →
      (∀ k, k < 16 → s.keypadMemory k = 0) →
      ∃ s', runTicks rnds s = .ok s' ∧
        s'.R_PC = s.R_PC ∧ s'.REG = s.REG ∧ s'.R_I = s.R_I ∧
        s'.stackMemory = s.stackMemory ∧ s'.R_SP = s.R_SP ∧ s'.memory = s.memory ∧
        s'.videoMemory = s.videoMemory ∧ s'.keypadMemory = s.keypadMemory ∧
        s'.R_DELAY_TIMER = s.R_DELAY_TIMER - rnds.length ∧
        s'.R_BUZZER_TIMER = s.R_BUZZER_TIMER - rnds.length := by
  induction rnds with
  | nil =>
    intro s _ _ _ _
    exact ⟨s, rfl, rfl, rfl, rfl, rfl, rfl, rfl, rfl, rfl, rfl, rfl⟩
  | cons rnd rest ih =>
    intro s hwf hpc hop hkeys
    have ht := waitKey_tick_idle rnd s X hwf hpc hX hop hkeys
    set t : Chip8 := { s with opcode := 0xF00A + 256 * X } with ht_def
    have wft : t.WF := hwf.withOpcode _ (by omega)
    have fr := timers_frame t
    have hd := timers_delay t
    have hb := timers_sound t
    have e_pc : (timers t).R_PC = s.R_PC := by rw [fr]
    have e_mem : (timers t).memory = s.memory := by rw [fr]
    have e_kp : (timers t).keypadMemory = s.keypadMemory := by rw [fr]
    have e_reg : (timers t).REG = s.REG := by rw [fr]
    have e_i : (timers t).R_I = s.R_I := by rw [fr]
    have e_st : (timers t).stackMemory = s.stackMemory := by rw [fr]
    have e_sp : (timers t).R_SP = s.R_SP := by rw [fr]
    have e_v : (timers t).videoMemory = s.videoMemory := by rw [fr]
    have e_d : t.R_DELAY_TIMER = s.R_DELAY_TIMER := rfl
    have e_b : t.R_BUZZER_TIMER = s.R_BUZZER_TIMER := rfl
    obtain ⟨s', h, h1, h2, h3, h4, h5, h6, h7, h8, h9, h10⟩ :=
      ih (timers t) (timers_WF t wft) (by rw [e_pc]; exact hpc)
        (by rw [e_pc, e_mem]; exact hop) (by rw [e_kp]; exact hkeys)
    refine ⟨s', ?_, by rw [h1, e_pc], by rw [h2, e_reg], by rw [h3, e_i], by rw [h4, e_st],
      by rw [h5, e_sp], by rw [h6, e_mem], by rw [h7, e_v], by rw [h8, e_kp], ?_, ?_⟩
    · rw [runTicks, ht]
      exact h
    · rw [h9, hd, e_d, List.length_cons]
      split_ifs <;> omega
    · rw [h10, hb, e_b, List.length_cons]
      split_ifs <;> omega

theorem fetch_eq (s s1 : Chip8) (h : fetch s = .ok s1) :
    s1 = { s with opcode := fetchWord s, R_PC := (s.R_PC + 2) % 65536 } := by
  unfold fetch at h
  split_ifs at h
  injection h with h
  subst h
  rfl

theorem storeRegs_memory (s : Chip8) (n : Nat) :
    ∀ s', storeRegs n s = .ok s' →
      ∀ a, (a < s.R_I ∨ s.R_I + n ≤ a) → s'.memory a = s.memory a := by
  induction n with
  | zero =>
    intro s' h a _
    rw [storeRegs] at h
    injection h with h
    subst h; rfl
  | succ n ih =>
    intro s' h a ha
    rw [storeRegs] at h
    cases h1 : storeRegs n s with
    | error e => rw [h1] at h; cases h
    | ok s1 =>
      rw [h1] at h
      dsimp only at h
      split_ifs at h
      injection h with h
      subst h
      have hI : s1.R_I = s.R_I := by
        have := congrArg Chip8.R_I (storeRegs_frame s n s1 h1)
        simpa using this
      show (if a = s1.R_I + n then _ else s1.memory a) = _
      have : a ≠ s1.R_I + n := by omega
      rw [if_neg this]
      exact ih s1 h1 a (by omega)

/-- Memory after an execute step: a byte differs from before only inside the
target of store-bcd or store-regs. -/
theorem execute_memory (rnd : Nat) (s : Chip8) :
    ∀ s', execute rnd s = .ok s' → ∀ a, s'.memory a ≠ s.memory a →
      (s.opcode / 4096 % 16 = 0xF ∧ s.opcode % 256 = 0x33 ∧ s.R_I ≤ a ∧ a ≤ s.R_I + 2) ∨
      (s.opcode / 4096 % 16 = 0xF ∧ s.opcode % 256 = 0x55 ∧ s.R_I ≤ a ∧
        a ≤ s.R_I + s.opcode / 256 % 16) := by
  apply execute_cases rnd s (fun r => ∀ s', r = .ok s' → ∀ a, s'.memory a ≠ s.memory a →
      (s.opcode / 4096 % 16 = 0xF ∧ s.opcode % 256 = 0x33 ∧ s.R_I ≤ a ∧ a ≤ s.R_I + 2) ∨
      (s.opcode / 4096 % 16 = 0xF ∧ s.opcode % 256 = 0x55 ∧ s.R_I ≤ a ∧
        a ≤ s.R_I + s.opcode / 256 % 16))
  case nop =>
    intro s' h a hne
    injection h with h; subst h
    exact absurd rfl hne
  case hDxyn =>
    intro hf s' h a hne
    have fr := congrArg Chip8.memory (drawRows_frame _ _ _ _ s' h)
    exact absurd (congrFun fr a) hne
  case hFx65 =>
    intro hf hl s' h a hne
    have fr := congrArg Chip8.memory (loadRegs_frame _ _ s' h)
    exact absurd (congrFun fr a) hne
  case hFx55 =>
    intro hf hl s' h a hne
    right
    refine ⟨hf, hl, ?_⟩
    by_contra hout
    apply hne
    have hv := Vx_eq s
    exact storeRegs_memory s _ s' h a (by omega)
  case hFx33 =>
    intro hf hl s' h a hne
    left
    refine ⟨hf, hl, ?_⟩
    by_contra hout
    apply hne
    unfold OP_Fx33 at h
    dsimp only at h
    split_ifs at h
    injection h with h
    subst h
    simp only [Chip8.setMem, Nat.add_zero]
    have a0 : a ≠ s.R_I := by omega
    have a1 : a ≠ s.R_I + 1 := by omega
    have a2 : a ≠ s.R_I + 2 := by omega
    simp only [a0, a1, a2, if_false]
  all_goals
    first
      | intro hf hl s' h a hne
      | intro hf s' h a hne
    exfalso
    apply hne
    simp only [OP_00E0, OP_00EE, OP_1nnn, OP_2nnn, OP_3xkk, OP_4xkk, OP_5xy0, OP_6xkk,
      OP_7xkk, OP_8xy0, OP_8xy1, OP_8xy2, OP_8xy3, OP_8xy4, OP_8xy5, OP_8xy6, OP_8xy7,
      OP_8xyE, OP_9xy0, OP_Annn, OP_Bnnn, OP_Cxkk, OP_Ex9E, OP_ExA1, OP_Fx07, OP_Fx0A,
      OP_Fx15, OP_Fx18, OP_Fx1E, OP_Fx29] at h
    try split at h
    try split_ifs at h
    all_goals
      first
        | cases h; done
        | injection h with h
          subst h
          rfl

theorem tick_keeps_glyphs (rnd : Nat) (s s' : Chip8) (h : tick rnd s = .ok s')
    (hno : ¬ storesIntoGlyphs s) (hg : glyphIntact s) : glyphIntact s' := by
  obtain ⟨s1, s2, hf, he, rfl⟩ := (tick_ok_iff rnd s s').mp h
  have e1 := fetch_eq s s1 hf
  have hop : s1.opcode = fetchWord s := by rw [e1]
  have hI : s1.R_I = s.R_I := by rw [e1]
  have hM : s1.memory = s.memory := by rw [e1]
  intro i hi
  have hT : (timers s2).memory = s2.memory := by
    have := congrArg Chip8.memory (timers_frame s2)
    simpa using this
  rw [hT, ← hg i hi]
  by_contra hne
  have hne' : s2.memory (FONTSET_START_ADDRESS + i) ≠ s1.memory (FONTSET_START_ADDRESS + i) := by
    rw [hM]; exact hne
  apply hno
  unfold FONTSET_SIZE BYTES_PER_CHAR at hi
  rcases execute_memory rnd s1 s2 he _ hne' with ⟨a, b, c, d⟩ | ⟨a, b, c, d⟩
  · left
    rw [hop] at a b
    rw [hI] at c d
    refine ⟨a, b, ?_, ?_⟩
    · unfold FONTSET_SIZE BYTES_PER_CHAR; omega
    · omega
  · right
    rw [hop] at a b d
    rw [hI] at c d
    refine ⟨a, b, ?_, ?_⟩
    · unfold FONTSET_SIZE BYTES_PER_CHAR; omega
    · omega

theorem loadROM_overflow (image : List Nat) (s : Chip8) (hL : 4096 - 0x200 < image.length) :
    loadROM (.content image) s = .undefined (.memoryOutOfBounds 4096) := by
  have := loadLoop_overflow image s image.length
    (by unfold ROM_START_ADDRESS MEMORY_SIZE; omega)
  unfold loadROM
  simp only [this]
  rfl

theorem loaded_glyphs (image : List Nat) (s : Chip8)
    (hL : image.length ≤ MEMORY_SIZE - ROM_START_ADDRESS)
    (h : loadROM (.content image) Chip8.new = .returned s) : glyphIntact s := by
  obtain ⟨s', h', hm⟩ := loadLoop_ok image Chip8.new image.length
    (by unfold ROM_START_ADDRESS MEMORY_SIZE at hL ⊢; omega)
  unfold loadROM at h
  simp only [h'] at h
  injection h with h
  subst h
  intro i hi
  unfold FONTSET_SIZE BYTES_PER_CHAR at hi
  unfold FONTSET_START_ADDRESS
  have hnot : ¬ (ROM_START_ADDRESS ≤ 0x50 + i ∧ 0x50 + i < ROM_START_ADDRESS + image.length) := by
    unfold ROM_START_ADDRESS; omega
  rw [hm, if_neg hnot, new_memory]
  have : 0x50 ≤ 0x50 + i ∧ 0x50 + i < 0xA0 := by omega
  rw [if_pos this, Nat.add_sub_cancel_left]

theorem reachable_runTicks (rnds : List Nat) :
    ∀ s s', Reachable s → runTicks rnds s = .ok s' → Reachable s' := by
  induction rnds with
  | nil =>
    intro s s' hr h
    rw [runTicks] at h
    injection h with h
    subst h
    exact hr
  | cons rnd rest ih =>
    intro s s' hr h
    rw [runTicks] at h
    cases h1 : tick rnd s with
    | error e => rw [h1] at h; cases h
    | ok s1 =>
      rw [h1] at h
      exact ih s1 s' (ReachableVia.step rnd s s1 hr trivial h1) h

theorem reachable_bootImage (image : List Nat)
    (hL : image.length ≤ MEMORY_SIZE - ROM_START_ADDRESS) : Reachable (bootImage image) := by
  obtain ⟨s', h', _⟩ := loadLoop_ok image Chip8.new image.length
    (by unfold ROM_START_ADDRESS MEMORY_SIZE at hL ⊢; omega)
  have hl : loadROM (.content image) Chip8.new = .returned s' := by
    unfold loadROM
    simp only [h']
  have hb : bootImage image = s' := by
    unfold bootImage
    rw [hl]
  rw [hb]
  exact ReachableVia.loaded image s' hL hl

theorem call_on_full_stack (rnd : Nat) (s : Chip8) (hwf : s.WF) (hpc : s.R_PC ≤ 4094)
    (hcall : (256 * s.memory s.R_PC + s.memory (s.R_PC + 1)) / 4096 = 2)
    (hsp : 16 ≤ s.R_SP) :
    tick rnd s = .error (.stackOutOfBounds s.R_SP) := by
  have hf := fetch_ok s hwf hpc
  rw [tick_eq_map rnd s _ hf, execute_eq]
  have hfam : (256 * s.memory s.R_PC + s.memory (s.R_PC + 1)) / 4096 % 16 = 2 := by omega
  simp only [hfam]
  show Except.map timers (OP_2nnn rnd _) = _
  unfold OP_2nnn
  have : ¬ (s.R_SP < STACK_LEVELS) := by unfold STACK_LEVELS; omega
  simp only [this, if_false]
  rfl

theorem return_on_empty_stack (rnd : Nat) (s : Chip8) (hwf : s.WF) (hpc : s.R_PC ≤ 4094)
    (hret : 256 * s.memory s.R_PC + s.memory (s.R_PC + 1) = 0x00EE)
    (hsp : s.R_SP = 0) :
    tick rnd s = .error (.stackOutOfBounds 255) := by
  have hf := fetch_ok s hwf hpc
  rw [hret] at hf
  set t : Chip8 := { s with opcode := 0x00EE, R_PC := s.R_PC + 2 } with ht
  have hfam : t.opcode / 4096 % 16 = 0 := by show 0x00EE / 4096 % 16 = 0; rfl
  have hlow : t.opcode % 16 = 0xE := by show (0x00EE : Nat) % 16 = 0xE; rfl
  have hex : execute rnd t = OP_00EE rnd t := by
    rw [execute_family0 rnd t hfam, hlow]
    rfl
  have hw : wrap8 ((t.R_SP : Int) - 1) = 255 := by
    show wrap8 ((s.R_SP : Int) - 1) = 255
    rw [hsp]; rfl
  have hfault : OP_00EE rnd t = .error (.stackOutOfBounds 255) := by
    unfold OP_00EE
    simp only [hw]
    rfl
  rw [tick_eq_map rnd s t hf, hex, hfault]
  rfl

theorem sampleWait_WF (keypad : Nat → Nat) (hk : ∀ k, keypad k < 256) :
    (sampleWait keypad).WF := by
  have hmem : ∀ a, (if a = 0x200 then 0xF3 else if a = 0x201 then 0x0A else 0) < 256 := by
    intro a
    split_ifs <;> decide
  have hpc : (0x200 : Nat) < 65536 := by decide
  exact { zero_WF with memory := hmem, pc := hpc, keypad := hk }

/-! ## Register block transfer, video cells, flag as operand -/

theorem storeRegs_written (s : Chip8) (n : Nat) :
    ∀ s', storeRegs n s = .ok s' → ∀ w, w < n → s'.memory (s.R_I + w) = s.REG w := by
  induction n with
  | zero => intro s' _ w hw; omega
  | succ n ih =>
    intro s' h w hw
    rw [storeRegs] at h
    cases h1 : storeRegs n s with
    | error e => rw [h1] at h; cases h
    | ok s1 =>
      rw [h1] at h
      dsimp only at h
      split_ifs at h
      injection h with h
      subst h
      have fr := storeRegs_frame s n s1 h1
      have hI : s1.R_I = s.R_I := by
        have := congrArg Chip8.R_I fr
        simpa using this
      have hR : s1.REG = s.REG := by
        have := congrArg Chip8.REG fr
        simpa using this
      show (if s.R_I + w = s1.R_I + n then s1.REG n else s1.memory (s.R_I + w)) = _
      by_cases hwn : w = n
      · subst hwn
        rw [hI, if_pos rfl, hR]
      · have : s.R_I + w ≠ s1.R_I + n := by omega
        rw [if_neg this]
        exact ih s1 h1 w (by omega)

theorem loadRegs_spec (s : Chip8) (n : Nat) :
    ∀ s', loadRegs n s = .ok s' →
      (∀ w, w < n → s'.REG w = s.memory (s.R_I + w)) ∧
      (∀ k, n ≤ k → s'.REG k = s.REG k) := by
  induction n with
  | zero =>
    intro s' h
    rw [loadRegs] at h
    injection h with h
    subst h
    exact ⟨fun w hw => by omega, fun _ _ => rfl⟩
  | succ n ih =>
    intro s' h
    rw [loadRegs] at h
    cases h1 : loadRegs n s with
    | error e => rw [h1] at h; cases h
    | ok s1 =>
      rw [h1] at h
      dsimp only at h
      split_ifs at h
      injection h with h
      subst h
      have fr := loadRegs_frame s n s1 h1
      have hI : s1.R_I = s.R_I := by
        have := congrArg Chip8.R_I fr
        simpa using this
      have hM : s1.memory = s.memory := by
        have := congrArg Chip8.memory fr
        simpa using this
      obtain ⟨ih1, ih2⟩ := ih s1 h1
      constructor
      · intro w hw
        by_cases hwn : w = n
        · subst hwn
          rw [setReg_same, hM, hI]
        · rw [setReg_ne _ _ _ _ hwn]
          exact ih1 w (by omega)
      · intro k hk
        have hkn : k ≠ n := by omega
        rw [setReg_ne _ _ _ _ hkn]
        exact ih2 k (by omega)

theorem setVideo_toggle_binary (s : Chip8) (idx : Nat) (h : videoBinary s) :
    videoBinary (s.setVideo idx (togglePixel (s.videoMemory idx))) := by
  intro i hi
  show (if i = idx then togglePixel (s.videoMemory idx) else s.videoMemory i) = 0 ∨
    (if i = idx then togglePixel (s.videoMemory idx) else s.videoMemory i) = 0xFFFFFFFF
  by_cases hidx : i = idx
  · subst hidx
    rw [if_pos rfl]
    rcases h i hi with h0 | h1
    · right; rw [h0]; exact togglePixel_zero
    · left; rw [h1]; exact togglePixel_full
  · rw [if_neg hidx]
    exact h i hi

theorem drawPixel_binary (b x0 y0 r c : Nat) (s : Chip8) (h : videoBinary s) :
    videoBinary (drawPixel b x0 y0 r c s) := by
  unfold drawPixel
  dsimp only
  split_ifs with hp hon
  · exact setVideo_toggle_binary (s.setReg 0xF 1) _ h
  · exact setVideo_toggle_binary s _ h
  · exact h

theorem drawCols_binary (b x0 y0 r : Nat) (s : Chip8) (h : videoBinary s) (n : Nat) :
    videoBinary (drawCols b x0 y0 r n s) := by
  induction n with
  | zero => exact h
  | succ n ih =>
    rw [drawCols]
    exact drawPixel_binary _ _ _ _ _ _ ih

theorem drawRows_binary (x0 y0 : Nat) (s : Chip8) (h : videoBinary s) (n : Nat) :
    ∀ s', drawRows x0 y0 n s = .ok s' → videoBinary s' := by
  induction n with
  | zero =>
    intro s' h'
    rw [drawRows] at h'
    injection h' with h'
    subst h'
    exact h
  | succ n ih =>
    intro s' h'
    rw [drawRows] at h'
    cases h1 : drawRows x0 y0 n s with
    | error e => rw [h1] at h'; cases h'
    | ok s1 =>
      rw [h1] at h'
      dsimp only at h'
      split_ifs at h'
      injection h' with h'
      subst h'
      exact drawCols_binary _ _ _ _ _ (ih s1 h1) 8

/-- Video buffer after an execute step: it differs from before only for
clear-screen and draw, and stays binary if it was. -/
theorem execute_video (rnd : Nat) (s : Chip8) :
    ∀ s', execute rnd s = .ok s' →
      (s'.videoMemory ≠ s.videoMemory → isClearScreen s.opcode ∨ isDraw s.opcode) ∧
      (videoBinary s → videoBinary s') := by
  apply execute_cases rnd s (fun r => ∀ s', r = .ok s' →
      (s'.videoMemory ≠ s.videoMemory → isClearScreen s.opcode ∨ isDraw s.opcode) ∧
      (videoBinary s → videoBinary s'))
  case nop =>
    intro s' h
    injection h with h; subst h
    exact ⟨fun hne => absurd rfl hne, id⟩
  case h00E0 =>
    intro hf hl s' h
    unfold OP_00E0 at h
    injection h with h
    subst h
    refine ⟨fun _ => Or.inl ⟨hf, hl⟩, ?_⟩
    intro _ i hi
    left
    show (if i < VIDEO_WIDTH * VIDEO_HEIGHT then 0 else s.videoMemory i) = 0
    rw [if_pos hi]
  case hDxyn =>
    intro hf s' h
    refine ⟨fun _ => Or.inr hf, ?_⟩
    intro hb
    exact drawRows_binary _ _ (s.setReg 0xF 0) hb _ s' h
  case hFx55 =>
    intro hf hl s' h
    have fr := congrArg Chip8.videoMemory (storeRegs_frame _ _ s' h)
    have e : s'.videoMemory = s.videoMemory := fr
    exact ⟨fun hne => absurd e hne, fun hb i hi => by rw [e]; exact hb i hi⟩
  case hFx65 =>
    intro hf hl s' h
    have fr := congrArg Chip8.videoMemory (loadRegs_frame _ _ s' h)
    have e : s'.videoMemory = s.videoMemory := fr
    exact ⟨fun hne => absurd e hne, fun hb i hi => by rw [e]; exact hb i hi⟩
  all_goals
    first
      | intro hf hl s' h
      | intro hf s' h
    have e : s'.videoMemory = s.videoMemory := by
      simp only [OP_00EE, OP_1nnn, OP_2nnn, OP_3xkk, OP_4xkk, OP_5xy0, OP_6xkk,
        OP_7xkk, OP_8xy0, OP_8xy1, OP_8xy2, OP_8xy3, OP_8xy4, OP_8xy5, OP_8xy6, OP_8xy7,
        OP_8xyE, OP_9xy0, OP_Annn, OP_Bnnn, OP_Cxkk, OP_Ex9E, OP_ExA1, OP_Fx07, OP_Fx0A,
        OP_Fx15, OP_Fx18, OP_Fx1E, OP_Fx29, OP_Fx33] at h
      try split at h
      try split_ifs at h
      all_goals
        first
          | cases h; done
          | injection h with h
            subst h
            rfl
    exact ⟨fun hne => absurd e hne, fun hb i hi => by rw [e]; exact hb i hi⟩

theorem tick_video (rnd : Nat) (s s' : Chip8) (h : tick rnd s = .ok s') :
    (s'.videoMemory ≠ s.videoMemory → isClearScreen (fetchWord s) ∨ isDraw (fetchWord s)) ∧
    (videoBinary s → videoBinary s') := by
  obtain ⟨s1, s2, hf, he, rfl⟩ := (tick_ok_iff rnd s s').mp h
  have e1 := fetch_eq s s1 hf
  have hop : s1.opcode = fetchWord s := by rw [e1]
  have hV : s1.videoMemory = s.videoMemory := by rw [e1]
  have hT : (timers s2).videoMemory = s2.videoMemory := by
    have := congrArg Chip8.videoMemory (timers_frame s2)
    simpa using this
  obtain ⟨a, b⟩ := execute_video rnd s1 s2 he
  rw [hop, hV] at a
  constructor
  · intro hne
    rw [hT] at hne
    exact a hne
  · intro hb i hi
    rw [hT]
    exact b (fun j hj => by rw [hV]; exact hb j hj) i hi

theorem reachable_videoBinary (s : Chip8) (h : Reachable s) : videoBinary s := by
  induction h with
  | loaded image s hL hload =>
    obtain ⟨s', h', _⟩ := loadLoop_ok image Chip8.new image.length
      (by unfold ROM_START_ADDRESS MEMORY_SIZE at hL ⊢; omega)
    have fr := loadLoop_frame image Chip8.new _ s' h'
    unfold loadROM at hload
    simp only [h'] at hload
    injection hload with hload
    subst hload
    intro i _
    left
    rw [fr, new_frame]
    rfl
  | keys s keypad _ ih => exact ih
  | step rnd s s' _ _ htick ih => exact (tick_video rnd s s' htick).2 ih

theorem sub_reg_VF (rnd : Nat) (s : Chip8) (X : Nat) (hwf : s.WF) (hX : X < 15)
    (hop : s.opcode = 0x80F5 + 256 * X) :
    ∃ s', execute rnd s = .ok s' ∧
      (s'.REG X : Int)
        = ((s.REG X : Int) - (if s.REG X > s.REG 15 then 1 else 0)) % 256 := by
  have hfam : (s.opcode / 4096) % 16 = 8 := by omega
  have hlow : s.opcode % 16 = 5 := by omega
  have hvx : s.Vx = X := by rw [Vx_eq]; omega
  have hvy : s.Vy = 15 := by rw [Vy_eq]; omega
  have hx := hwf.reg X
  have hX15 : X ≠ 15 := by omega
  rw [execute_family8 rnd s hfam, hlow]
  refine ⟨_, rfl, ?_⟩
  have hXv : ∀ f, (((s.setReg 15 f).setReg X
      (wrap8 (((s.setReg 15 f).REG X : Int) - ((s.setReg 15 f).REG 15 : Int)))).REG X : Int)
      = ((s.REG X : Int) - (f : Int)) % 256 := by
    intro f
    rw [setReg_same, setReg_ne _ _ _ _ hX15, setReg_same]
    unfold wrap8
    omega
  simp only [hvx, hvy]
  by_cases hgt : s.REG X > s.REG 15
  · simp only [hgt, if_true]
    exact hXv 1
  · simp only [hgt, if_false]
    exact hXv 0

theorem subn_reg_VF (rnd : Nat) (s : Chip8) (X : Nat) (hwf : s.WF) (hX : X < 15)
    (hop : s.opcode = 0x80F7 + 256 * X) :
    ∃ s', execute rnd s = .ok s' ∧
      (s'.REG X : Int)
        = ((if s.REG 15 ≥ s.REG X then 1 else 0) - (s.REG X : Int)) % 256 := by
  have hfam : (s.opcode / 4096) % 16 = 8 := by omega
  have hlow : s.opcode % 16 = 7 := by omega
  have hvx : s.Vx = X := by rw [Vx_eq]; omega
  have hvy : s.Vy = 15 := by rw [Vy_eq]; omega
  have hx := hwf.reg X
  have hX15 : X ≠ 15 := by omega
  rw [execute_family8 rnd s hfam, hlow]
  refine ⟨_, rfl, ?_⟩
  have hXv : ∀ f, (((s.setReg 15 f).setReg X
      (wrap8 (((s.setReg 15 f).REG 15 : Int) - ((s.setReg 15 f).REG X : Int)))).REG X : Int)
      = ((f : Int) - (s.REG X : Int)) % 256 := by
    intro f
    rw [setReg_same, setReg_ne _ _ _ _ hX15, setReg_same]
    unfold wrap8
    omega
  simp only [hvx, hvy]
  by_cases hge : s.REG 15 ≥ s.REG X
  · simp only [hge, if_true]
    exact hXv 1
  · simp only [hge, if_false]
    exact hXv 0

/-! ## The tick: fetch, dispatch, timers -/

/-- C1: for every well-formed state with `pc <= 4094` the fetch succeeds, the
instruction word is `256 * memory[pc] + memory[pc+1]`, it is stored as the current
instruction and `pc` is advanced by 2 before the handler runs (the tick is the
handler applied to that state, followed by the timer section); the word is still
the current instruction when the tick ends; for an instruction whose handler does
not assign `pc`, a tick that ends has `pc = old pc + 2`, and it does end whenever
the handler's memory accesses are in bounds; a call `2NNN` with a free stack slot
stores `old pc + 2` in slot `sp`, increments `sp` and sets `pc = NNN`. -/
theorem C1_fetch_advance (rnd : Nat) (s : Chip8) (hwf : s.WF) (hpc : s.R_PC ≤ 4094) :
    ∃ s1, fetch s = .ok s1 ∧
      s1 = { s with opcode := 256 * s.memory s.R_PC + s.memory (s.R_PC + 1),
                    R_PC := s.R_PC + 2 } ∧
      tick rnd s = (execute rnd s1).map timers ∧
      (∀ s', tick rnd s = .ok s' → s'.opcode = s1.opcode) ∧
      (¬ writesPC s1.opcode → ∀ s', tick rnd s = .ok s' → s'.R_PC = s.R_PC + 2) ∧
      (¬ writesPC s1.opcode → (accessesMemory s1.opcode → s.R_I + 16 ≤ 4096) →
        ∃ s', tick rnd s = .ok s' ∧ s'.R_PC = s.R_PC + 2) ∧
      (s1.opcode / 4096 = 2 → s.R_SP < 16 →
        ∃ s', tick rnd s = .ok s' ∧ s'.stackMemory s.R_SP = s.R_PC + 2 ∧
          s'.R_SP = s.R_SP + 1 ∧ s'.R_PC = s1.opcode % 4096) := by
  have hf := fetch_ok s hwf hpc
  set s1 : Chip8 := { s with opcode := 256 * s.memory s.R_PC + s.memory (s.R_PC + 1),
                             R_PC := s.R_PC + 2 } with hs1
  have htick := tick_eq_map rnd s s1 hf
  have hpc1 : s1.R_PC = s.R_PC + 2 := rfl
  have key : ∀ s', tick rnd s = .ok s' →
      ∃ s2, execute rnd s1 = .ok s2 ∧ s' = timers s2 := by
    intro s' h
    obtain ⟨t1, t2, h1, h2, h3⟩ := (tick_ok_iff rnd s s').mp h
    rw [hf] at h1
    injection h1 with h1
    subst h1
    exact ⟨t2, h2, h3⟩
  have hpcT : ∀ t, (timers t).R_PC = t.R_PC := fun t => by
    have := congrArg Chip8.R_PC (timers_frame t); simpa using this
  have hopT : ∀ t, (timers t).opcode = t.opcode := fun t => by
    have := congrArg Chip8.opcode (timers_frame t); simpa using this
  refine ⟨s1, hf, rfl, htick, ?_, ?_, ?_, ?_⟩
  · intro s' h
    obtain ⟨s2, h2, rfl⟩ := key s' h
    rw [hopT, (execute_frame rnd s1 s2 h2).opcode]
  · intro hw s' h
    obtain ⟨s2, h2, rfl⟩ := key s' h
    rw [hpcT, (execute_frame rnd s1 s2 h2).pc hw]
  · intro hw hm
    obtain ⟨s2, h2⟩ := execute_total rnd s1 hw hm
    refine ⟨timers s2, ?_, ?_⟩
    · rw [htick, h2]; rfl
    · rw [hpcT, (execute_frame rnd s1 s2 h2).pc hw]
  · intro hfam hsp
    have hfam' : s1.opcode / 4096 % 16 = 2 := by omega
    have hex : execute rnd s1 = OP_2nnn rnd s1 := by rw [execute_eq, hfam']; rfl
    have hsp1 : s1.R_SP < STACK_LEVELS := hsp
    have hcall : OP_2nnn rnd s1 = .ok { s1 with
        stackMemory := fun k => if k = s1.R_SP then s1.R_PC else s1.stackMemory k,
        R_SP := (s1.R_SP + 1) % 256, R_PC := s1.address } := by
      unfold OP_2nnn
      rw [if_pos hsp1]
    refine ⟨_, by rw [htick, hex, hcall]; rfl, ?_, ?_, ?_⟩
    · rw [timers_frame]
      show (if s.R_SP = s.R_SP then s.R_PC + 2 else _) = _
      rw [if_pos rfl]
    · rw [timers_frame]
      show (s.R_SP + 1) % 256 = _
      omega
    · rw [hpcT]
      show s1.address = _
      rw [address_eq]

/-- C1 on the sample machine at `0x200` (`CALL 0x300`): the word `2300` is
fetched and `0x202` is pushed. -/
theorem C1_fetch_advance_witness :
    ((sampleMachine 0x200).WF ∧ (sampleMachine 0x200).R_PC ≤ 4094) ∧
    (∃ s', tick 0 (sampleMachine 0x200) = .ok s' ∧ s'.opcode = 0x2300 ∧
      s'.stackMemory 0 = 0x202 ∧ s'.R_SP = 1 ∧ s'.R_PC = 0x300) := by
  have wf := sampleMachine_WF 0x200 (by decide)
  refine ⟨⟨wf, by decide⟩, ?_⟩
  obtain ⟨s1, _, hs1, _, hop, _, _, hcall⟩ := C1_fetch_advance 0 (sampleMachine 0x200) wf (by decide)
  subst hs1
  obtain ⟨s', h1, h2, h3, h4⟩ := hcall (by decide) (by decide)
  exact ⟨s', h1, hop s' h1, h2, h3, h4⟩

/-- C2: for every well-formed state with `pc <= 4094` whose instruction word has
no assigned handler, the tick returns (no fault), leaves registers, `I`, stack,
stack pointer, memory, video buffer and keypad unchanged, advances `pc` by 2 and
decrements each nonzero timer by 1 (the current-instruction member holds the
fetched word). -/
theorem C2_unassigned_noop (rnd : Nat) (s : Chip8) (hwf : s.WF) (hpc : s.R_PC ≤ 4094)
    (hun : unassigned (256 * s.memory s.R_PC + s.memory (s.R_PC + 1))) :
    ∃ s', tick rnd s = .ok s' ∧
      s'.REG = s.REG ∧ s'.R_I = s.R_I ∧ s'.stackMemory = s.stackMemory ∧
      s'.R_SP = s.R_SP ∧ s'.memory = s.memory ∧ s'.videoMemory = s.videoMemory ∧
      s'.keypadMemory = s.keypadMemory ∧
      s'.R_PC = s.R_PC + 2 ∧
      s'.R_DELAY_TIMER = (if s.R_DELAY_TIMER > 0 then s.R_DELAY_TIMER - 1 else 0) ∧
      s'.R_BUZZER_TIMER = (if s.R_BUZZER_TIMER > 0 then s.R_BUZZER_TIMER - 1 else 0) ∧
      s'.opcode = 256 * s.memory s.R_PC + s.memory (s.R_PC + 1) := by
  have hf := fetch_ok s hwf hpc
  set w := 256 * s.memory s.R_PC + s.memory (s.R_PC + 1) with hw
  set s1 : Chip8 := { s with opcode := w, R_PC := s.R_PC + 2 } with hs1
  have hh := hwf.memory s.R_PC
  have hl := hwf.memory (s.R_PC + 1)
  have hop : s1.opcode = w := rfl
  have hex : execute rnd s1 = .ok s1 := by
    unfold unassigned at hun
    rcases hun with ⟨hfam, h0, h1⟩ | ⟨hfam, hlow⟩ | ⟨hfam, h0, h1⟩ |
      ⟨hfam, h0, h1, h2, h3, h4, h5, h6, h7, h8⟩
    · rw [execute_family0 rnd s1 (by rw [hop]; omega), subTable0_nop _ h0 h1]
      rfl
    · rw [execute_family8 rnd s1 (by rw [hop]; omega),
        subTable8_nop _ (by rw [hop]; omega) (by rw [hop]; omega) (by rw [hop]; omega)
          (by rw [hop]; omega) (by rw [hop]; omega) (by rw [hop]; omega)
          (by rw [hop]; omega) (by rw [hop]; omega) (by rw [hop]; omega)]
      rfl
    · rw [execute_familyE rnd s1 (by rw [hop]; omega), subTableE_nop _ h0 h1]
      rfl
    · rw [execute_familyF rnd s1 (by rw [hop]; omega),
        subTableF_nop _ h0 h1 h2 h3 h4 h5 h6 h7 h8]
      rfl
  have htick : tick rnd s = .ok (timers s1) := by
    rw [tick_eq_map rnd s s1 hf, hex]; rfl
  have fr := timers_frame s1
  refine ⟨timers s1, htick, ?_, ?_, ?_, ?_, ?_, ?_, ?_, ?_, timers_delay s1, timers_sound s1, ?_⟩
  all_goals
    rw [fr]

/-- C2 on the sample machine at `0x304` (the unassigned word `8128`). -/
theorem C2_unassigned_noop_witness :
    ((sampleMachine 0x304).WF ∧ (sampleMachine 0x304).R_PC ≤ 4094 ∧
      unassigned (256 * (sampleMachine 0x304).memory (sampleMachine 0x304).R_PC
        + (sampleMachine 0x304).memory ((sampleMachine 0x304).R_PC + 1))) ∧
    (∃ s', tick 0 (sampleMachine 0x304) = .ok s' ∧ s'.opcode = 0x8128 ∧
      s'.REG = (sampleMachine 0x304).REG ∧ s'.R_PC = 0x306 ∧
      s'.R_DELAY_TIMER = 2 ∧ s'.R_BUZZER_TIMER = 0) := by
  have wf := sampleMachine_WF 0x304 (by decide)
  have hun : unassigned (256 * (sampleMachine 0x304).memory (sampleMachine 0x304).R_PC
      + (sampleMachine 0x304).memory ((sampleMachine 0x304).R_PC + 1)) := by decide
  refine ⟨⟨wf, by decide, hun⟩, ?_⟩
  obtain ⟨s', h, hreg, _, _, _, _, _, _, hpc, hd, hb, hop⟩ :=
    C2_unassigned_noop 0 (sampleMachine 0x304) wf (by decide) hun
  exact ⟨s', h, hop, hreg, hpc, hd, hb⟩

/-- C3: for every tick that ends, with `s2` the state the handler produced, the
delay timer ends as `s2.delay - 1` if `s2.delay > 0` and as `0` otherwise, and
independently the same for the sound timer; for any instruction other than
set-delay (`FX15`) the delay timer ends as `max 0 (old delay - 1)`, for any
instruction other than set-sound (`FX18`) the sound timer ends as
`max 0 (old sound - 1)`; a timer that is 0 after the handler stays 0. -/
theorem C3_timers (rnd : Nat) (s s' : Chip8) (h : tick rnd s = .ok s') :
    ∃ s1 s2, fetch s = .ok s1 ∧ execute rnd s1 = .ok s2 ∧
      s'.R_DELAY_TIMER = (if s2.R_DELAY_TIMER > 0 then s2.R_DELAY_TIMER - 1 else 0) ∧
      s'.R_BUZZER_TIMER = (if s2.R_BUZZER_TIMER > 0 then s2.R_BUZZER_TIMER - 1 else 0) ∧
      (¬ isSetDelay s1.opcode →
        (s'.R_DELAY_TIMER : Int) = max 0 ((s.R_DELAY_TIMER : Int) - 1)) ∧
      (¬ isSetSound s1.opcode →
        (s'.R_BUZZER_TIMER : Int) = max 0 ((s.R_BUZZER_TIMER : Int) - 1)) ∧
      (s2.R_DELAY_TIMER = 0 → s'.R_DELAY_TIMER = 0) ∧
      (s2.R_BUZZER_TIMER = 0 → s'.R_BUZZER_TIMER = 0) := by
  obtain ⟨s1, s2, hf, he, rfl⟩ := (tick_ok_iff rnd s s').mp h
  have fr := execute_frame rnd s1 s2 he
  have hd1 : s1.R_DELAY_TIMER = s.R_DELAY_TIMER := by
    unfold fetch at hf
    split_ifs at hf
    injection hf with hf
    subst hf; rfl
  have hb1 : s1.R_BUZZER_TIMER = s.R_BUZZER_TIMER := by
    unfold fetch at hf
    split_ifs at hf
    injection hf with hf
    subst hf; rfl
  refine ⟨s1, s2, hf, he, timers_delay s2, timers_sound s2, ?_, ?_, ?_, ?_⟩
  · intro hn
    rw [timers_delay, fr.delay hn, hd1]
    split_ifs <;> omega
  · intro hn
    rw [timers_sound, fr.sound hn, hb1]
    split_ifs <;> omega
  · intro h0
    rw [timers_delay, h0]; rfl
  · intro h0
    rw [timers_sound, h0]; rfl

/-- C3 on the sample machine at `0x306` (`LD DT, V1` with `V1 = 7`): the handler
sets the delay timer to 7 and the tick ends with 6; the sound timer stays 0. -/
theorem C3_timers_witness :
    ∃ s', tick 0 (sampleMachine 0x306) = .ok s' ∧
      s'.R_DELAY_TIMER = 6 ∧ s'.R_BUZZER_TIMER = 0 := by
  have h : tick 0 (sampleMachine 0x306)
      = .ok (timers { sampleMachine 0x306 with opcode := 0xF115, R_PC := 0x308,
                                                R_DELAY_TIMER := 7 }) := by
    rfl
  obtain ⟨s1, s2, hf, he, hd, _, _, hs, _, _⟩ := C3_timers 0 (sampleMachine 0x306) _ h
  have e1 : s1 = { sampleMachine 0x306 with opcode := 0xF115, R_PC := 0x308 } := by
    have hf' : fetch (sampleMachine 0x306)
        = .ok { sampleMachine 0x306 with opcode := 0xF115, R_PC := 0x308 } := rfl
    rw [hf'] at hf
    injection hf with hf
    exact hf.symm
  subst e1
  have e2 : s2 = { sampleMachine 0x306 with opcode := 0xF115, R_PC := 0x308,
                                            R_DELAY_TIMER := 7 } := by
    have he' : execute 0 { sampleMachine 0x306 with opcode := 0xF115, R_PC := 0x308 }
        = .ok { sampleMachine 0x306 with opcode := 0xF115, R_PC := 0x308,
                                         R_DELAY_TIMER := 7 } := rfl
    rw [he'] at he
    injection he with he
    exact he.symm
  subst e2
  have h5 := hs (by decide)
  have e : (sampleMachine 0x306).R_BUZZER_TIMER = 0 := rfl
  rw [e] at h5
  exact ⟨_, h, hd, by omega⟩

/-! ## Drawing -/

/-- C5: on an all-off video buffer, for every X, Y (15 included), N in 1..15 and
`I + N <= 4096` with at least one nonzero byte in `memory[I .. I+N)`, executing the
same `DXYN` twice in a row gives `reg[15] = 0` after the first draw and, after the
second, `reg[15] = 1` and an all-off video buffer again. -/
theorem C5_draw_twice (rnd rnd' : Nat) (s : Chip8) (X Y N : Nat) (hwf : s.WF)
    (hX : X < 16) (hY : Y < 16) (hN1 : 1 ≤ N) (hN : N ≤ 15) (hI : s.R_I + N ≤ 4096)
    (hop : s.opcode = 0xD000 + 256 * X + 16 * Y + N)
    (hclear : ∀ i, i < VIDEO_WIDTH * VIDEO_HEIGHT → s.videoMemory i = 0)
    (hsprite : ∃ r, r < N ∧ s.memory (s.R_I + r) ≠ 0) :
    ∃ s1 s2, execute rnd s = .ok s1 ∧ s1.REG 15 = 0 ∧
      execute rnd' s1 = .ok s2 ∧ s2.REG 15 = 1 ∧
      (∀ i, i < VIDEO_WIDTH * VIDEO_HEIGHT → s2.videoMemory i = 0) := by
  -- first draw
  rw [execute_draw rnd s X Y N hX hY (by omega) hop]
  set s0 := s.setReg 15 0 with hs0
  set x0 := s0.REG X % 64 with hx0
  set y0 := s0.REG Y % 32 with hy0
  have hI0 : s0.R_I = s.R_I := rfl
  have hM0 : s0.memory = s.memory := rfl
  have hV0 : s0.videoMemory = s.videoMemory := rfl
  obtain ⟨s1, hs1, inv1⟩ := drawRows_spec x0 y0 s0 N (by omega)
    (by rw [hI0]; unfold MEMORY_SIZE; omega)
  have hflag1 : s1.REG 15 = 0 := by
    rw [inv1.flagKeep]
    · simp [hs0]
    · rintro ⟨r, c, _, _, _, hon⟩
      rw [hV0, hclear _ (targetCell_lt _ _ _ _)] at hon
      omega
  have hop1 : s1.opcode = s.opcode := by
    have := congrArg Chip8.opcode inv1.frame
    simpa [hs0, Chip8.setReg] using this
  have hI1 : s1.R_I = s.R_I := by
    have := congrArg Chip8.R_I inv1.frame
    simpa [hs0, Chip8.setReg] using this
  have hM1 : s1.memory = s.memory := by
    have := congrArg Chip8.memory inv1.frame
    simpa [hs0, Chip8.setReg] using this
  -- second draw: same position, because `reg[15]` is reset before the coordinates are read
  have hregs : ∀ k, (s1.setReg 15 0).REG k = s0.REG k := by
    intro k
    by_cases hk : k = 15
    · subst hk; simp [hs0]
    · rw [setReg_ne _ _ _ _ hk, inv1.regs k hk]
  have hexec2 : execute rnd' s1 = drawRows x0 y0 N (s1.setReg 15 0) := by
    rw [execute_draw rnd' s1 X Y N hX hY (by omega) (by rw [hop1]; exact hop),
      hregs X, hregs Y]
  set s1' := s1.setReg 15 0 with hs1'
  have hI1' : s1'.R_I = s.R_I := hI1
  have hM1' : s1'.memory = s.memory := hM1
  have hV1' : s1'.videoMemory = s1.videoMemory := rfl
  obtain ⟨s2, hs2, inv2⟩ := drawRows_spec x0 y0 s1' N (by omega)
    (by rw [hI1']; unfold MEMORY_SIZE; omega)
  refine ⟨s1, s2, hs1, hflag1, by rw [hexec2]; exact hs2, ?_, ?_⟩
  · obtain ⟨r, hr, hbyte⟩ := hsprite
    obtain ⟨c, hc, hbit⟩ := exists_spriteBit _ (hwf.memory _) hbyte
    apply inv2.flagSet
    refine ⟨r, c, hr, hc, by rw [hM1', hI1']; exact hbit, ?_⟩
    rw [hV1', inv1.hit r c hr hc, hM0, hI0, hbit, if_pos rfl, hV0,
      hclear _ (targetCell_lt _ _ _ _)]
    exact togglePixel_zero
  · intro i hi
    by_cases hex : ∃ r c, r < N ∧ c < 8 ∧ i = targetCell x0 y0 r c
    · obtain ⟨r, c, hr, hc, rfl⟩ := hex
      rw [inv2.hit r c hr hc, hV1', inv1.hit r c hr hc, hM1', hI1', hM0, hI0, hV0,
        hclear _ hi]
      by_cases hbit : spriteBit (s.memory (s.R_I + r)) c = true
      · simp only [hbit, if_true, togglePixel_zero]
        exact togglePixel_full
      · simp only [hbit]
        rfl
    · have hmiss : ∀ r c, r < N → c < 8 → i ≠ targetCell x0 y0 r c :=
        fun r c hr hc h => hex ⟨r, c, hr, hc, h⟩
      rw [inv2.miss i hmiss, hV1', inv1.miss i hmiss, hV0, hclear i hi]

/-- C5 for the one-row sprite `0x81` drawn twice at `(62, 31)`. -/
theorem C5_draw_twice_witness :
    (sampleDraw.WF ∧ 1 < 16 ∧ 2 < 16 ∧ 1 ≤ 1 ∧ 1 ≤ 15 ∧ sampleDraw.R_I + 1 ≤ 4096 ∧
      sampleDraw.opcode = 0xD000 + 256 * 1 + 16 * 2 + 1 ∧
      (∀ i, i < VIDEO_WIDTH * VIDEO_HEIGHT → sampleDraw.videoMemory i = 0) ∧
      (∃ r, r < 1 ∧ sampleDraw.memory (sampleDraw.R_I + r) ≠ 0)) ∧
    ∃ s1 s2, execute 0 sampleDraw = .ok s1 ∧ s1.REG 15 = 0 ∧
      execute 0 s1 = .ok s2 ∧ s2.REG 15 = 1 ∧
      (∀ i, i < VIDEO_WIDTH * VIDEO_HEIGHT → s2.videoMemory i = 0) := by
  have hsprite : ∃ r, r < 1 ∧ sampleDraw.memory (sampleDraw.R_I + r) ≠ 0 :=
    ⟨0, by decide, by decide⟩
  exact ⟨⟨sampleDraw_WF, by decide, by decide, by decide, by decide, by decide, rfl,
      fun _ _ => rfl, hsprite⟩,
    C5_draw_twice 0 0 sampleDraw 1 2 1 sampleDraw_WF (by decide) (by decide) (by decide)
      (by decide) (by decide) rfl (fun _ _ => rfl) hsprite⟩

/-! ## Arithmetic instructions of family 8 -/

/-- C6: for every state, every X other than 15 and every Y, the instruction
`8XY4` (add-reg) leaves `reg[X] = (old reg[X] + old reg[Y]) mod 256` and
`reg[15] = 1` if the sum exceeds 255, else `0`; no other register changes. -/
theorem C6_add_reg (rnd : Nat) (s : Chip8) (X Y : Nat) (hwf : s.WF)
    (hX : X < 16) (hY : Y < 16) (hX15 : X ≠ 15)
    (hop : s.opcode = 0x8004 + 256 * X + 16 * Y) :
    ∃ s', execute rnd s = .ok s' ∧
      s'.REG X = (s.REG X + s.REG Y) % 256 ∧
      s'.REG 15 = (if s.REG X + s.REG Y > 255 then 1 else 0) ∧
      (∀ k, k ≠ X → k ≠ 15 → s'.REG k = s.REG k) := by
  have hfam : (s.opcode / 4096) % 16 = 8 := by omega
  have hlow : s.opcode % 16 = 4 := by omega
  have hvx : s.Vx = X := by rw [Vx_eq]; omega
  have hvy : s.Vy = Y := by rw [Vy_eq]; omega
  have hx := hwf.reg X
  have hy := hwf.reg Y
  have hsum : (s.REG X + s.REG Y) % 65536 = s.REG X + s.REG Y := by omega
  rw [execute_family8 rnd s hfam, hlow]
  refine ⟨_, rfl, ?_, ?_, ?_⟩
  · simp only [Chip8.setReg, hvx, hvy, hsum, and_00FF]
    simp
  · simp only [Chip8.setReg, hvx, hvy, hsum, and_00FF]
    split_ifs <;> simp_all
  · intro k hk hk15
    simp only [Chip8.setReg, hvx, hvy, hsum, and_00FF]
    split_ifs <;> simp_all

/-- C6 at `250 + 10` (result 4, carry 1) and at `10 + 10` (result 20, carry 0). -/
theorem C6_add_reg_witness :
    sampleAddCarry.WF ∧ sampleAddNoCarry.WF ∧
    (∃ s', execute 0 sampleAddCarry = .ok s' ∧ s'.REG 1 = 4 ∧ s'.REG 15 = 1) ∧
    (∃ s', execute 0 sampleAddNoCarry = .ok s' ∧ s'.REG 1 = 20 ∧ s'.REG 15 = 0) := by
  have w1 : sampleAddCarry.WF :=
    ((zero_WF.setReg 1 250 (by decide)).setReg 2 10 (by decide)).withOpcode _ (by decide)
  have w2 : sampleAddNoCarry.WF :=
    ((zero_WF.setReg 1 10 (by decide)).setReg 2 10 (by decide)).withOpcode _ (by decide)
  refine ⟨w1, w2, ?_, ?_⟩
  · obtain ⟨s', h1, h2, h3, _⟩ :=
      C6_add_reg 0 sampleAddCarry 1 2 w1 (by decide) (by decide) (by decide) rfl
    exact ⟨s', h1, h2, h3⟩
  · obtain ⟨s', h1, h2, h3, _⟩ :=
      C6_add_reg 0 sampleAddNoCarry 1 2 w2 (by decide) (by decide) (by decide) rfl
    exact ⟨s', h1, h2, h3⟩

/-- C7: for every state and X, Y both different from 15, the instruction `8XY5`
(sub-reg) leaves `reg[X] = (old reg[X] - old reg[Y]) mod 256` and `reg[15] = 1`
if `old reg[X] > old reg[Y]` strictly, else `0`; equal operands give `0` with
flag `0`, and `5 - 10` gives `251` with flag `0`. -/
theorem C7_sub_reg (rnd : Nat) (s : Chip8) (X Y : Nat) (hwf : s.WF)
    (hX : X < 16) (hY : Y < 16) (hX15 : X ≠ 15) (hY15 : Y ≠ 15)
    (hop : s.opcode = 0x8005 + 256 * X + 16 * Y) :
    ∃ s', execute rnd s = .ok s' ∧
      (s'.REG X : Int) = ((s.REG X : Int) - (s.REG Y : Int)) % 256 ∧
      s'.REG 15 = (if s.REG X > s.REG Y then 1 else 0) ∧
      (s.REG X = s.REG Y → s'.REG X = 0 ∧ s'.REG 15 = 0) ∧
      (s.REG X = 5 → s.REG Y = 10 → s'.REG X = 251 ∧ s'.REG 15 = 0) := by
  have hfam : (s.opcode / 4096) % 16 = 8 := by omega
  have hlow : s.opcode % 16 = 5 := by omega
  have hvx : s.Vx = X := by rw [Vx_eq]; omega
  have hvy : s.Vy = Y := by rw [Vy_eq]; omega
  have hx := hwf.reg X
  have hy := hwf.reg Y
  rw [execute_family8 rnd s hfam, hlow]
  refine ⟨_, rfl, ?_⟩
  have hXv : ∀ f, (((s.setReg 15 f).setReg X
      (wrap8 (((s.setReg 15 f).REG X : Int) - ((s.setReg 15 f).REG Y : Int)))).REG X : Int)
      = ((s.REG X : Int) - (s.REG Y : Int)) % 256 := by
    intro f
    rw [setReg_same, setReg_ne _ _ _ _ hX15, setReg_ne _ _ _ _ hY15]
    unfold wrap8
    omega
  have hF : ∀ f v, ((s.setReg 15 f).setReg X v).REG 15 = f := by
    intro f v
    rw [setReg_ne _ _ _ _ (Ne.symm hX15), setReg_same]
  simp only [hvx, hvy]
  by_cases hgt : s.REG X > s.REG Y
  · simp only [hgt, if_true]
    have h1 := hXv 1
    have h2 := hF 1
    refine ⟨h1, h2 _, ?_, ?_⟩
    · intro h; omega
    · intro h5 h10; omega
  · simp only [hgt, if_false]
    have h1 := hXv 0
    have h2 := hF 0
    refine ⟨h1, h2 _, ?_, ?_⟩
    · intro h; constructor
      · omega
      · exact h2 _
    · intro h5 h10; constructor
      · omega
      · exact h2 _

/-- C7 at `reg[1] = 5`, `reg[2] = 10`: the result is 251 and the flag is 0. -/
theorem C7_sub_reg_witness :
    sampleSub.WF ∧
    ∃ s', execute 0 sampleSub = .ok s' ∧ s'.REG 1 = 251 ∧ s'.REG 15 = 0 := by
  have w1 : sampleSub.WF :=
    ((zero_WF.setReg 1 5 (by decide)).setReg 2 10 (by decide)).withOpcode _ (by decide)
  refine ⟨w1, ?_⟩
  obtain ⟨s', h1, _, _, _, h5⟩ :=
    C7_sub_reg 0 sampleSub 1 2 w1 (by decide) (by decide) (by decide) (by decide) rfl
  exact ⟨s', h1, h5 rfl rfl⟩

/-- C8: for every state and X, Y both different from 15, the instruction `8XY7`
(subn-reg) leaves `reg[X] = (old reg[Y] - old reg[X]) mod 256` and `reg[15] = 1`
if `old reg[Y] >= old reg[X]`, else `0`; equal operands give flag `1`. -/
theorem C8_subn_reg (rnd : Nat) (s : Chip8) (X Y : Nat) (hwf : s.WF)
    (hX : X < 16) (hY : Y < 16) (hX15 : X ≠ 15) (hY15 : Y ≠ 15)
    (hop : s.opcode = 0x8007 + 256 * X + 16 * Y) :
    ∃ s', execute rnd s = .ok s' ∧
      (s'.REG X : Int) = ((s.REG Y : Int) - (s.REG X : Int)) % 256 ∧
      s'.REG 15 = (if s.REG Y ≥ s.REG X then 1 else 0) ∧
      (s.REG X = s.REG Y → s'.REG X = 0 ∧ s'.REG 15 = 1) := by
  have hfam : (s.opcode / 4096) % 16 = 8 := by omega
  have hlow : s.opcode % 16 = 7 := by omega
  have hvx : s.Vx = X := by rw [Vx_eq]; omega
  have hvy : s.Vy = Y := by rw [Vy_eq]; omega
  have hx := hwf.reg X
  have hy := hwf.reg Y
  rw [execute_family8 rnd s hfam, hlow]
  refine ⟨_, rfl, ?_⟩
  have hXv : ∀ f, (((s.setReg 15 f).setReg X
      (wrap8 (((s.setReg 15 f).REG Y : Int) - ((s.setReg 15 f).REG X : Int)))).REG X : Int)
      = ((s.REG Y : Int) - (s.REG X : Int)) % 256 := by
    intro f
    rw [setReg_same, setReg_ne _ _ _ _ hX15, setReg_ne _ _ _ _ hY15]
    unfold wrap8
    omega
  have hF : ∀ f v, ((s.setReg 15 f).setReg X v).REG 15 = f := by
    intro f v
    rw [setReg_ne _ _ _ _ (Ne.symm hX15), setReg_same]
  simp only [hvx, hvy]
  by_cases hge : s.REG Y ≥ s.REG X
  · simp only [hge, if_true]
    have h1 := hXv 1
    have h2 := hF 1
    refine ⟨h1, h2 _, ?_⟩
    intro h; constructor
    · omega
    · exact h2 _
  · simp only [hge, if_false]
    have h1 := hXv 0
    have h2 := hF 0
    refine ⟨h1, h2 _, ?_⟩
    intro h; omega

/-- C8 at `reg[1] = reg[2] = 20`: the result is 0 and the flag is 1. -/
theorem C8_subn_reg_witness :
    sampleSubn.WF ∧
    ∃ s', execute 0 sampleSubn = .ok s' ∧ s'.REG 1 = 0 ∧ s'.REG 15 = 1 := by
  have w1 : sampleSubn.WF :=
    ((zero_WF.setReg 1 20 (by decide)).setReg 2 20 (by decide)).withOpcode _ (by decide)
  refine ⟨w1, ?_⟩
  obtain ⟨s', h1, _, _, h4⟩ :=
    C8_subn_reg 0 sampleSubn 1 2 w1 (by decide) (by decide) (by decide) (by decide) rfl
  exact ⟨s', h1, h4 rfl⟩

/-- C9: for every state, every X other than 15 and every value of the Y field,
`8XY6` (shift-right) leaves `reg[X] = old reg[X] / 2` and `reg[15] = old reg[X] mod 2`,
`8XYE` (shift-left) leaves `reg[X] = (2 * old reg[X]) mod 256` and
`reg[15] = old reg[X] / 128`; for two values Y, Y' of the Y field the resulting
states agree in every data member except the stored instruction word itself, and
`reg[Y]` is not modified when Y is neither X nor 15. -/
theorem C9_shift (rnd : Nat) (s : Chip8) (X Y Y' : Nat) (hwf : s.WF)
    (hX : X < 16) (hY : Y < 16) (hY' : Y' < 16) (hX15 : X ≠ 15) :
    ∃ r l r' l',
      execute rnd { s with opcode := 0x8006 + 256 * X + 16 * Y } = .ok r ∧
      r.REG X = s.REG X / 2 ∧ r.REG 15 = s.REG X % 2 ∧
      execute rnd { s with opcode := 0x800E + 256 * X + 16 * Y } = .ok l ∧
      l.REG X = (2 * s.REG X) % 256 ∧ l.REG 15 = s.REG X / 128 ∧
      execute rnd { s with opcode := 0x8006 + 256 * X + 16 * Y' } = .ok r' ∧
      r' = { r with opcode := r'.opcode } ∧
      execute rnd { s with opcode := 0x800E + 256 * X + 16 * Y' } = .ok l' ∧
      l' = { l with opcode := l'.opcode } ∧
      (Y ≠ X → Y ≠ 15 → r.REG Y = s.REG Y ∧ l.REG Y = s.REG Y) := by
  have hx := hwf.reg X
  have hr : ∀ Z, Z < 16 → execute rnd { s with opcode := 0x8006 + 256 * X + 16 * Z }
      = .ok { ((s.setReg 15 (s.REG X % 2)).setReg X (s.REG X / 2)) with
              opcode := 0x8006 + 256 * X + 16 * Z } := by
    intro Z hZ
    have hfam : ((0x8006 + 256 * X + 16 * Z) / 4096) % 16 = 8 := by omega
    have hlow : (0x8006 + 256 * X + 16 * Z) % 16 = 6 := by omega
    rw [execute_family8 rnd _ hfam]
    simp only [hlow]
    show OP_8xy6 rnd _ = _
    have hvx : ({ s with opcode := 0x8006 + 256 * X + 16 * Z } : Chip8).Vx = X := by
      rw [Vx_eq]; simp only; omega
    unfold OP_8xy6
    simp only [hvx, and_0001, shr1]
    rw [setReg_ne _ _ _ _ hX15]
    have e1 : s.REG X % 2 % 256 = s.REG X % 2 := by omega
    have e2 : s.REG X / 2 % 256 = s.REG X / 2 := by omega
    simp only [e1, e2]
    rfl
  have hl : ∀ Z, Z < 16 → execute rnd { s with opcode := 0x800E + 256 * X + 16 * Z }
      = .ok { ((s.setReg 15 (s.REG X / 128)).setReg X ((2 * s.REG X) % 256)) with
              opcode := 0x800E + 256 * X + 16 * Z } := by
    intro Z hZ
    have hfam : ((0x800E + 256 * X + 16 * Z) / 4096) % 16 = 8 := by omega
    have hlow : (0x800E + 256 * X + 16 * Z) % 16 = 14 := by omega
    rw [execute_family8 rnd _ hfam]
    simp only [hlow]
    show OP_8xyE rnd _ = _
    have hvx : ({ s with opcode := 0x800E + 256 * X + 16 * Z } : Chip8).Vx = X := by
      rw [Vx_eq]; simp only; omega
    unfold OP_8xyE
    simp only [hvx, and_80_shift, shl1]
    rw [setReg_ne _ _ _ _ hX15]
    have e1 : s.REG X / 128 % 2 % 256 = s.REG X / 128 := by omega
    simp only [e1]
    rfl
  refine ⟨_, _, _, _, hr Y hY, ?_, ?_, hl Y hY, ?_, ?_, hr Y' hY', rfl, hl Y' hY', rfl, ?_⟩
  · simp
  · show ((s.setReg 15 (s.REG X % 2)).setReg X (s.REG X / 2)).REG 15 = _
    rw [setReg_ne _ _ _ _ (Ne.symm hX15), setReg_same]
  · simp
  · show ((s.setReg 15 (s.REG X / 128)).setReg X ((2 * s.REG X) % 256)).REG 15 = _
    rw [setReg_ne _ _ _ _ (Ne.symm hX15), setReg_same]
  · intro hYX hY15
    constructor
    · show ((s.setReg 15 (s.REG X % 2)).setReg X (s.REG X / 2)).REG Y = _
      rw [setReg_ne _ _ _ _ hYX, setReg_ne _ _ _ _ hY15]
    · show ((s.setReg 15 (s.REG X / 128)).setReg X ((2 * s.REG X) % 256)).REG Y = _
      rw [setReg_ne _ _ _ _ hYX, setReg_ne _ _ _ _ hY15]

/-- C9 at `reg[3] = 0x85` with Y fields 1 and 2: shift-right gives `0x42` with
flag 1, shift-left gives `0x0A` with flag 1. -/
theorem C9_shift_witness :
    sampleShift.WF ∧
    ∃ r l,
      execute 0 { sampleShift with opcode := 0x8316 } = .ok r ∧
      r.REG 3 = 0x42 ∧ r.REG 15 = 1 ∧
      execute 0 { sampleShift with opcode := 0x831E } = .ok l ∧
      l.REG 3 = 0x0A ∧ l.REG 15 = 1 := by
  have w1 : sampleShift.WF := zero_WF.setReg 3 0x85 (by decide)
  refine ⟨w1, ?_⟩
  obtain ⟨r, l, _, _, h1, h2, h3, h4, h5, h6, _⟩ :=
    C9_shift 0 sampleShift 3 1 2 w1 (by decide) (by decide) (by decide) (by decide)
  exact ⟨r, l, h1, h2, h3, h4, h5, h6⟩

/-! ## Subroutine call and return -/

/-- C10: for every well-formed state with `sp <= 15` and `pc = p <= 4094` holding
`2NNN`, where the word at `NNN` is the return instruction `00EE`: the tick
executing the call stores `p + 2` in stack slot `sp`, increments `sp` and jumps to
`NNN`; the following tick, executing the return, decrements `sp` back to its old
value and loads `pc = p + 2`; every stack slot other than slot `sp` is unchanged. -/
theorem C10_call_return (rnd rnd' : Nat) (s : Chip8) (NNN : Nat) (hwf : s.WF)
    (hpc : s.R_PC ≤ 4094) (hsp : s.R_SP ≤ 15) (hN : NNN ≤ 4094)
    (hcall : 256 * s.memory s.R_PC + s.memory (s.R_PC + 1) = 0x2000 + NNN)
    (hret : 256 * s.memory NNN + s.memory (NNN + 1) = 0x00EE) :
    ∃ s1 s2, tick rnd s = .ok s1 ∧
      s1.R_PC = NNN ∧ s1.stackMemory s.R_SP = s.R_PC + 2 ∧ s1.R_SP = s.R_SP + 1 ∧
      (∀ k, k ≠ s.R_SP → s1.stackMemory k = s.stackMemory k) ∧
      tick rnd' s1 = .ok s2 ∧
      s2.R_PC = s.R_PC + 2 ∧ s2.R_SP = s.R_SP ∧
      (∀ k, k ≠ s.R_SP → s2.stackMemory k = s.stackMemory k) := by
  -- the call
  have hf := fetch_ok s hwf hpc
  rw [hcall] at hf
  set t1 : Chip8 := { s with opcode := 0x2000 + NNN, R_PC := s.R_PC + 2 } with ht1
  have hex1 : execute rnd t1 = OP_2nnn rnd t1 := by
    rw [execute_eq]
    have : t1.opcode / 4096 % 16 = 2 := by show (0x2000 + NNN) / 4096 % 16 = 2; omega
    rw [this]; rfl
  have hsp1 : t1.R_SP < STACK_LEVELS := by show s.R_SP < 16; omega
  have haddr : t1.address = NNN := by
    rw [address_eq]; show (0x2000 + NNN) % 4096 = NNN; omega
  have hsp' : (t1.R_SP + 1) % 256 = s.R_SP + 1 := by show (s.R_SP + 1) % 256 = _; omega
  set u1 : Chip8 := { t1 with
      stackMemory := fun k => if k = s.R_SP then s.R_PC + 2 else s.stackMemory k,
      R_SP := s.R_SP + 1, R_PC := NNN } with hu1
  have hcall' : OP_2nnn rnd t1 = .ok u1 := by
    unfold OP_2nnn
    rw [if_pos hsp1, haddr, hsp']
  have htick1 : tick rnd s = .ok (timers u1) := by
    rw [tick_eq_map rnd s t1 hf, hex1, hcall']; rfl
  set s1 := timers u1 with hs1
  have fr1 := timers_frame u1
  have e_pc : s1.R_PC = NNN := by rw [hs1, fr1]
  have e_sp : s1.R_SP = s.R_SP + 1 := by rw [hs1, fr1]
  have e_st : s1.stackMemory = fun k => if k = s.R_SP then s.R_PC + 2 else s.stackMemory k := by
    rw [hs1, fr1]
  have e_mem : s1.memory = s.memory := by rw [hs1, fr1]
  have wfu : u1.WF :=
    { keypad := hwf.keypad, video := hwf.video, buzzer := hwf.buzzer,
      opcode := by show 0x2000 + NNN < 65536; omega,
      memory := hwf.memory,
      stack := by
        intro k
        show (if k = s.R_SP then s.R_PC + 2 else s.stackMemory k) < 65536
        have := hwf.stack k
        split_ifs <;> omega,
      reg := hwf.reg, ri := hwf.ri,
      sp := by show s.R_SP + 1 < 256; omega,
      pc := by show NNN < 65536; omega,
      delay := hwf.delay }
  have wf1 : s1.WF := timers_WF u1 wfu
  -- the return
  have hw2 : 256 * s1.memory s1.R_PC + s1.memory (s1.R_PC + 1) = 0x00EE := by
    rw [e_pc, e_mem]; exact hret
  have hf2 := fetch_ok s1 wf1 (by rw [e_pc]; exact hN)
  rw [hw2] at hf2
  set t2 : Chip8 := { s1 with opcode := 0x00EE, R_PC := s1.R_PC + 2 } with ht2
  have hex2 : execute rnd' t2 = OP_00EE rnd' t2 := by
    rw [execute_family0 rnd' t2 (by show 0x00EE / 4096 % 16 = 0; rfl)]
    have : t2.opcode % 16 = 0xE := by show (0x00EE : Nat) % 16 = 0xE; rfl
    rw [this]
    rfl
  have hw8 : wrap8 ((t2.R_SP : Int) - 1) = s.R_SP := by
    show wrap8 ((s1.R_SP : Int) - 1) = _
    rw [e_sp]; unfold wrap8; omega
  set u2 : Chip8 := { t2 with R_SP := s.R_SP, R_PC := s.R_PC + 2 } with hu2
  have hret' : OP_00EE rnd' t2 = .ok u2 := by
    unfold OP_00EE
    simp only [hw8]
    have : s.R_SP < STACK_LEVELS := by show s.R_SP < 16; omega
    rw [if_pos this]
    have : t2.stackMemory s.R_SP = s.R_PC + 2 := by
      show s1.stackMemory s.R_SP = _
      rw [e_st]; simp
    rw [this]
  have htick2 : tick rnd' s1 = .ok (timers u2) := by
    rw [tick_eq_map rnd' s1 t2 hf2, hex2, hret']; rfl
  have fr2 := timers_frame u2
  refine ⟨s1, timers u2, htick1, e_pc, ?_, e_sp, ?_, htick2, ?_, ?_, ?_⟩
  · rw [e_st]; simp
  · intro k hk
    rw [e_st]; simp [hk]
  · rw [fr2]
  · rw [fr2]
  · intro k hk
    rw [fr2]
    show s1.stackMemory k = _
    rw [e_st]; simp [hk]

/-- C10 on the sample machine: `CALL 0x300` at `0x200`, `RET` at `0x300`. -/
theorem C10_call_return_witness :
    ((sampleMachine 0x200).WF ∧ (sampleMachine 0x200).R_PC ≤ 4094 ∧
      (sampleMachine 0x200).R_SP ≤ 15 ∧ 0x300 ≤ 4094 ∧
      256 * (sampleMachine 0x200).memory (sampleMachine 0x200).R_PC
        + (sampleMachine 0x200).memory ((sampleMachine 0x200).R_PC + 1) = 0x2000 + 0x300 ∧
      256 * (sampleMachine 0x200).memory 0x300 + (sampleMachine 0x200).memory (0x300 + 1)
        = 0x00EE) ∧
    (∃ s1 s2, tick 0 (sampleMachine 0x200) = .ok s1 ∧ s1.R_PC = 0x300 ∧ s1.R_SP = 1 ∧
      tick 0 s1 = .ok s2 ∧ s2.R_PC = 0x202 ∧ s2.R_SP = 0) := by
  have wf := sampleMachine_WF 0x200 (by decide)
  refine ⟨⟨wf, by decide, by decide, by decide, by decide, by decide⟩, ?_⟩
  obtain ⟨s1, s2, h1, h2, _, h4, _, h6, h7, h8, _⟩ :=
    C10_call_return 0 0 (sampleMachine 0x200) 0x300 wf (by decide) (by decide) (by decide)
      (by decide) (by decide)
  exact ⟨s1, s2, h1, h2, h4, h6, h7, h8⟩

/-! ## Stack limits, key wait, memory instructions, loader and runs -/

/-- C11, evaluated on the code: the image `22 00` (a call to itself at `0x200`)
reaches `sp = 16` after 16 ticks, and the 17th tick executes the call by writing
`stackMemory[16]`, an index outside the 16 slots; the image `00 EE` executes a
return with `sp = 0`, which wraps the stack pointer to 255 and reads
`stackMemory[255]`.  Neither tick is a checked error of the program: both are
accesses outside the array. -/
theorem C11_stack_out_of_bounds :
    (∃ s16, runTicks (List.replicate 16 0) (bootImage [0x22, 0x00]) = .ok s16 ∧
      Reachable s16 ∧ s16.R_SP = 16 ∧ fetchWord s16 = 0x2200 ∧
      tick 0 s16 = .error (.stackOutOfBounds 16) ∧ ¬ (16 < STACK_LEVELS)) ∧
    (Reachable (bootImage [0x00, 0xEE]) ∧ (bootImage [0x00, 0xEE]).R_SP = 0 ∧
      fetchWord (bootImage [0x00, 0xEE]) = 0x00EE ∧
      tick 0 (bootImage [0x00, 0xEE]) = .error (.stackOutOfBounds 255) ∧
      ¬ (255 < STACK_LEVELS)) := by
  constructor
  · have key : ∃ s16, runTicks (List.replicate 16 0) (bootImage [0x22, 0x00]) = .ok s16 ∧
        s16.R_SP = 16 ∧ fetchWord s16 = 0x2200 ∧
        tick 0 s16 = .error (.stackOutOfBounds 16) := ⟨_, rfl, rfl, rfl, rfl⟩
    obtain ⟨s16, h1, h2, h3, h4⟩ := key
    exact ⟨s16, h1, reachable_runTicks _ _ _ (reachable_bootImage _ (by decide)) h1,
      h2, h3, h4, by decide⟩
  · exact ⟨reachable_bootImage _ (by decide), rfl, rfl, rfl, by decide⟩

/-- C12: for every well-formed state whose `pc <= 4094` points at a wait-key
instruction `FX0A`: if none of the 16 keys is pressed, any number of consecutive
ticks returns with `pc`, every register, `I`, the stack, the stack pointer,
memory, video and keypad unchanged, each timer lowered by the number of ticks
(stopping at 0); if `k` is the smallest pressed key index, one tick sets
`reg[X] = k`, leaves the other registers alone and ends with `pc = old pc + 2`. -/
theorem C12_wait_key (s : Chip8) (X : Nat) (hwf : s.WF) (hpc : s.R_PC ≤ 4094) (hX : X < 16)
    (hop : 256 * s.memory s.R_PC + s.memory (s.R_PC + 1) = 0xF00A + 256 * X) :
    ((∀ k, k < 16 → s.keypadMemory k = 0) →
      ∀ rnds : List Nat, ∃ s', runTicks rnds s = .ok s' ∧
        s'.R_PC = s.R_PC ∧ s'.REG = s.REG ∧ s'.R_I = s.R_I ∧
        s'.stackMemory = s.stackMemory ∧ s'.R_SP = s.R_SP ∧ s'.memory = s.memory ∧
        s'.videoMemory = s.videoMemory ∧ s'.keypadMemory = s.keypadMemory ∧
        s'.R_DELAY_TIMER = s.R_DELAY_TIMER - rnds.length ∧
        s'.R_BUZZER_TIMER = s.R_BUZZER_TIMER - rnds.length) ∧
    (∀ k, k < 16 → s.keypadMemory k ≠ 0 → (∀ j, j < k → s.keypadMemory j = 0) →
      ∀ rnd, ∃ s', tick rnd s = .ok s' ∧ s'.REG X = k ∧ s'.R_PC = s.R_PC + 2 ∧
        (∀ r, r ≠ X → s'.REG r = s.REG r)) := by
  constructor
  · intro hkeys rnds
    exact waitKey_run_idle X hX rnds s hwf hpc hop hkeys
  · intro k hk hpressed hfirst rnd
    have hf := fetch_ok s hwf hpc
    rw [hop] at hf
    set t : Chip8 := { s with opcode := 0xF00A + 256 * X, R_PC := s.R_PC + 2 } with ht_def
    have hfam : (t.opcode / 4096) % 16 = 15 := by
      show ((0xF00A + 256 * X) / 4096) % 16 = 15
      omega
    have hlow : t.opcode % 256 = 0x0A := by
      show (0xF00A + 256 * X) % 256 = 0x0A
      omega
    have hvx : t.Vx = X := by
      rw [Vx_eq]
      show (0xF00A + 256 * X) / 256 % 16 = X
      omega
    have hsome : findKey t.keypadMemory 16 0 = some k :=
      findKey_some s.keypadMemory k hpressed 16 0 (by omega) (by omega)
        (fun j _ hj => hfirst j hj)
    have hex : execute rnd t = .ok (t.setReg X k) := by
      rw [execute_familyF rnd t hfam, hlow]
      show OP_Fx0A rnd t = _
      unfold OP_Fx0A
      simp only [hsome, hvx]
    have htick : tick rnd s = .ok (timers (t.setReg X k)) := by
      rw [tick_eq_map rnd s t hf, hex]
      rfl
    have fr := timers_frame (t.setReg X k)
    refine ⟨_, htick, ?_, ?_, ?_⟩
    · rw [fr]
      show (t.setReg X k).REG X = k
      simp
    · rw [fr]
      rfl
    · intro r hr
      rw [fr]
      show (t.setReg X k).REG r = _
      rw [setReg_ne _ _ _ _ hr]

/-- C12 on the sample machine: three idle ticks keep `pc = 0x200`; with keys 5 and
9 pressed one tick sets `V3 = 5` and `pc = 0x202`. -/
theorem C12_wait_key_witness :
    (∃ s', runTicks [0, 0, 0] (sampleWait (fun _ => 0)) = .ok s' ∧ s'.R_PC = 0x200 ∧
      s'.REG = (sampleWait (fun _ => 0)).REG) ∧
    (∃ s', tick 0 (sampleWait (fun k => if k = 5 ∨ k = 9 then 1 else 0)) = .ok s' ∧
      s'.REG 3 = 5 ∧ s'.R_PC = 0x202) := by
  have wf0 : (sampleWait (fun _ => 0)).WF := sampleWait_WF _ (fun _ => by decide)
  have wf1 : (sampleWait (fun k => if k = 5 ∨ k = 9 then 1 else 0)).WF :=
    sampleWait_WF _ (fun k => by split_ifs <;> decide)
  constructor
  · obtain ⟨s', h, hpc, hreg, _⟩ :=
      (C12_wait_key (sampleWait (fun _ => 0)) 3 wf0 (by decide) (by decide) rfl).1
        (fun _ _ => rfl) [0, 0, 0]
    exact ⟨s', h, hpc, hreg⟩
  · obtain ⟨s', h, hreg, hpc, _⟩ :=
      (C12_wait_key (sampleWait (fun k => if k = 5 ∨ k = 9 then 1 else 0)) 3 wf1
        (by decide) (by decide) rfl).2 5 (by decide) (by decide)
        (fun j hj => by
          have h5 : j ≠ 5 := by omega
          have h9 : j ≠ 9 := by omega
          simp [sampleWait, h5, h9]) 0
    exact ⟨s', h, hreg, hpc⟩

/-- C13: for every well-formed state, every X and `I + 2 <= 4095`, the instruction
`FX33` (store-bcd) writes `memory[I] = reg[X] / 100`,
`memory[I+1] = (reg[X] / 10) mod 10`, `memory[I+2] = reg[X] mod 10`; each is a
decimal digit and `100 * memory[I] + 10 * memory[I+1] + memory[I+2] = reg[X]`
(254 gives 2, 5, 4); no other memory byte, no register and not `I` changes. -/
theorem C13_store_bcd (rnd : Nat) (s : Chip8) (X : Nat) (hwf : s.WF) (hX : X < 16)
    (hI : s.R_I + 2 ≤ 4095) (hop : s.opcode = 0xF033 + 256 * X) :
    ∃ s', execute rnd s = .ok s' ∧
      s'.memory s.R_I = s.REG X / 100 ∧
      s'.memory (s.R_I + 1) = (s.REG X / 10) % 10 ∧
      s'.memory (s.R_I + 2) = s.REG X % 10 ∧
      s'.memory s.R_I ≤ 9 ∧ s'.memory (s.R_I + 1) ≤ 9 ∧ s'.memory (s.R_I + 2) ≤ 9 ∧
      100 * s'.memory s.R_I + 10 * s'.memory (s.R_I + 1) + s'.memory (s.R_I + 2) = s.REG X ∧
      (s.REG X = 254 →
        s'.memory s.R_I = 2 ∧ s'.memory (s.R_I + 1) = 5 ∧ s'.memory (s.R_I + 2) = 4) ∧
      (∀ a, a ≠ s.R_I → a ≠ s.R_I + 1 → a ≠ s.R_I + 2 → s'.memory a = s.memory a) ∧
      s'.REG = s.REG ∧ s'.R_I = s.R_I := by
  have hfam : (s.opcode / 4096) % 16 = 15 := by omega
  have hlow : s.opcode % 256 = 0x33 := by omega
  have hvx : s.Vx = X := by rw [Vx_eq]; omega
  have hx := hwf.reg X
  have h0 : s.R_I + 0 < MEMORY_SIZE := by unfold MEMORY_SIZE; omega
  have h1 : s.R_I + 1 < MEMORY_SIZE := by unfold MEMORY_SIZE; omega
  have h2 : s.R_I + 2 < MEMORY_SIZE := by unfold MEMORY_SIZE; omega
  have hex : execute rnd s = .ok (((s.setMem (s.R_I + 0) ((s.REG X / 100) % 256)).setMem
      (s.R_I + 1) (((s.REG X / 10) % 10) % 256)).setMem (s.R_I + 2) ((s.REG X % 10) % 256)) := by
    rw [execute_familyF rnd s hfam, hlow]
    show OP_Fx33 rnd s = _
    unfold OP_Fx33
    simp only [hvx]
    rw [if_pos h0]
    show (if s.R_I + 1 < MEMORY_SIZE then _ else _) = _
    rw [if_pos h1]
    show (if s.R_I + 2 < MEMORY_SIZE then _ else _) = _
    rw [if_pos h2]
    rfl
  have m0 : (((s.setMem (s.R_I + 0) ((s.REG X / 100) % 256)).setMem
      (s.R_I + 1) (((s.REG X / 10) % 10) % 256)).setMem (s.R_I + 2) ((s.REG X % 10) % 256)).memory
      s.R_I = s.REG X / 100 := by
    simp only [Chip8.setMem]
    have a1 : s.R_I ≠ s.R_I + 2 := by omega
    have a2 : s.R_I ≠ s.R_I + 1 := by omega
    simp only [a1, a2, if_false, Nat.add_zero, if_true]
    omega
  have m1 : (((s.setMem (s.R_I + 0) ((s.REG X / 100) % 256)).setMem
      (s.R_I + 1) (((s.REG X / 10) % 10) % 256)).setMem (s.R_I + 2) ((s.REG X % 10) % 256)).memory
      (s.R_I + 1) = (s.REG X / 10) % 10 := by
    simp only [Chip8.setMem]
    have a1 : s.R_I + 1 ≠ s.R_I + 2 := by omega
    simp only [a1, if_false, if_true]
    omega
  have m2 : (((s.setMem (s.R_I + 0) ((s.REG X / 100) % 256)).setMem
      (s.R_I + 1) (((s.REG X / 10) % 10) % 256)).setMem (s.R_I + 2) ((s.REG X % 10) % 256)).memory
      (s.R_I + 2) = s.REG X % 10 := by
    simp only [Chip8.setMem, if_true]
    omega
  refine ⟨_, hex, m0, m1, m2, ?_, ?_, ?_, ?_, ?_, ?_, rfl, rfl⟩
  · rw [m0]; omega
  · rw [m1]; omega
  · rw [m2]; omega
  · rw [m0, m1, m2]; omega
  · intro h254
    rw [m0, m1, m2, h254]
    exact ⟨rfl, rfl, rfl⟩
  · intro a a0 a1 a2
    simp only [Chip8.setMem, Nat.add_zero]
    simp only [a0, a1, a2, if_false]

/-- C13 at `reg[2] = 254`, `I = 0x300`: the bytes written are 2, 5, 4. -/
theorem C13_store_bcd_witness :
    (sampleBcd.WF ∧ 2 < 16 ∧ sampleBcd.R_I + 2 ≤ 4095 ∧ sampleBcd.opcode = 0xF033 + 256 * 2) ∧
    ∃ s', execute 0 sampleBcd = .ok s' ∧
      s'.memory 0x300 = 2 ∧ s'.memory 0x301 = 5 ∧ s'.memory 0x302 = 4 := by
  have wf : sampleBcd.WF := by
    have h := zero_WF.setReg 2 254 (by decide)
    exact { h with opcode := by decide, ri := by decide }
  refine ⟨⟨wf, by decide, by decide, rfl⟩, ?_⟩
  obtain ⟨s', h, _, _, _, _, _, _, _, h254, _⟩ :=
    C13_store_bcd 0 sampleBcd 2 wf (by decide) (by decide) rfl
  obtain ⟨a, b, c⟩ := h254 rfl
  exact ⟨s', h, a, b, c⟩

/-- C14: the constructed machine has `pc = 0x200`, registers, `I`, `sp`, stack,
timers, video and keypad zero, memory zero outside `[0x50, 0xA0)` and
`memory[0x50 + i] = FONTSET[i]` for `i < 80`; and for every well-formed state and
X the instruction `FX29` (load-glyph-addr) sets `I = 0x50 + 5 * reg[X]`
(`reg[X] = 0xA` gives `0x50 + 50`), so that with the memory of a fresh machine and
`reg[X] = d <= 15` the bytes `memory[I .. I+5)` are `FONTSET[5d .. 5d+5)`, the rows
of the glyph of digit `d`. -/
theorem C14_fresh_and_glyph (rnd : Nat) (s : Chip8) (X : Nat) (hwf : s.WF) (hX : X < 16)
    (hop : s.opcode = 0xF029 + 256 * X) :
    (Chip8.new.R_PC = 0x200 ∧ (∀ k, Chip8.new.REG k = 0) ∧ Chip8.new.R_I = 0 ∧
      Chip8.new.R_SP = 0 ∧ (∀ k, Chip8.new.stackMemory k = 0) ∧
      Chip8.new.R_DELAY_TIMER = 0 ∧ Chip8.new.R_BUZZER_TIMER = 0 ∧
      (∀ i, Chip8.new.videoMemory i = 0) ∧ (∀ k, Chip8.new.keypadMemory k = 0) ∧
      (∀ a, a < 0x50 ∨ 0x50 + 80 ≤ a → Chip8.new.memory a = 0) ∧
      (∀ i, i < 80 → Chip8.new.memory (0x50 + i) = FONTSET.getD i 0)) ∧
    (∃ s', execute rnd s = .ok s' ∧
      s'.R_I = 0x50 + 5 * s.REG X ∧
      (s.REG X = 0xA → s'.R_I = 0x50 + 50) ∧
      (s.memory = Chip8.new.memory → s.REG X ≤ 15 →
        ∀ j, j < 5 → s'.memory (s'.R_I + j) = FONTSET.getD (5 * s.REG X + j) 0)) := by
  constructor
  · have fr := new_frame
    refine ⟨by rw [fr], fun k => by rw [fr]; rfl, by rw [fr]; rfl, by rw [fr]; rfl,
      fun k => by rw [fr]; rfl, by rw [fr]; rfl, by rw [fr]; rfl,
      fun k => by rw [fr]; rfl, fun k => by rw [fr]; rfl, ?_, ?_⟩
    · intro a ha
      rw [new_memory]
      have : ¬ (0x50 ≤ a ∧ a < 0xA0) := by omega
      rw [if_neg this]
    · intro i hi
      rw [new_memory]
      have : 0x50 ≤ 0x50 + i ∧ 0x50 + i < 0xA0 := by omega
      rw [if_pos this, Nat.add_sub_cancel_left]
  · have hfam : (s.opcode / 4096) % 16 = 15 := by omega
    have hlow : s.opcode % 256 = 0x29 := by omega
    have hvx : s.Vx = X := by rw [Vx_eq]; omega
    have hx := hwf.reg X
    have hex : execute rnd s = .ok { s with R_I := 0x50 + 5 * s.REG X } := by
      rw [execute_familyF rnd s hfam, hlow]
      show OP_Fx29 rnd s = _
      unfold OP_Fx29
      simp only [hvx, FONTSET_START_ADDRESS, BYTES_PER_CHAR]
      have : (0x50 + 5 * s.REG X) % 65536 = 0x50 + 5 * s.REG X := by omega
      rw [this]
    refine ⟨_, hex, rfl, ?_, ?_⟩
    · intro hA
      show 0x50 + 5 * s.REG X = _
      rw [hA]
    · intro hmem hd j hj
      show s.memory (0x50 + 5 * s.REG X + j) = _
      rw [hmem, new_memory]
      have h1 : 0x50 ≤ 0x50 + 5 * s.REG X + j ∧ 0x50 + 5 * s.REG X + j < 0xA0 := by omega
      have e : 0x50 + 5 * s.REG X + j - 0x50 = 5 * s.REG X + j := by omega
      rw [if_pos h1, e]

/-- C14 on a fresh machine with `reg[4] = 0xA`: `I = 0x50 + 50` and the five
bytes there are the rows `F0 90 F0 90 90` of the glyph `A`. -/
theorem C14_fresh_and_glyph_witness :
    (sampleGlyph.WF ∧ 4 < 16 ∧ sampleGlyph.opcode = 0xF029 + 256 * 4) ∧
    ∃ s', execute 0 sampleGlyph = .ok s' ∧ s'.R_I = 0x50 + 50 ∧
      s'.memory (s'.R_I + 0) = 0xF0 ∧ s'.memory (s'.R_I + 1) = 0x90 ∧
      s'.memory (s'.R_I + 2) = 0xF0 ∧ s'.memory (s'.R_I + 3) = 0x90 ∧
      s'.memory (s'.R_I + 4) = 0x90 := by
  have wf : sampleGlyph.WF := (new_WF.setReg 4 0xA (by decide)).withOpcode _ (by decide)
  refine ⟨⟨wf, by decide, rfl⟩, ?_⟩
  obtain ⟨_, s', h, _, hA, hrows⟩ := C14_fresh_and_glyph 0 sampleGlyph 4 wf (by decide) rfl
  have hr := hrows rfl (by decide)
  exact ⟨s', h, hA rfl, hr 0 (by decide), hr 1 (by decide), hr 2 (by decide),
    hr 3 (by decide), hr 4 (by decide)⟩

/-- C15: for every X in 0..15 (15 included) and KK in 0..255, `6XKK` (load-imm)
followed by `7X01` (add-imm 1) leaves `reg[X] = (KK + 1) mod 256`; and `7XKK`
leaves `reg[X] = (old reg[X] + KK) mod 256` and changes no other register (no
carry is written to `reg[15]`). -/
theorem C15_load_add_imm (rnd rnd' : Nat) (s : Chip8) (X KK : Nat) (hX : X < 16)
    (hKK : KK < 256) :
    (∃ s1 s2, execute rnd { s with opcode := 0x6000 + 256 * X + KK } = .ok s1 ∧
      execute rnd' { s1 with opcode := 0x7000 + 256 * X + 1 } = .ok s2 ∧
      s1.REG X = KK ∧ s2.REG X = (KK + 1) % 256) ∧
    (∃ s', execute rnd { s with opcode := 0x7000 + 256 * X + KK } = .ok s' ∧
      s'.REG X = (s.REG X + KK) % 256 ∧ (∀ k, k ≠ X → s'.REG k = s.REG k)) := by
  have hld : ∀ (t : Chip8) (r : Nat), execute r { t with opcode := 0x6000 + 256 * X + KK }
      = .ok (({ t with opcode := 0x6000 + 256 * X + KK } : Chip8).setReg X KK) := by
    intro t r
    have hfam : ((0x6000 + 256 * X + KK) / 4096) % 16 = 6 := by omega
    rw [execute_eq]
    simp only [hfam]
    show OP_6xkk r _ = _
    unfold OP_6xkk
    rw [Vx_eq, byte_eq]
    have e1 : (0x6000 + 256 * X + KK) / 256 % 16 = X := by omega
    have e2 : (0x6000 + 256 * X + KK) % 256 = KK := by omega
    simp only [e1, e2]
  have hadd : ∀ (t : Chip8) (r K : Nat), K < 256 →
      execute r { t with opcode := 0x7000 + 256 * X + K }
      = .ok (({ t with opcode := 0x7000 + 256 * X + K } : Chip8).setReg X
          ((t.REG X + K) % 256)) := by
    intro t r K hK
    have hfam : ((0x7000 + 256 * X + K) / 4096) % 16 = 7 := by omega
    rw [execute_eq]
    simp only [hfam]
    show OP_7xkk r _ = _
    unfold OP_7xkk
    rw [Vx_eq, byte_eq]
    have e1 : (0x7000 + 256 * X + K) / 256 % 16 = X := by omega
    have e2 : (0x7000 + 256 * X + K) % 256 = K := by omega
    simp only [e1, e2]
  refine ⟨⟨_, _, hld s rnd, hadd _ rnd' 1 (by omega), ?_, ?_⟩, ⟨_, hadd s rnd KK hKK, ?_, ?_⟩⟩
  · simp
  · simp
  · simp
  · intro k hk
    rw [setReg_ne _ _ _ _ hk]

/-- C15 at `X = 15`, `KK = 255`: the register holds 255 and then wraps to 0. -/
theorem C15_load_add_imm_witness :
    (15 < 16 ∧ 255 < 256) ∧
    ∃ s1 s2, execute 0 { Chip8.zero with opcode := 0x6FFF } = .ok s1 ∧
      execute 0 { s1 with opcode := 0x7F01 } = .ok s2 ∧ s1.REG 15 = 255 ∧ s2.REG 15 = 0 := by
  refine ⟨⟨by decide, by decide⟩, ?_⟩
  obtain ⟨s1, s2, h1, h2, h3, h4⟩ :=
    (C15_load_add_imm 0 0 Chip8.zero 15 255 (by decide) (by decide)).1
  exact ⟨s1, s2, h1, h2, h3, h4⟩

/-- C16: for every state the instruction `00E0` (clear-screen) sets all `64 * 32`
video cells to off and changes no other data member, and executing it a second
time yields the same state, hence the same all-off video buffer. -/
theorem C16_clear_screen (rnd rnd' : Nat) (s : Chip8) (hop : s.opcode = 0x00E0) :
    ∃ s1 s2, execute rnd s = .ok s1 ∧
      (∀ i, i < VIDEO_WIDTH * VIDEO_HEIGHT → s1.videoMemory i = 0) ∧
      s1 = { s with videoMemory := s1.videoMemory } ∧
      execute rnd' s1 = .ok s2 ∧
      s2.videoMemory = s1.videoMemory ∧ s2 = s1 := by
  have hcls : ∀ (t : Chip8) (r : Nat), t.opcode = 0x00E0 → execute r t = OP_00E0 r t := by
    intro t r ht
    have hfam : (t.opcode / 4096) % 16 = 0 := by rw [ht]
    have hlow : t.opcode % 16 = 0 := by rw [ht]
    rw [execute_family0 r t hfam, hlow]
    rfl
  let s1 : Chip8 := { s with videoMemory := fun i =>
      if i < VIDEO_WIDTH * VIDEO_HEIGHT then 0 else s.videoMemory i }
  have hop1 : s1.opcode = 0x00E0 := hop
  have h2 : OP_00E0 rnd' s1 = .ok s1 := by
    unfold OP_00E0
    congr 2
    funext i
    show (if i < VIDEO_WIDTH * VIDEO_HEIGHT then 0
      else if i < VIDEO_WIDTH * VIDEO_HEIGHT then 0 else s.videoMemory i) = _
    show _ = if i < VIDEO_WIDTH * VIDEO_HEIGHT then 0 else s.videoMemory i
    split_ifs <;> rfl
  refine ⟨s1, s1, (hcls s rnd hop).trans rfl, ?_, rfl, (hcls s1 rnd' hop1).trans h2, rfl, rfl⟩
  intro i hi
  show (if i < VIDEO_WIDTH * VIDEO_HEIGHT then 0 else s.videoMemory i) = 0
  rw [if_pos hi]

/-- C16 on a machine with every cell on. -/
theorem C16_clear_screen_witness :
    sampleLit.opcode = 0x00E0 ∧ sampleLit.videoMemory 0 = 0xFFFFFFFF ∧
    ∃ s1 s2, execute 0 sampleLit = .ok s1 ∧ s1.videoMemory 0 = 0 ∧
      execute 0 s1 = .ok s2 ∧ s2 = s1 := by
  refine ⟨rfl, rfl, ?_⟩
  obtain ⟨s1, s2, h1, hoff, _, h2, _, heq⟩ := C16_clear_screen 0 0 sampleLit rfl
  exact ⟨s1, s2, h1, hoff 0 (by decide), h2, heq⟩

/-- C17: for every readable image of length `L <= 4096 - 0x200`, `loadROM`
returns with `memory[0x200 + i] = image[i]` for `i < L`; memory below `0x200` and
from `0x200 + L` on is unchanged, and so is every other data member. -/
theorem C17_load_fits (image : List Nat) (s : Chip8) (hL : image.length ≤ 4096 - 0x200) :
    ∃ s', loadROM (.content image) s = .returned s' ∧
      (∀ i, i < image.length → s'.memory (0x200 + i) = image.getD i 0) ∧
      (∀ a, a < 0x200 ∨ 0x200 + image.length ≤ a → s'.memory a = s.memory a) ∧
      s' = { s with memory := s'.memory } := by
  obtain ⟨s', h, hm⟩ := loadLoop_ok image s image.length
    (by unfold ROM_START_ADDRESS MEMORY_SIZE; omega)
  refine ⟨s', ?_, ?_, ?_, loadLoop_frame image s _ s' h⟩
  · unfold loadROM
    simp only [h]
  · intro i hi
    rw [hm]
    have : ROM_START_ADDRESS ≤ 0x200 + i ∧ 0x200 + i < ROM_START_ADDRESS + image.length := by
      unfold ROM_START_ADDRESS; omega
    have e : 0x200 + i - ROM_START_ADDRESS = i := by
      unfold ROM_START_ADDRESS; omega
    rw [if_pos this, e]
  · intro a ha
    rw [hm]
    have : ¬ (ROM_START_ADDRESS ≤ a ∧ a < ROM_START_ADDRESS + image.length) := by
      unfold ROM_START_ADDRESS; omega
    rw [if_neg this]

/-- C17 for the three-byte image `12 34 56` loaded into a fresh machine: the bytes
land at `0x200 ..`, the byte after them, the glyph table and `pc` are untouched. -/
theorem C17_load_fits_witness :
    [0x12, 0x34, 0x56].length ≤ 4096 - 0x200 ∧
    ∃ s', loadROM (.content [0x12, 0x34, 0x56]) Chip8.new = .returned s' ∧
      s'.memory 0x200 = 0x12 ∧ s'.memory 0x201 = 0x34 ∧ s'.memory 0x202 = 0x56 ∧
      s'.memory 0x203 = 0 ∧ s'.memory 0x50 = 0xF0 ∧ s'.R_PC = 0x200 := by
  refine ⟨by decide, ?_⟩
  obtain ⟨s', h, hin, hout, hfr⟩ := C17_load_fits [0x12, 0x34, 0x56] Chip8.new (by decide)
  refine ⟨s', h, hin 0 (by decide), hin 1 (by decide), hin 2 (by decide), ?_, ?_, ?_⟩
  · rw [hout 0x203 (Or.inr (by decide))]; rfl
  · rw [hout 0x50 (Or.inl (by decide))]; rfl
  · rw [hfr]; rfl

/-- C18, evaluated on the code: for an image of 3585 bytes, one more than fits,
`loadROM` neither throws nor truncates; its copy loop writes `memory[4096]`, one
past the end of the array. -/
theorem C18_oversize_image_overflows :
    (List.replicate 3585 0).length = 3585 ∧
    loadROM (.content (List.replicate 3585 0)) Chip8.new
      = .undefined (.memoryOutOfBounds 4096) ∧
    ¬ (4096 < MEMORY_SIZE) := by
  have hlen : (List.replicate 3585 0).length = 3585 := List.length_replicate _ _
  refine ⟨hlen, ?_, by decide⟩
  have hover := loadLoop_overflow (List.replicate 3585 0) Chip8.new
    (List.replicate 3585 0).length
    (by rw [hlen]; unfold MEMORY_SIZE ROM_START_ADDRESS; omega)
  unfold loadROM
  simp only [hover]
  rfl

/-- C19, evaluated on the code: after one tick of a two-instruction image the
machine is in a reachable state whose next tick indexes `memory[4096]`, outside
the array: the fetch after `JP 0xFFF`, and with `I = 0xFFF` the second sprite
row of a draw, the second digit of store-bcd, and the second register of
store-regs and of load-regs.  No address is reduced modulo 4096 or checked. -/
theorem C19_memory_out_of_bounds :
    (∃ s1, tick 0 (bootImage [0x1F, 0xFF]) = .ok s1 ∧ Reachable s1 ∧ s1.R_PC = 0xFFF ∧
      tick 0 s1 = .error (.memoryOutOfBounds 4096)) ∧
    (∃ s1, tick 0 (bootImage [0xAF, 0xFF, 0xD0, 0x02]) = .ok s1 ∧ Reachable s1 ∧
      s1.R_I = 0xFFF ∧ fetchWord s1 = 0xD002 ∧
      tick 0 s1 = .error (.memoryOutOfBounds 4096)) ∧
    (∃ s1, tick 0 (bootImage [0xAF, 0xFF, 0xF0, 0x33]) = .ok s1 ∧ Reachable s1 ∧
      s1.R_I = 0xFFF ∧ fetchWord s1 = 0xF033 ∧
      tick 0 s1 = .error (.memoryOutOfBounds 4096)) ∧
    (∃ s1, tick 0 (bootImage [0xAF, 0xFF, 0xF1, 0x55]) = .ok s1 ∧ Reachable s1 ∧
      s1.R_I = 0xFFF ∧ fetchWord s1 = 0xF155 ∧
      tick 0 s1 = .error (.memoryOutOfBounds 4096)) ∧
    (∃ s1, tick 0 (bootImage [0xAF, 0xFF, 0xF1, 0x65]) = .ok s1 ∧ Reachable s1 ∧
      s1.R_I = 0xFFF ∧ fetchWord s1 = 0xF165 ∧
      tick 0 s1 = .error (.memoryOutOfBounds 4096)) ∧
    ¬ (4096 < MEMORY_SIZE) := by
  have step1 : ∀ (image : List Nat) (s1 : Chip8),
      image.length ≤ MEMORY_SIZE - ROM_START_ADDRESS →
      tick 0 (bootImage image) = .ok s1 → Reachable s1 :=
    fun image s1 hL h => ReachableVia.step 0 _ s1 (reachable_bootImage image hL) trivial h
  refine ⟨?_, ?_, ?_, ?_, ?_, by decide⟩
  · have key : ∃ s1, tick 0 (bootImage [0x1F, 0xFF]) = .ok s1 ∧ s1.R_PC = 0xFFF ∧
        tick 0 s1 = .error (.memoryOutOfBounds 4096) := ⟨_, rfl, rfl, rfl⟩
    obtain ⟨s1, h1, h2, h3⟩ := key
    exact ⟨s1, h1, step1 _ s1 (by decide) h1, h2, h3⟩
  · have key : ∃ s1, tick 0 (bootImage [0xAF, 0xFF, 0xD0, 0x02]) = .ok s1 ∧
        s1.R_I = 0xFFF ∧ fetchWord s1 = 0xD002 ∧
        tick 0 s1 = .error (.memoryOutOfBounds 4096) := ⟨_, rfl, rfl, rfl, rfl⟩
    obtain ⟨s1, h1, h2, h3, h4⟩ := key
    exact ⟨s1, h1, step1 _ s1 (by decide) h1, h2, h3, h4⟩
  · have key : ∃ s1, tick 0 (bootImage [0xAF, 0xFF, 0xF0, 0x33]) = .ok s1 ∧
        s1.R_I = 0xFFF ∧ fetchWord s1 = 0xF033 ∧
        tick 0 s1 = .error (.memoryOutOfBounds 4096) := ⟨_, rfl, rfl, rfl, rfl⟩
    obtain ⟨s1, h1, h2, h3, h4⟩ := key
    exact ⟨s1, h1, step1 _ s1 (by decide) h1, h2, h3, h4⟩
  · have key : ∃ s1, tick 0 (bootImage [0xAF, 0xFF, 0xF1, 0x55]) = .ok s1 ∧
        s1.R_I = 0xFFF ∧ fetchWord s1 = 0xF155 ∧
        tick 0 s1 = .error (.memoryOutOfBounds 4096) := ⟨_, rfl, rfl, rfl, rfl⟩
    obtain ⟨s1, h1, h2, h3, h4⟩ := key
    exact ⟨s1, h1, step1 _ s1 (by decide) h1, h2, h3, h4⟩
  · have key : ∃ s1, tick 0 (bootImage [0xAF, 0xFF, 0xF1, 0x65]) = .ok s1 ∧
        s1.R_I = 0xFFF ∧ fetchWord s1 = 0xF165 ∧
        tick 0 s1 = .error (.memoryOutOfBounds 4096) := ⟨_, rfl, rfl, rfl, rfl⟩
    obtain ⟨s1, h1, h2, h3, h4⟩ := key
    exact ⟨s1, h1, step1 _ s1 (by decide) h1, h2, h3, h4⟩

/-- C20 as stated fails: the image `A0 50 F0 33` (`LD I, 0x50`, then store-bcd of
`V0 = 0`) reaches, after two ticks, a state with `memory[0x50] = 0` where the glyph
table has `0xF0`; so not every reachable state has the glyph table intact. -/
theorem C20_glyph_overwritten :
    (∃ s1 s2, tick 0 (bootImage [0xA0, 0x50, 0xF0, 0x33]) = .ok s1 ∧ tick 0 s1 = .ok s2 ∧
      Reachable s2 ∧ s2.memory (0x50 + 0) = 0 ∧ FONTSET.getD 0 0 = 0xF0) ∧
    ¬ (∀ s, Reachable s → glyphIntact s) := by
  have key : ∃ s1 s2, tick 0 (bootImage [0xA0, 0x50, 0xF0, 0x33]) = .ok s1 ∧
      tick 0 s1 = .ok s2 ∧ s2.memory (0x50 + 0) = 0 := ⟨_, _, rfl, rfl, rfl⟩
  obtain ⟨s1, s2, h1, h2, hm⟩ := key
  have r0 : Reachable (bootImage [0xA0, 0x50, 0xF0, 0x33]) :=
    ReachableVia.loaded [0xA0, 0x50, 0xF0, 0x33] _ (by decide) rfl
  have r1 : Reachable s1 := ReachableVia.step 0 _ s1 r0 trivial h1
  have r2 : Reachable s2 := ReachableVia.step 0 _ s2 r1 trivial h2
  refine ⟨⟨s1, s2, h1, h2, r2, hm, rfl⟩, ?_⟩
  intro hall
  have hg := hall s2 r2 0 (by decide)
  rw [show FONTSET_START_ADDRESS + 0 = 0x50 + 0 from rfl, hm] at hg
  exact absurd hg (by decide)

/-- C20, amended: in every state reachable from a fresh machine by loading an
image that fits and running ticks, none of which executes store-bcd with target
`[I, I+2]` or store-regs X with target `[I, I+X]` meeting the glyph region
`[0x50, 0x9F]`, `memory[0x50 + i] = FONTSET[i]` for every `i < 80`. -/
theorem C20_glyphs_intact_without_stores (s : Chip8)
    (h : ReachableVia (fun t => ¬ storesIntoGlyphs t) s) : glyphIntact s := by
  induction h with
  | loaded image s hL hload => exact loaded_glyphs image s hL hload
  | keys s keypad _ ih => exact ih
  | step rnd s s' _ hallowed htick ih => exact tick_keeps_glyphs rnd s s' htick hallowed ih

/-- C20, amended, on two runs.  The image `60 FE A3 00 F0 33` (`V0 = 254`,
`I = 0x300`, store-bcd) runs three ticks, the last one a store-bcd whose target
`[0x300, 0x302]` misses the glyph region: every tick is allowed, the digits
2, 5, 4 are written and the glyph table is intact.  The image `A0 50 F0 33` runs
its first tick (`LD I, 0x50`), after which the glyph table is intact; its second
instruction is a store-bcd with target `[0x50, 0x52]`, which the condition of the
amended claim excludes. -/
theorem C20_glyphs_intact_without_stores_witness :
    (∃ s1 s2 s3,
      tick 0 (bootImage [0x60, 0xFE, 0xA3, 0x00, 0xF0, 0x33]) = .ok s1 ∧
      tick 0 s1 = .ok s2 ∧ tick 0 s2 = .ok s3 ∧
      fetchWord s2 = 0xF033 ∧ s2.R_I = 0x300 ∧ ¬ storesIntoGlyphs s2 ∧
      s3.memory 0x300 = 2 ∧ s3.memory 0x301 = 5 ∧ s3.memory 0x302 = 4 ∧
      ReachableVia (fun t => ¬ storesIntoGlyphs t) s3 ∧ glyphIntact s3) ∧
    (∃ s1,
      tick 0 (bootImage [0xA0, 0x50, 0xF0, 0x33]) = .ok s1 ∧
      ¬ storesIntoGlyphs (bootImage [0xA0, 0x50, 0xF0, 0x33]) ∧
      ReachableVia (fun t => ¬ storesIntoGlyphs t) s1 ∧ glyphIntact s1 ∧
      fetchWord s1 = 0xF033 ∧ s1.R_I = 0x50 ∧ storesIntoGlyphs s1) := by
  have notStore : ∀ t : Chip8, fetchWord t % 256 ≠ 0x33 → fetchWord t % 256 ≠ 0x55 →
      ¬ storesIntoGlyphs t := by
    intro t h33 h55 h
    rcases h with ⟨_, h, _⟩ | ⟨_, h, _⟩
    · exact h33 h
    · exact h55 h
  have awayFrom : ∀ t : Chip8, FONTSET_START_ADDRESS + FONTSET_SIZE ≤ t.R_I →
      ¬ storesIntoGlyphs t := by
    intro t hI h
    rcases h with ⟨_, _, h, _⟩ | ⟨_, _, h, _⟩ <;> omega
  constructor
  · have key : ∃ s1 s2 s3,
        tick 0 (bootImage [0x60, 0xFE, 0xA3, 0x00, 0xF0, 0x33]) = .ok s1 ∧
        tick 0 s1 = .ok s2 ∧ tick 0 s2 = .ok s3 ∧
        fetchWord (bootImage [0x60, 0xFE, 0xA3, 0x00, 0xF0, 0x33]) = 0x60FE ∧
        fetchWord s1 = 0xA300 ∧ fetchWord s2 = 0xF033 ∧ s2.R_I = 0x300 ∧
        s3.memory 0x300 = 2 ∧ s3.memory 0x301 = 5 ∧ s3.memory 0x302 = 4 :=
      ⟨_, _, _, rfl, rfl, rfl, rfl, rfl, rfl, rfl, rfl, rfl, rfl⟩
    obtain ⟨s1, s2, s3, t1, t2, t3, w0, w1, w2, hI, m0, m1, m2⟩ := key
    have n0 : ¬ storesIntoGlyphs (bootImage [0x60, 0xFE, 0xA3, 0x00, 0xF0, 0x33]) :=
      notStore _ (by rw [w0]; decide) (by rw [w0]; decide)
    have n1 : ¬ storesIntoGlyphs s1 := notStore _ (by rw [w1]; decide) (by rw [w1]; decide)
    have n2 : ¬ storesIntoGlyphs s2 := awayFrom _ (by rw [hI]; decide)
    have r0 : ReachableVia (fun t => ¬ storesIntoGlyphs t)
        (bootImage [0x60, 0xFE, 0xA3, 0x00, 0xF0, 0x33]) :=
      ReachableVia.loaded [0x60, 0xFE, 0xA3, 0x00, 0xF0, 0x33] _ (by decide) rfl
    have r1 := ReachableVia.step 0 _ s1 r0 n0 t1
    have r2 := ReachableVia.step 0 _ s2 r1 n1 t2
    have r3 := ReachableVia.step 0 _ s3 r2 n2 t3
    exact ⟨s1, s2, s3, t1, t2, t3, w2, hI, n2, m0, m1, m2, r3,
      C20_glyphs_intact_without_stores s3 r3⟩
  · have key : ∃ s1,
        tick 0 (bootImage [0xA0, 0x50, 0xF0, 0x33]) = .ok s1 ∧
        fetchWord (bootImage [0xA0, 0x50, 0xF0, 0x33]) = 0xA050 ∧
        fetchWord s1 = 0xF033 ∧ s1.R_I = 0x50 := ⟨_, rfl, rfl, rfl, rfl⟩
    obtain ⟨s1, t1, w0, w1, hI⟩ := key
    have n0 : ¬ storesIntoGlyphs (bootImage [0xA0, 0x50, 0xF0, 0x33]) :=
      notStore _ (by rw [w0]; decide) (by rw [w0]; decide)
    have r0 : ReachableVia (fun t => ¬ storesIntoGlyphs t)
        (bootImage [0xA0, 0x50, 0xF0, 0x33]) :=
      ReachableVia.loaded [0xA0, 0x50, 0xF0, 0x33] _ (by decide) rfl
    have r1 := ReachableVia.step 0 _ s1 r0 n0 t1
    have yes : storesIntoGlyphs s1 := by
      left
      rw [w1, hI]
      decide
    exact ⟨s1, t1, n0, r1, C20_glyphs_intact_without_stores s1 r1, w1, hI, yes⟩

/-! ## Flag register as operand, video cells, register block transfer -/

/-- C21, evaluated on the code: with `V1 = 10`, `VF = 3` the instruction `81F5`
(sub-reg V1, VF) leaves `V1 = 9`, not `(10 - 3) mod 256 = 7`, and `81F7`
(subn-reg V1, VF) leaves `V1 = 246`, not `(3 - 10) mod 256 = 249`: the flag is
written before the second operand is read.  With `VF = 20`, `V2 = 5` the draw
`DF21` of the row `F0` turns on cell `(0, 5)` and leaves `(20, 5)` off, and with
`V2 = 20`, `VF = 5` the draw `D2F1` turns on `(20, 0)` and leaves `(20, 5)` off:
`reg[15]` is reset before the coordinates are read. -/
theorem C21_flag_written_before_operands :
    (∃ s2 s3, runTicks [0, 0] (bootImage [0x61, 0x0A, 0x6F, 0x03, 0x81, 0xF5]) = .ok s2 ∧
      Reachable s2 ∧ s2.REG 1 = 10 ∧ s2.REG 15 = 3 ∧ fetchWord s2 = 0x81F5 ∧
      tick 0 s2 = .ok s3 ∧ s3.REG 1 = 9 ∧
      ((s2.REG 1 : Int) - (s2.REG 15 : Int)) % 256 = 7) ∧
    (∃ s2 s3, runTicks [0, 0] (bootImage [0x61, 0x0A, 0x6F, 0x03, 0x81, 0xF7]) = .ok s2 ∧
      Reachable s2 ∧ s2.REG 1 = 10 ∧ s2.REG 15 = 3 ∧ fetchWord s2 = 0x81F7 ∧
      tick 0 s2 = .ok s3 ∧ s3.REG 1 = 246 ∧
      ((s2.REG 15 : Int) - (s2.REG 1 : Int)) % 256 = 249) ∧
    (∃ s3 s4,
      runTicks [0, 0, 0] (bootImage [0x6F, 0x14, 0x62, 0x05, 0xA0, 0x50, 0xDF, 0x21]) = .ok s3 ∧
      Reachable s3 ∧ s3.REG 15 = 20 ∧ s3.REG 2 = 5 ∧ fetchWord s3 = 0xDF21 ∧
      s3.memory s3.R_I = 0xF0 ∧ s3.videoMemory (cellIndex 20 5) = 0 ∧
      tick 0 s3 = .ok s4 ∧
      s4.videoMemory (cellIndex 20 5) = 0 ∧ s4.videoMemory (cellIndex 0 5) = 0xFFFFFFFF) ∧
    (∃ s3 s4,
      runTicks [0, 0, 0] (bootImage [0x6F, 0x05, 0x62, 0x14, 0xA0, 0x50, 0xD2, 0xF1]) = .ok s3 ∧
      Reachable s3 ∧ s3.REG 2 = 20 ∧ s3.REG 15 = 5 ∧ fetchWord s3 = 0xD2F1 ∧
      s3.memory s3.R_I = 0xF0 ∧ s3.videoMemory (cellIndex 20 5) = 0 ∧
      tick 0 s3 = .ok s4 ∧
      s4.videoMemory (cellIndex 20 5) = 0 ∧ s4.videoMemory (cellIndex 20 0) = 0xFFFFFFFF) := by
  have reach : ∀ (image rnds : List Nat) (s : Chip8),
      image.length ≤ MEMORY_SIZE - ROM_START_ADDRESS →
      runTicks rnds (bootImage image) = .ok s → Reachable s :=
    fun image rnds s hL h => reachable_runTicks rnds _ s (reachable_bootImage image hL) h
  refine ⟨?_, ?_, ?_, ?_⟩
  · have key : ∃ s2 s3,
        runTicks [0, 0] (bootImage [0x61, 0x0A, 0x6F, 0x03, 0x81, 0xF5]) = .ok s2 ∧
        s2.REG 1 = 10 ∧ s2.REG 15 = 3 ∧ fetchWord s2 = 0x81F5 ∧
        tick 0 s2 = .ok s3 ∧ s3.REG 1 = 9 := ⟨_, _, rfl, rfl, rfl, rfl, rfl, rfl⟩
    obtain ⟨s2, s3, h1, h2, h3, h4, h5, h6⟩ := key
    refine ⟨s2, s3, h1, reach _ _ s2 (by decide) h1, h2, h3, h4, h5, h6, ?_⟩
    rw [h2, h3]
    decide
  · have key : ∃ s2 s3,
        runTicks [0, 0] (bootImage [0x61, 0x0A, 0x6F, 0x03, 0x81, 0xF7]) = .ok s2 ∧
        s2.REG 1 = 10 ∧ s2.REG 15 = 3 ∧ fetchWord s2 = 0x81F7 ∧
        tick 0 s2 = .ok s3 ∧ s3.REG 1 = 246 := ⟨_, _, rfl, rfl, rfl, rfl, rfl, rfl⟩
    obtain ⟨s2, s3, h1, h2, h3, h4, h5, h6⟩ := key
    refine ⟨s2, s3, h1, reach _ _ s2 (by decide) h1, h2, h3, h4, h5, h6, ?_⟩
    rw [h2, h3]
    decide
  · have key : ∃ s3 s4,
        runTicks [0, 0, 0] (bootImage [0x6F, 0x14, 0x62, 0x05, 0xA0, 0x50, 0xDF, 0x21])
          = .ok s3 ∧
        s3.REG 15 = 20 ∧ s3.REG 2 = 5 ∧ fetchWord s3 = 0xDF21 ∧
        s3.memory s3.R_I = 0xF0 ∧ s3.videoMemory (cellIndex 20 5) = 0 ∧
        tick 0 s3 = .ok s4 ∧
        s4.videoMemory (cellIndex 20 5) = 0 ∧ s4.videoMemory (cellIndex 0 5) = 0xFFFFFFFF :=
      ⟨_, _, rfl, rfl, rfl, rfl, rfl, rfl, rfl, rfl, rfl⟩
    obtain ⟨s3, s4, h1, h2, h3, h4, h5, h6, h7, h8, h9⟩ := key
    exact ⟨s3, s4, h1, reach _ _ s3 (by decide) h1, h2, h3, h4, h5, h6, h7, h8, h9⟩
  · have key : ∃ s3 s4,
        runTicks [0, 0, 0] (bootImage [0x6F, 0x05, 0x62, 0x14, 0xA0, 0x50, 0xD2, 0xF1])
          = .ok s3 ∧
        s3.REG 2 = 20 ∧ s3.REG 15 = 5 ∧ fetchWord s3 = 0xD2F1 ∧
        s3.memory s3.R_I = 0xF0 ∧ s3.videoMemory (cellIndex 20 5) = 0 ∧
        tick 0 s3 = .ok s4 ∧
        s4.videoMemory (cellIndex 20 5) = 0 ∧ s4.videoMemory (cellIndex 20 0) = 0xFFFFFFFF :=
      ⟨_, _, rfl, rfl, rfl, rfl, rfl, rfl, rfl, rfl, rfl⟩
    obtain ⟨s3, s4, h1, h2, h3, h4, h5, h6, h7, h8, h9⟩ := key
    exact ⟨s3, s4, h1, reach _ _ s3 (by decide) h1, h2, h3, h4, h5, h6, h7, h8, h9⟩

/-- C22: in every state reachable from a fresh machine (image that fits, ticks,
keypad writes) each of the `64 * 32` video cells is 0 or `0xFFFFFFFF`, so the
collision test `cell == 0xFFFFFFFF` holds exactly when the cell is not 0; and a
tick that changes the video buffer executes clear-screen or draw. -/
theorem C22_video_cells (s : Chip8) (h : Reachable s) :
    (∀ i, i < VIDEO_WIDTH * VIDEO_HEIGHT →
      s.videoMemory i = 0 ∨ s.videoMemory i = 0xFFFFFFFF) ∧
    (∀ i, i < VIDEO_WIDTH * VIDEO_HEIGHT →
      (s.videoMemory i = 0xFFFFFFFF ↔ s.videoMemory i ≠ 0)) ∧
    (∀ rnd s', tick rnd s = .ok s' → s'.videoMemory ≠ s.videoMemory →
      isClearScreen (fetchWord s) ∨ isDraw (fetchWord s)) := by
  have hb := reachable_videoBinary s h
  refine ⟨hb, ?_, ?_⟩
  · intro i hi
    rcases hb i hi with h0 | h1
    · rw [h0]
      constructor
      · intro hc; exact absurd hc (by decide)
      · intro hc; exact absurd rfl hc
    · rw [h1]
      constructor
      · intro _; decide
      · intro _; rfl
  · intro rnd s' ht hne
    exact (tick_video rnd s s' ht).1 hne

/-- C22 after `LD I, 0x50` and `DRW V0, V0, 5` on a fresh machine: the state is
reachable, cell `(0, 0)` is on and every cell is 0 or `0xFFFFFFFF`. -/
theorem C22_video_cells_witness :
    ∃ s2, runTicks [0, 0] (bootImage [0xA0, 0x50, 0xD0, 0x05]) = .ok s2 ∧ Reachable s2 ∧
      s2.videoMemory (cellIndex 0 0) = 0xFFFFFFFF ∧
      (∀ i, i < VIDEO_WIDTH * VIDEO_HEIGHT →
        s2.videoMemory i = 0 ∨ s2.videoMemory i = 0xFFFFFFFF) := by
  have key : ∃ s2, runTicks [0, 0] (bootImage [0xA0, 0x50, 0xD0, 0x05]) = .ok s2 ∧
      s2.videoMemory (cellIndex 0 0) = 0xFFFFFFFF := ⟨_, rfl, rfl⟩
  obtain ⟨s2, h1, h2⟩ := key
  have hr : Reachable s2 :=
    reachable_runTicks _ _ s2 (reachable_bootImage _ (by decide)) h1
  exact ⟨s2, h1, hr, h2, (C22_video_cells s2 hr).1⟩

/-- C23: for every state, X in 0..15 and `I + X <= 4095`: `FX55` (store-regs)
returns with `memory[I + w] = reg[w]` for every `w <= X` and leaves `I`, all
registers and all other memory unchanged; `FX65` (load-regs) returns with
`reg[w] = memory[I + w]` for every `w <= X` and leaves `I`, memory and the
registers above X unchanged; and after a store, from any state `t` that has the
same `I` and the same bytes `memory[I .. I+X]` as the state after the store
(registers arbitrary), load-regs restores `reg[0..X]` to their values at the
store. -/
theorem C23_store_load_regs (rnd rnd' : Nat) (s : Chip8) (X : Nat) (hX : X < 16)
    (hI : s.R_I + X ≤ 4095) :
    (∃ s1, execute rnd { s with opcode := 0xF055 + 256 * X } = .ok s1 ∧
      (∀ w, w ≤ X → s1.memory (s.R_I + w) = s.REG w) ∧
      (∀ a, a < s.R_I ∨ s.R_I + X < a → s1.memory a = s.memory a) ∧
      s1.REG = s.REG ∧ s1.R_I = s.R_I ∧
      (∀ t : Chip8, t.R_I = s.R_I →
        (∀ w, w ≤ X → t.memory (s.R_I + w) = s1.memory (s.R_I + w)) →
        ∃ s3, execute rnd' { t with opcode := 0xF065 + 256 * X } = .ok s3 ∧
          ∀ w, w ≤ X → s3.REG w = s.REG w)) ∧
    (∃ s2, execute rnd' { s with opcode := 0xF065 + 256 * X } = .ok s2 ∧
      (∀ w, w ≤ X → s2.REG w = s.memory (s.R_I + w)) ∧
      (∀ k, X < k → s2.REG k = s.REG k) ∧
      s2.memory = s.memory ∧ s2.R_I = s.R_I) := by
  -- routing of the two instruction words
  have hst : ∀ (t : Chip8) (r : Nat), execute r { t with opcode := 0xF055 + 256 * X }
      = storeRegs (X + 1) { t with opcode := 0xF055 + 256 * X } := by
    intro t r
    have hfam : ((0xF055 + 256 * X) / 4096) % 16 = 15 := by omega
    have hlow : (0xF055 + 256 * X) % 256 = 0x55 := by omega
    rw [execute_familyF r _ hfam]
    simp only [hlow]
    show OP_Fx55 r _ = _
    unfold OP_Fx55
    rw [Vx_eq]
    have e : (0xF055 + 256 * X) / 256 % 16 = X := by omega
    simp only [e]
  have hld : ∀ (t : Chip8) (r : Nat), execute r { t with opcode := 0xF065 + 256 * X }
      = loadRegs (X + 1) { t with opcode := 0xF065 + 256 * X } := by
    intro t r
    have hfam : ((0xF065 + 256 * X) / 4096) % 16 = 15 := by omega
    have hlow : (0xF065 + 256 * X) % 256 = 0x65 := by omega
    rw [execute_familyF r _ hfam]
    simp only [hlow]
    show OP_Fx65 r _ = _
    unfold OP_Fx65
    rw [Vx_eq]
    have e : (0xF065 + 256 * X) / 256 % 16 = X := by omega
    simp only [e]
  have hload : ∀ t : Chip8, t.R_I = s.R_I →
      ∃ s3, execute rnd' { t with opcode := 0xF065 + 256 * X } = .ok s3 ∧
        (∀ w, w ≤ X → s3.REG w = t.memory (s.R_I + w)) ∧
        (∀ k, X < k → s3.REG k = t.REG k) ∧ s3.memory = t.memory ∧ s3.R_I = t.R_I := by
    intro t ht
    obtain ⟨s3, h3⟩ := loadRegs_ok { t with opcode := 0xF065 + 256 * X } (X + 1)
      (by show t.R_I + (X + 1) ≤ MEMORY_SIZE; rw [ht]; unfold MEMORY_SIZE; omega)
    obtain ⟨a, b⟩ := loadRegs_spec _ _ s3 h3
    have fr := loadRegs_frame _ _ s3 h3
    refine ⟨s3, by rw [hld]; exact h3, ?_, ?_, ?_, ?_⟩
    · intro w hw
      have := a w (by omega)
      rw [this]
      show t.memory (t.R_I + w) = _
      rw [ht]
    · intro k hk
      exact b k (by omega)
    · have := congrArg Chip8.memory fr
      simpa using this
    · have := congrArg Chip8.R_I fr
      simpa using this
  constructor
  · obtain ⟨s1, h1⟩ := storeRegs_ok { s with opcode := 0xF055 + 256 * X } (X + 1)
      (by show s.R_I + (X + 1) ≤ MEMORY_SIZE; unfold MEMORY_SIZE; omega)
    have hw1 := storeRegs_written _ _ s1 h1
    have hm1 := storeRegs_memory _ _ s1 h1
    have fr := storeRegs_frame _ _ s1 h1
    have hwritten : ∀ w, w ≤ X → s1.memory (s.R_I + w) = s.REG w :=
      fun w hw => hw1 w (by omega)
    refine ⟨s1, by rw [hst]; exact h1, hwritten, ?_, ?_, ?_, ?_⟩
    · intro a ha
      exact hm1 a (by
        show a < s.R_I ∨ s.R_I + (X + 1) ≤ a
        omega)
    · have := congrArg Chip8.REG fr
      simpa using this
    · have := congrArg Chip8.R_I fr
      simpa using this
    · intro t ht hkeep
      obtain ⟨s3, h3, hr, _⟩ := hload t ht
      refine ⟨s3, h3, ?_⟩
      intro w hw
      rw [hr w hw, hkeep w hw, hwritten w hw]
  · obtain ⟨s2, h2, a, b, c, d⟩ := hload s rfl
    exact ⟨s2, h2, a, b, c, d⟩

/-- C23 with `V0, V1, V2 = 10, 11, 12`, `I = 0x400`, `X = 2`: the store writes
10, 11, 12 and not the byte after them; after the registers are zeroed the load
brings 10, 11, 12 back. -/
theorem C23_store_load_regs_witness :
    (2 < 16 ∧ sampleRegs.R_I + 2 ≤ 4095) ∧
    ∃ s1, execute 0 { sampleRegs with opcode := 0xF055 + 256 * 2 } = .ok s1 ∧
      s1.memory 0x400 = 10 ∧ s1.memory 0x401 = 11 ∧ s1.memory 0x402 = 12 ∧
      s1.memory 0x403 = 0 ∧ s1.R_I = 0x400 ∧
      ∃ s3, execute 0 { s1 with REG := fun _ => 0, opcode := 0xF065 + 256 * 2 } = .ok s3 ∧
        s3.REG 0 = 10 ∧ s3.REG 1 = 11 ∧ s3.REG 2 = 12 := by
  refine ⟨⟨by decide, by decide⟩, ?_⟩
  obtain ⟨⟨s1, h1, hw, hout, _, hI, hround⟩, _⟩ :=
    C23_store_load_regs 0 0 sampleRegs 2 (by decide) (by decide)
  obtain ⟨s3, h3, hr⟩ := hround { s1 with REG := fun _ => 0 } hI (fun _ _ => rfl)
  refine ⟨s1, h1, hw 0 (by decide), hw 1 (by decide), hw 2 (by decide), ?_, hI, s3, h3,
    hr 0 (by decide), hr 1 (by decide), hr 2 (by decide)⟩
  rw [hout 0x403 (Or.inr (by decide))]
  rfl

end Chip8Core
